import Mathlib

/-!
# MWC Node Map: the peer-telemetry pipeline

A shallow embedding of `main.cpp`: the user-agent allow list, the record
serialisation of the peer-info callback, the finalize step of the archive
cycle and `geolocate`.

A `std::string` is a `List Char`, one `Char` per `char` of the string.
-/

namespace MwcNodeMap

open RegularExpression

/-! ## Strings and streams -/

/-- The manipulator `std::quoted(s)` with its default delimiter `"` and escape `\`:
the delimiter, every character of `s` (preceded by the escape when it is the
delimiter or the escape), the delimiter. -/
def quoted (s : List Char) : List Char :=
  '"' :: (s.flatMap (fun c => if c = '"' ∨ c = '\\' then ['\\', c] else [c]) ++ ['"'])

/-- The method `s.ends_with(t)` of `std::string`. -/
def ends_with (s t : List Char) : Bool := t.isSuffixOf s

/-- The decimal text of an unsigned integer, as `std::to_string` and `operator<<` write it. -/
def to_string (n : Nat) : List Char := Nat.toDigits 10 n

/-! ## The known user agent pattern -/

/-- A literal run of characters in a pattern. -/
def lit : List Char → RegularExpression Char
  | [] => 1
  | c :: cs => char c * lit cs

/-- The class `\d` in the classic locale. -/
def digitClass : RegularExpression Char :=
  char '0' + char '1' + char '2' + char '3' + char '4' + char '5' + char '6' + char '7' +
    char '8' + char '9'

/-- The bounded repetition `r{1,3}`. -/
def repeat1to3 (r : RegularExpression Char) : RegularExpression Char :=
  r * (1 + r * (1 + r))

/-- The constant `KNOWN_USER_AGENT_PATTERN`:
`^(?:MW\/MWC|MWC Validation Node|MWC Pay|MWC Node Map) \d{1,3}\.\d{1,3}\.\d{1,3}$`. -/
def KNOWN_USER_AGENT_PATTERN : RegularExpression Char :=
  (lit "MW/MWC".toList + lit "MWC Validation Node".toList + lit "MWC Pay".toList +
      lit "MWC Node Map".toList) *
    char ' ' * repeat1to3 digitClass * char '.' * repeat1to3 digitClass * char '.' *
    repeat1to3 digitClass

/-- The function `std::regex_match(s, p)`: the whole of `s` matches `p`. -/
def regex_match (s : List Char) (p : RegularExpression Char) : Bool := p.rmatch s

/-- The value handed to `quoted` for the `user_agent` key:
`regex_match(userAgent, KNOWN_USER_AGENT_PATTERN) ? userAgent : "Unknown"`. -/
def storedUserAgent (userAgent : List Char) : List Char :=
  if regex_match userAgent KNOWN_USER_AGENT_PATTERN then userAgent else "Unknown".toList

/-- The text written after `"user_agent":`. -/
def userAgentField (userAgent : List Char) : List Char := quoted (storedUserAgent userAgent)

/-! ## Doubles -/

/-- A `double`: not a number, an infinity, or the finite value `(-1)^neg * mant * 2^exp`
(every finite `double`, the negative zero included, is of this form). -/
inductive Double where
  | nan : Double
  | inf (neg : Bool) : Double
  | finite (neg : Bool) (mant : Nat) (exp : Int) : Double
  deriving DecidableEq, Repr

namespace Double

/-- The `double` of an integer. -/
def ofInt (i : Int) : Double := finite (decide (i < 0)) i.natAbs 0

/-- The function `isnan`. -/
def isnan : Double → Bool
  | nan => true
  | _ => false

/-- The function `isfinite`. -/
def isfinite : Double → Bool
  | finite _ _ _ => true
  | _ => false

/-- The integer `(-1)^neg * mant * 2^(exp - e)`, for `e ≤ exp`. -/
def scaled (neg : Bool) (mant : Nat) (exp e : Int) : Int :=
  if neg then -((mant : Int) * 2 ^ (exp - e).toNat) else (mant : Int) * 2 ^ (exp - e).toNat

/-- The comparison `a <= b` of two `double`s (false when either is not a number). -/
def le : Double → Double → Bool
  | finite s1 m1 e1, finite s2 m2 e2 =>
    decide (scaled s1 m1 e1 (min e1 e2) ≤ scaled s2 m2 e2 (min e1 e2))
  | inf true, inf _ => true
  | inf true, finite _ _ _ => true
  | finite _ _ _, inf false => true
  | inf false, inf false => true
  | _, _ => false

/-- The comparison `a >= b`. -/
def ge (a b : Double) : Bool := le b a

/-- The rational value of a finite `double`. -/
def toRat : Double → Option ℚ
  | finite neg mant exp => some ((if neg then -1 else 1) * (mant : ℚ) * (2 : ℚ) ^ exp)
  | _ => none

/-- The quotient `num / den` rounded to the nearest integer, ties to even. -/
def roundHalfEven (num den : Nat) : Nat :=
  if 2 * (num % den) < den then num / den
  else if den < 2 * (num % den) then num / den + 1
  else if (num / den) % 2 = 0 then num / den else num / den + 1

/-- Six decimal digits, padded with zeros on the left. -/
def pad6 (n : Nat) : List Char :=
  List.replicate (6 - (Nat.toDigits 10 n).length) '0' ++ Nat.toDigits 10 n

/-- The function `std::to_string(double)`, the format `%f`: the value rounded to six
decimals, as integer part, point and six digits. -/
def to_string : Double → List Char
  | nan => "nan".toList
  | inf neg => (if neg then ['-'] else []) ++ "inf".toList
  | finite neg mant exp =>
    (if neg then ['-'] else []) ++
      Nat.toDigits 10 (roundHalfEven (mant * 10 ^ 6 * 2 ^ exp.toNat) (2 ^ (-exp).toNat) / 10 ^ 6) ++
      ['.'] ++ pad6 (roundHalfEven (mant * 10 ^ 6 * 2 ^ exp.toNat) (2 ^ (-exp).toNat) % 10 ^ 6)

end Double

/-- The constant `MIN_LONGITUDE`. -/
def MIN_LONGITUDE : Double := Double.ofInt (-180)

/-- The constant `MAX_LONGITUDE`. -/
def MAX_LONGITUDE : Double := Double.ofInt 180

/-- The constant `MIN_LATITUDE`. -/
def MIN_LATITUDE : Double := Double.ofInt (-90)

/-- The constant `MAX_LATITUDE`. -/
def MAX_LATITUDE : Double := Double.ofInt 90

/-! ## Data -/

/-- The structure `Geolocation`; a text field is empty and a coordinate is not a number
until it is set. -/
structure Geolocation where
  continent : List Char := []
  country : List Char := []
  subdivision : List Char := []
  city : List Char := []
  longitude : Double := Double.nan
  latitude : Double := Double.nan
  deriving DecidableEq, Repr

/-- The arguments of the on peer info callback. -/
structure PeerInfo where
  peerIdentifier : List Char
  capabilities : Nat
  userAgent : List Char
  protocolVersion : Nat
  baseFee : Nat
  totalDifficulty : Nat
  isInbound : Bool
  deriving DecidableEq, Repr

/-- The manipulator `endl`: a newline (and a flush). -/
def endl : List Char := ['\n']

/-- The value handed to `quoted` for the `address` key:
`peerIdentifier.ends_with(".onion") ? to_string(hash<string>{}(peerIdentifier)) + ".onion" : peerIdentifier`.
The function `hash` is the `std::hash<string>` of the platform, a `size_t`. -/
def storedAddress (hash : List Char → Nat) (peerIdentifier : List Char) : List Char :=
  if ends_with peerIdentifier ".onion".toList then
    to_string (hash peerIdentifier % 2 ^ 64) ++ ".onion".toList
  else peerIdentifier

/-- A text field of the geolocation: `null` when empty, quoted otherwise. -/
def textField (s : List Char) : List Char :=
  if s.isEmpty then "null".toList else quoted s

/-- A coordinate of the geolocation:
`!isnan(x) ? '"' + to_string(x) + '"' : "null"`. -/
def coordinateField (x : Double) : List Char :=
  if !x.isnan then ['"'] ++ x.to_string ++ ['"'] else "null".toList

/-- The object written for a peer, from `"{"` to `"}"`, in the order of the insertions. -/
def peerObject (hash : List Char → Nat) (p : PeerInfo) (geolocation : Geolocation) : List Char :=
  "\x7b".toList ++
    "\"address\":".toList ++ quoted (storedAddress hash p.peerIdentifier) ++ ",".toList ++
    "\"capabilities\":\"".toList ++ to_string (p.capabilities % 2 ^ 32) ++ "\",".toList ++
    "\"user_agent\":".toList ++ quoted (storedUserAgent p.userAgent) ++ ",".toList ++
    "\"base_fee\":\"".toList ++ to_string (p.baseFee % 2 ^ 64) ++ "\",".toList ++
    "\"continent\":".toList ++ textField geolocation.continent ++
    ",\"country\":".toList ++ textField geolocation.country ++
    ",\"subdivision\":".toList ++ textField geolocation.subdivision ++
    ",\"city\":".toList ++ textField geolocation.city ++
    ",\"longitude\":".toList ++ coordinateField geolocation.longitude ++ ",".toList ++
    "\"latitude\":".toList ++ coordinateField geolocation.latitude ++
    "\x7d".toList

/-- Everything the callback inserts into the file stream:
`(fileExists ? ',' : '[') << endl` and the object. -/
def peerInfoOutput (hash : List Char → Nat) (fileExists : Bool) (p : PeerInfo)
    (geolocation : Geolocation) : List Char :=
  [if fileExists then ',' else '['] ++ endl ++ peerObject hash p geolocation

/-- Everything the finalize step of an archive cycle inserts into the file stream:
`(fileExists ? "" : "[") << endl << ']'`. -/
def finalizeOutput (fileExists : Bool) : List Char :=
  (if fileExists then "".toList else "[".toList) ++ endl ++ [']']

/-! ## The geo database and `geolocate` -/

/-- The constant `MMDB_SUCCESS` of the database library. -/
def MMDB_SUCCESS : Int := 0

/-- The constant `MMDB_DATA_TYPE_UTF8_STRING` of the database library. -/
def MMDB_DATA_TYPE_UTF8_STRING : Nat := 2

/-- The constant `MMDB_DATA_TYPE_DOUBLE` of the database library. -/
def MMDB_DATA_TYPE_DOUBLE : Nat := 3

/-- What `MMDB_get_value` yields: its status and the entry data it fills in
(`utf8_string` holds the `data_size` characters of the text). -/
structure MMDB_entry_data_s where
  status : Int
  has_data : Bool
  type : Nat
  utf8_string : List Char
  double_value : Double

/-- The result of a lookup: whether an entry was found, and `MMDB_get_value` on that
entry as a function of the path of keys. -/
structure MMDB_lookup_result_s where
  found_entry : Bool
  get_value : List String → MMDB_entry_data_s

/-- The socket address handed to the lookup: the family and the literal that was parsed. -/
inductive SockAddr where
  | AF_INET (literal : List Char) : SockAddr
  | AF_INET6 (literal : List Char) : SockAddr
  deriving DecidableEq, Repr

/-- What the program reads from its platform: the `std::hash<string>` in use, the result of
`inet_pton(AF_INET6, ·)`, `MwcValidationNode::Common::isUtf8`, the status of `MMDB_open`
on the database file, and `MMDB_lookup_sockaddr` with the error code it sets. -/
structure Env where
  hash : List Char → Nat
  inet_pton6 : List Char → Int
  isUtf8 : List Char → Bool
  MMDB_open : Int
  MMDB_lookup_sockaddr : SockAddr → MMDB_lookup_result_s × Int

/-- The method `c_str()`: the characters up to the first null character. -/
def c_str (s : List Char) : List Char := s.takeWhile (fun c => c != Char.ofNat 0)

/-- The state of the IPv4 parser of `inet_pton`: whether a digit of the current octet was
seen, the number of octets begun, and the value of the current octet. -/
structure Pton4State where
  saw_digit : Bool
  octets : Nat
  value : Nat

/-- One character of the IPv4 parser of `inet_pton`; `none` once the text is rejected. -/
def inet_pton4_step : Option Pton4State → Char → Option Pton4State
  | none, _ => none
  | some st, ch =>
    if '0' ≤ ch ∧ ch ≤ '9' then
      if st.saw_digit && st.value == 0 then none
      else if st.value * 10 + (ch.toNat - '0'.toNat) > 255 then none
      else if !st.saw_digit then
        if st.octets + 1 > 4 then none
        else some ⟨true, st.octets + 1, st.value * 10 + (ch.toNat - '0'.toNat)⟩
      else some ⟨true, st.octets, st.value * 10 + (ch.toNat - '0'.toNat)⟩
    else if ch = '.' ∧ st.saw_digit then
      if st.octets == 4 then none else some ⟨false, st.octets, 0⟩
    else none

/-- The call `inet_pton(AF_INET, src, ·)`: `1` for four dot-separated decimal octets of at
most 255 without a leading zero, `0` otherwise. -/
def inet_pton4 (src : List Char) : Int :=
  match src.foldl inet_pton4_step (some ⟨false, 0, 0⟩) with
  | some st => if st.octets < 4 then 0 else 1
  | none => 0

/-- A use of the database. -/
inductive DbCall where
  | open_ : DbCall
  | lookup (ip : SockAddr) : DbCall
  deriving DecidableEq, Repr

/-- A run of `geolocate`: the uses of the database in order, and the value returned or
the message of the exception thrown. -/
structure GeolocateRun where
  calls : List DbCall
  result : Except (List Char) Geolocation

/-- Whether `MMDB_get_value` gave a text: success, data, the text type, valid UTF-8. -/
def textFound (isUtf8 : List Char → Bool) (d : MMDB_entry_data_s) : Bool :=
  d.status == MMDB_SUCCESS && d.has_data && d.type == MMDB_DATA_TYPE_UTF8_STRING &&
    isUtf8 d.utf8_string

/-- Whether `MMDB_get_value` gave a coordinate between `lo` and `hi`: success, data, the
double type, finite, in range. -/
def coordinateFound (lo hi : Double) (d : MMDB_entry_data_s) : Bool :=
  d.status == MMDB_SUCCESS && d.has_data && d.type == MMDB_DATA_TYPE_DOUBLE &&
    d.double_value.isfinite && d.double_value.ge lo && d.double_value.le hi

/-- The second half of `geolocate`: the geolocation read from a found entry. -/
def geolocationOfEntry (isUtf8 : List Char → Bool) (get_value : List String → MMDB_entry_data_s) :
    Geolocation :=
  let geolocation : Geolocation := {}
  let geolocation :=
    if textFound isUtf8 (get_value ["continent", "names", "en"]) then
      { geolocation with continent := (get_value ["continent", "names", "en"]).utf8_string }
    else geolocation
  let geolocation :=
    if textFound isUtf8 (get_value ["country", "names", "en"]) then
      { geolocation with country := (get_value ["country", "names", "en"]).utf8_string }
    else geolocation
  let geolocation :=
    if textFound isUtf8 (get_value ["subdivisions", "0", "names", "en"]) then
      { geolocation with
        subdivision := (get_value ["subdivisions", "0", "names", "en"]).utf8_string }
    else geolocation
  let geolocation :=
    if textFound isUtf8 (get_value ["city", "names", "en"]) then
      { geolocation with city := (get_value ["city", "names", "en"]).utf8_string }
    else geolocation
  if coordinateFound MIN_LONGITUDE MAX_LONGITUDE (get_value ["location", "longitude"]) then
    let geolocation :=
      { geolocation with longitude := (get_value ["location", "longitude"]).double_value }
    if coordinateFound MIN_LATITUDE MAX_LATITUDE (get_value ["location", "latitude"]) then
      { geolocation with latitude := (get_value ["location", "latitude"]).double_value }
    else { geolocation with longitude := Double.nan }
  else geolocation

/-- The first half of `geolocate`: the socket address parsed from the address, `none`
where the function returns the empty geolocation at once. -/
def parseAddress (env : Env) (address : List Char) : Option SockAddr :=
  if address.head? = some '[' ∧ address.contains ']' then
    if env.inet_pton6 (c_str ((address.drop 1).take (address.indexOf ']' - 1))) = 1 then
      some (SockAddr.AF_INET6 (c_str ((address.drop 1).take (address.indexOf ']' - 1))))
    else none
  else if address.contains ':' then
    if inet_pton4 (c_str (address.take (address.indexOf ':'))) = 1 then
      some (SockAddr.AF_INET (c_str (address.take (address.indexOf ':'))))
    else none
  else none

/-- The function `geolocate`. -/
def geolocate (env : Env) (address : List Char) : GeolocateRun :=
  match parseAddress env address with
  | none => ⟨[], Except.ok {}⟩
  | some ipAddress =>
    if env.MMDB_open ≠ MMDB_SUCCESS then
      ⟨[DbCall.open_], Except.error "Opening the IP geolocate database failed".toList⟩
    else if (env.MMDB_lookup_sockaddr ipAddress).2 ≠ MMDB_SUCCESS then
      ⟨[DbCall.open_, DbCall.lookup ipAddress],
        Except.error "Looking up the IP address in the IP geolocate database failed".toList⟩
    else if !(env.MMDB_lookup_sockaddr ipAddress).1.found_entry then
      ⟨[DbCall.open_, DbCall.lookup ipAddress], Except.ok {}⟩
    else
      ⟨[DbCall.open_, DbCall.lookup ipAddress],
        Except.ok (geolocationOfEntry env.isUtf8 (env.MMDB_lookup_sockaddr ipAddress).1.get_value)⟩

/-! ## The log file and the callback -/

/-- The failure, if any, of the file operations of one step: `filesystem::exists` throws,
the stream fails to open, or a write fails after `written` characters reached the file.
Each carries the text of `what()`. -/
inductive IoFault where
  | none : IoFault
  | existsThrows (what : List Char) : IoFault
  | openFails (what : List Char) : IoFault
  | writeFails (written : Nat) (what : List Char) : IoFault

/-- The file at `RECENT_PEERS_JSON_LOCATION` (absent, or its content) and the text written
to standard output. -/
structure World where
  file : Option (List Char)
  out : List Char
  deriving DecidableEq, Repr

/-- The diagnostic of the callback for an exception with message `what`. -/
def updateFailed (what : List Char) : List Char :=
  "Updating recent peers JSON file failed: ".toList ++ what ++ endl

/-- The status line of the callback. -/
def detected (p : PeerInfo) : List Char :=
  "Detected ".toList ++ (if p.isInbound then "inbound".toList else "outbound".toList) ++
    " peer ".toList ++ p.peerIdentifier ++ endl

/-- The on peer info callback: geolocate, then under the lock test whether the file exists,
open it for appending and write; an exception ends it with a diagnostic. -/
def onPeerInfo (env : Env) (fault : IoFault) (w : World) (p : PeerInfo) : World :=
  match (geolocate env p.peerIdentifier).result with
  | Except.error what => { w with out := w.out ++ updateFailed what }
  | Except.ok geolocation =>
    match fault with
    | IoFault.none =>
      { file := some (w.file.getD [] ++ peerInfoOutput env.hash w.file.isSome p geolocation),
        out := w.out ++ detected p }
    | IoFault.existsThrows what => { w with out := w.out ++ updateFailed what }
    | IoFault.openFails what => { w with out := w.out ++ updateFailed what }
    | IoFault.writeFails written what =>
      { file := some (w.file.getD [] ++
          (peerInfoOutput env.hash w.file.isSome p geolocation).take written),
        out := w.out ++ updateFailed what }

/-- The finalize step of an archive cycle with all its file operations succeeding: test
whether the file exists, open it for appending, write the end of the array, close. -/
def finalize (file : Option (List Char)) : Option (List Char) :=
  some (file.getD [] ++ finalizeOutput file.isSome)

/-- The file after the callback ran for each peer in turn, every run without a fault. -/
def appendAll (env : Env) (w : World) (peers : List PeerInfo) : World :=
  peers.foldl (onPeerInfo env IoFault.none) w

/-! ## The archive cycle -/

/-- The return values of the calls of the Git library made by `uploadRecentPeersJsonFile`,
in the order of the calls, for the access token in use. -/
structure GitResults where
  git_libgit2_init : Int
  git_repository_open : Int
  git_repository_index : Int
  git_index_add_bypath : Int
  git_index_write : Int
  git_index_write_tree : Int
  git_tree_lookup : Int
  git_signature_now : Int
  git_reference_name_to_id : Int
  git_commit_lookup : Int
  git_commit_create : Int
  git_remote_lookup : Int
  git_remote_push : Int

/-- The function `uploadRecentPeersJsonFile`: each call of the Git library in turn, the
first negative return value throwing a `runtime_error` with its message. -/
def uploadRecentPeersJsonFile (git : GitResults) : Except (List Char) Unit :=
  if git.git_libgit2_init < 0 then Except.error "Initializing Git failed".toList
  else if git.git_repository_open < 0 then Except.error "Opening repo failed".toList
  else if git.git_repository_index < 0 then
    Except.error "Getting repo\x27s index failed".toList
  else if git.git_index_add_bypath < 0 then
    Except.error "Changing index to update recent peers JSON file failed".toList
  else if git.git_index_write < 0 then Except.error "Saving index failed".toList
  else if git.git_index_write_tree < 0 then
    Except.error "Getting tree ID from the index failed".toList
  else if git.git_tree_lookup < 0 then
    Except.error "Getting tree with the tree ID failed".toList
  else if git.git_signature_now < 0 then Except.error "Creating signature failed".toList
  else if git.git_reference_name_to_id < 0 then
    Except.error "Getting repo\x27s head ID failed".toList
  else if git.git_commit_lookup < 0 then Except.error "Getting head commit failed".toList
  else if git.git_commit_create < 0 then
    Except.error "Creating commit for the tree failed".toList
  else if git.git_remote_lookup < 0 then
    Except.error "Getting repo\x27s remote failed".toList
  else if git.git_remote_push < 0 then
    Except.error "Pushing changes to remote failed".toList
  else Except.ok ()

/-- The failure, if any, of the deletion of the file: `filesystem::exists` throws,
`filesystem::remove` returns false, or `filesystem::remove` throws. -/
inductive RemoveFault where
  | none : RemoveFault
  | existsThrows : RemoveFault
  | removeFails : RemoveFault
  | removeThrows : RemoveFault
  deriving DecidableEq, Repr

/-- The diagnostic of a failed deletion. -/
def deletingFailed : List Char := "Deleting recent peers JSON file failed".toList ++ endl

/-- The deletion of the file, at startup and at the end of an archive cycle:
`filesystem::exists(...) && !filesystem::remove(...)` inside a `try`. The flag tells
whether `main` returns `EXIT_FAILURE`. -/
def deleteRecentPeersJsonFile (r : RemoveFault) (w : World) : World × Bool :=
  match r with
  | RemoveFault.existsThrows => ({ w with out := w.out ++ deletingFailed }, true)
  | RemoveFault.none => ({ w with file := none }, false)
  | RemoveFault.removeFails =>
    if w.file.isSome then ({ w with out := w.out ++ deletingFailed }, true) else (w, false)
  | RemoveFault.removeThrows =>
    if w.file.isSome then ({ w with out := w.out ++ deletingFailed }, true) else (w, false)

/-- The diagnostic of an archive cycle for an exception with message `what`. -/
def uploadFailed (what : List Char) : List Char :=
  "Uploading recent peers JSON file failed: ".toList ++ what ++ endl

/-- The inner `try` block of an archive cycle: the finalize step, then the upload. The
result is the file afterwards and the message of the exception thrown, if any. -/
def finalizeAndUpload (fault : IoFault) (git : GitResults) (file : Option (List Char)) :
    Option (List Char) × Option (List Char) :=
  match fault with
  | IoFault.none =>
    (finalize file,
      match uploadRecentPeersJsonFile git with
      | Except.ok _ => none
      | Except.error what => some what)
  | IoFault.existsThrows what => (file, some what)
  | IoFault.openFails what => (file, some what)
  | IoFault.writeFails written what =>
    (some (file.getD [] ++ (finalizeOutput file.isSome).take written), some what)

/-- The failures met by one archive cycle: taking the lock throws, a file operation of the
finalize step fails, the deletion fails. -/
structure CycleFaults where
  lockThrows : Bool
  finalize : IoFault
  remove : RemoveFault

/-- The end of an archive cycle: the world, the flag `errorOccurred`, and whether `main`
returns `EXIT_FAILURE`. -/
structure CycleResult where
  world : World
  errorOccurred : Bool
  exitFailure : Bool

/-- The body of the `if` of the scheduler loop, up to the reset of the reference time: one
archive cycle. -/
def archiveCycle (f : CycleFaults) (git : GitResults) (w : World) : CycleResult :=
  if f.lockThrows then
    ⟨{ w with out := w.out ++ "Uploading recent peers JSON file failed".toList ++ endl },
      true, false⟩
  else
    let tried := finalizeAndUpload f.finalize git w.file
    let deleted := deleteRecentPeersJsonFile f.remove
      ⟨tried.1,
        match tried.2 with
        | some what => w.out ++ uploadFailed what
        | none => w.out⟩
    if deleted.2 then ⟨deleted.1, tried.2.isSome, true⟩
    else if tried.2.isSome then ⟨deleted.1, true, false⟩
    else
      ⟨{ deleted.1 with
          out := deleted.1.out ++ "Successfully uploading recent peers JSON file".toList ++
            endl },
        false, false⟩

/-! ## The process as a sequence of operations -/

/-- An operation on the log file: a run of the callback for a peer, or an archive cycle. -/
inductive Op where
  | append (p : PeerInfo) (fault : IoFault) : Op
  | cycle (f : CycleFaults) (git : GitResults) : Op

/-- One operation; `none` when `main` returns `EXIT_FAILURE`. -/
def step (env : Env) (w : World) : Op → Option World
  | Op.append p fault => some (onPeerInfo env fault w p)
  | Op.cycle f git =>
    if (archiveCycle f git w).exitFailure then none else some (archiveCycle f git w).world

/-- The operations in turn; `none` once `main` has returned `EXIT_FAILURE`. -/
def run (env : Env) (w : World) : List Op → Option World
  | [] => some w
  | op :: ops =>
    match step env w op with
    | none => none
    | some w2 => run env w2 ops

/-- The deletion of the file at startup; `none` when `main` returns `EXIT_FAILURE`. -/
def startup (r : RemoveFault) (w : World) : Option World :=
  if (deleteRecentPeersJsonFile r w).2 then none else some (deleteRecentPeersJsonFile r w).1

/-! ## The scheduler loop -/

/-- The constant `UPLOAD_RECENT_PEERS_JSON_FILE_INTERVAL`, 168 hours, in the nanoseconds of
the steady clock. -/
def UPLOAD_RECENT_PEERS_JSON_FILE_INTERVAL : Int := 168 * 3600 * 1000000000

/-- What one iteration of the loop meets: the reading of the steady clock in the condition,
the failures and Git results of the cycle if one runs, and the reading of the steady clock
after the cycle. -/
structure Tick where
  now : Int
  faults : CycleFaults
  git : GitResults
  nowAfter : Int

/-- The state of the loop: the reference time, the world, whether `main` has returned, and
the clock readings at which cycles were started, the latest first. -/
structure LoopState where
  lastUploadRecentPeersJsonFileTime : Int
  world : World
  exited : Bool
  starts : List Int

/-- The condition of the `if` of the loop: the access token exists and it is time to upload. -/
def timeToUpload (accessToken : List Char) (s : LoopState) (t : Tick) : Bool :=
  !accessToken.isEmpty &&
    decide (t.now - s.lastUploadRecentPeersJsonFileTime ≥ UPLOAD_RECENT_PEERS_JSON_FILE_INTERVAL)

/-- One iteration of the scheduler loop. -/
def loopTick (accessToken : List Char) (s : LoopState) (t : Tick) : LoopState :=
  if s.exited then s
  else if timeToUpload accessToken s t then
    if (archiveCycle t.faults t.git s.world).exitFailure then
      { s with world := (archiveCycle t.faults t.git s.world).world, exited := true,
               starts := t.now :: s.starts }
    else
      { lastUploadRecentPeersJsonFileTime := t.nowAfter,
        world := (archiveCycle t.faults t.git s.world).world,
        exited := false,
        starts := t.now :: s.starts }
  else s

/-- The loop entered at the clock reading `start`, over the iterations met. -/
def schedulerLoop (accessToken : List Char) (start : Int) (w : World) (ticks : List Tick) :
    LoopState :=
  ticks.foldl (loopTick accessToken) ⟨start, w, false, []⟩

/-! ### The allow list as the specification words it -/

/-- A decimal digit. -/
def SpecDecimalDigit (c : Char) : Prop := c ∈ "0123456789".toList

instance (c : Char) : Decidable (SpecDecimalDigit c) := by
  unfold SpecDecimalDigit; infer_instance

/-- A group of one to three decimal digits. -/
def SpecDigitGroup (g : List Char) : Prop :=
  1 ≤ g.length ∧ g.length ≤ 3 ∧ ∀ c ∈ g, SpecDecimalDigit c

instance (g : List Char) : Decidable (SpecDigitGroup g) := by
  unfold SpecDigitGroup; infer_instance

/-- The recognised product names. -/
def specProductNames : List (List Char) :=
  ["MW/MWC".toList, "MWC Validation Node".toList, "MWC Pay".toList, "MWC Node Map".toList]

/-- A product name, one space, three dot-separated digit groups, and nothing else. -/
def SpecKnownUserAgent (u : List Char) : Prop :=
  ∃ name ∈ specProductNames, ∃ a b c : List Char,
    SpecDigitGroup a ∧ SpecDigitGroup b ∧ SpecDigitGroup c ∧
      u = name ++ [' '] ++ a ++ ['.'] ++ b ++ ['.'] ++ c

/-! ### Reading a record back -/

/-- A value of a member of a record: a text, or `null`. -/
inductive SpecValue where
  | text (s : List Char) : SpecValue
  | null : SpecValue
  deriving DecidableEq, Repr

/-- The character an escape of a JSON string stands for, the escape `\u` apart. -/
def specUnescape (e : Char) : Option Char :=
  if e = '"' then some '"'
  else if e = '\\' then some '\\'
  else if e = '/' then some '/'
  else if e = 'b' then some (Char.ofNat 8)
  else if e = 'f' then some (Char.ofNat 12)
  else if e = 'n' then some '\n'
  else if e = 'r' then some '\r'
  else if e = 't' then some '\t'
  else none

/-- The value of a hexadecimal digit. -/
def specHexDigit (c : Char) : Option Nat :=
  if '0' ≤ c ∧ c ≤ '9' then some (c.toNat - '0'.toNat)
  else if 'a' ≤ c ∧ c ≤ 'f' then some (c.toNat - 'a'.toNat + 10)
  else if 'A' ≤ c ∧ c ≤ 'F' then some (c.toNat - 'A'.toNat + 10)
  else none

/-- The character of the escape `\u` with four hexadecimal digits. -/
def specHexEscape (h1 h2 h3 h4 : Char) : Option Char :=
  match specHexDigit h1, specHexDigit h2, specHexDigit h3, specHexDigit h4 with
  | some a, some b, some c, some d => some (Char.ofNat (((a * 16 + b) * 16 + c) * 16 + d))
  | _, _, _, _ => none

/-- What a JSON string says, read after its opening quote: the text it stands for and
what follows its closing quote. A control character may not stand unescaped. -/
def specReadString : List Char → Option (List Char × List Char)
  | [] => none
  | c :: rest =>
    if c = '"' then some ([], rest)
    else if c = '\\' then
      match rest with
      | [] => none
      | e :: rest2 =>
        if e = 'u' then
          match rest2 with
          | h1 :: h2 :: h3 :: h4 :: rest3 =>
            match specHexEscape h1 h2 h3 h4 with
            | some d => (specReadString rest3).map (fun r => (d :: r.1, r.2))
            | none => none
          | _ => none
        else
          match specUnescape e with
          | some d => (specReadString rest2).map (fun r => (d :: r.1, r.2))
          | none => none
    else if c.toNat < 32 then none
    else (specReadString rest).map (fun r => (c :: r.1, r.2))

/-- A value read: a string, or the bare word `null`; and what follows it. -/
def specReadValue (s : List Char) : Option (SpecValue × List Char) :=
  match s with
  | [] => none
  | c :: rest =>
    if c = '"' then (specReadString rest).map (fun r => (SpecValue.text r.1, r.2))
    else if s.take 4 = "null".toList then some (SpecValue.null, s.drop 4)
    else none

/-- A member read: a key in double quotes, a colon, a value; and what follows it. -/
def specReadMember (s : List Char) : Option ((List Char × SpecValue) × List Char) :=
  match s with
  | [] => none
  | c :: rest =>
    if c = '"' then
      match specReadString rest with
      | some (key, d :: rest2) =>
        if d = ':' then (specReadValue rest2).map (fun r => ((key, r.1), r.2)) else none
      | _ => none
    else none

/-- The members of an object read one after the other, a comma between two of them and
the closing brace after the last; and what follows the brace. -/
def specReadMembers : Nat → List Char → Option (List (List Char × SpecValue) × List Char)
  | 0, _ => none
  | fuel + 1, s =>
    match specReadMember s with
    | none => none
    | some (m, rest) =>
      match rest with
      | [] => none
      | c :: rest2 =>
        if c = ',' then (specReadMembers fuel rest2).map (fun r => (m :: r.1, r.2))
        else if c = '\x7d' then some ([m], rest2)
        else none

/-- An object read: the opening brace and its members, in their order; and what follows
the object. -/
def specReadObject (s : List Char) : Option (List (List Char × SpecValue) × List Char) :=
  match s with
  | [] => none
  | c :: rest => if c = '\x7b' then specReadMembers rest.length rest else none

/-- The number a run of decimal digits stands for. -/
def specNatValue (ds : List Char) : Nat :=
  ds.foldl (fun n c => 10 * n + (c.toNat - '0'.toNat)) 0

/-- A text is the decimal integer `n`: one or more decimal digits, the first of them a
zero only when it is the only one, that stand for `n`. -/
def SpecDecimalOf (n : Nat) (t : List Char) : Prop :=
  t ≠ [] ∧ (∀ c ∈ t, SpecDecimalDigit c) ∧ (t.head? = some '0' → t = ['0']) ∧
    specNatValue t = n

/-- A text is the six-decimal fixed-point number of the value `q`: a minus sign only if
`q` is not positive, a decimal integer, a point and six decimal digits, standing for a
number that lies within half a millionth of the magnitude of `q`. -/
def SpecSixDecimalOf (q : ℚ) (t : List Char) : Prop :=
  ∃ (sign whole frac : List Char) (w : Nat), t = sign ++ whole ++ ['.'] ++ frac ∧
    (sign = [] ∧ 0 ≤ q ∨ sign = ['-'] ∧ q ≤ 0) ∧ SpecDecimalOf w whole ∧
    frac.length = 6 ∧ (∀ c ∈ frac, SpecDecimalDigit c) ∧
    abs (((w : ℚ) + (specNatValue frac : ℚ) / 10 ^ 6) - abs q) ≤ 1 / (2 * 10 ^ 6)

/-- The value of a coordinate: `null` when it is absent, the text of its six-decimal
number when it is present. -/
def SpecCoordinateOf (x : Double) (v : SpecValue) : Prop :=
  (x = Double.nan ∧ v = SpecValue.null) ∨
    ∃ q t, x.toRat = some q ∧ v = SpecValue.text t ∧ SpecSixDecimalOf q t

/-- The value of a text of the geolocation: `null` when it is absent, the text otherwise. -/
def specNullable (s : List Char) : SpecValue :=
  if s = [] then SpecValue.null else SpecValue.text s

/-- A text without control characters. -/
def SpecPrintable (s : List Char) : Prop := ∀ c ∈ s, 32 ≤ c.toNat

instance (s : List Char) : Decidable (SpecPrintable s) := by
  unfold SpecPrintable
  infer_instance

/-! ### The object of the callback as a list of members -/

/-- The text of a value: the quoted text, or `null`. -/
def renderValue : SpecValue → List Char
  | SpecValue.text s => quoted s
  | SpecValue.null => "null".toList

/-- The text of a member: the quoted key, a colon, the text of the value. -/
def renderMember (m : List Char × SpecValue) : List Char :=
  quoted m.1 ++ [':'] ++ renderValue m.2

/-- The text of an object: its members between braces, separated by commas. -/
def renderObject (ms : List (List Char × SpecValue)) : List Char :=
  ['\x7b'] ++ [','].intercalate (ms.map renderMember) ++ ['\x7d']

/-- A value whose text holds no control character. -/
def valuePrintable : SpecValue → Prop
  | SpecValue.text s => SpecPrintable s
  | SpecValue.null => True

/-- A member whose key and value hold no control character. -/
def memberPrintable (m : List Char × SpecValue) : Prop :=
  SpecPrintable m.1 ∧ valuePrintable m.2

/-- The value of a coordinate as the callback writes it. -/
def coordinateValue (x : Double) : SpecValue :=
  if x.isnan then SpecValue.null else SpecValue.text x.to_string

/-- The members of the object of the callback, in the order of the insertions. -/
def peerMembers (hash : List Char → Nat) (p : PeerInfo) (g : Geolocation) :
    List (List Char × SpecValue) :=
  [("address".toList, SpecValue.text (storedAddress hash p.peerIdentifier)),
    ("capabilities".toList, SpecValue.text (to_string (p.capabilities % 2 ^ 32))),
    ("user_agent".toList, SpecValue.text (storedUserAgent p.userAgent)),
    ("base_fee".toList, SpecValue.text (to_string (p.baseFee % 2 ^ 64))),
    ("continent".toList, specNullable g.continent),
    ("country".toList, specNullable g.country),
    ("subdivision".toList, specNullable g.subdivision),
    ("city".toList, specNullable g.city),
    ("longitude".toList, coordinateValue g.longitude),
    ("latitude".toList, coordinateValue g.latitude)]

/-! ### The objects of a run -/

/-- The object the callback writes for a peer on a platform, where its geolocation succeeds. -/
def peerObjectOf (env : Env) (p : PeerInfo) : List Char :=
  match (geolocate env p.peerIdentifier).result with
  | Except.ok geolocation => peerObject env.hash p geolocation
  | Except.error _ => []

/-- The geolocation of a peer succeeds on a platform. -/
def Geolocates (env : Env) (p : PeerInfo) : Prop :=
  ∃ g, (geolocate env p.peerIdentifier).result = Except.ok g

/-! ### The JSON grammar -/

/-- Insignificant whitespace of JSON. -/
def jsonWs (c : Char) : Bool := c == ' ' || c == '\t' || c == '\n' || c == '\r'

/-- A hexadecimal digit. -/
def jsonHex (c : Char) : Bool :=
  ('0' ≤ c && c ≤ '9') || ('a' ≤ c && c ≤ 'f') || ('A' ≤ c && c ≤ 'F')

/-- The rest of a JSON string after its opening quote: what follows its closing quote.
A control character may not stand unescaped, and an escape is one of the nine of the
grammar. -/
def jsonString : List Char → Option (List Char)
  | [] => none
  | c :: rest =>
    if c = '"' then some rest
    else if c = '\\' then
      match rest with
      | [] => none
      | e :: rest2 =>
        if e = 'u' then
          match rest2 with
          | h1 :: h2 :: h3 :: h4 :: rest3 =>
            if jsonHex h1 && jsonHex h2 && jsonHex h3 && jsonHex h4 then jsonString rest3
            else none
          | _ => none
        else if e ∈ ['"', '\\', '/', 'b', 'f', 'n', 'r', 't'] then jsonString rest2
        else none
    else if c.toNat < 32 then none
    else jsonString rest

/-- A run of digits, at least one when `need`: what follows it. -/
def jsonDigits (need : Bool) : List Char → Option (List Char)
  | [] => if need then none else some []
  | c :: rest =>
    if '0' ≤ c ∧ c ≤ '9' then jsonDigits false rest
    else if need then none else some (c :: rest)

/-- The exponent of a JSON number, if any: what follows it. -/
def jsonExponent : List Char → Option (List Char)
  | [] => some []
  | c :: rest =>
    if c = 'e' ∨ c = 'E' then
      match rest with
      | '+' :: rest2 => jsonDigits true rest2
      | '-' :: rest2 => jsonDigits true rest2
      | _ => jsonDigits true rest
    else some (c :: rest)

/-- The fraction and exponent of a JSON number, if any: what follows them. -/
def jsonFraction : List Char → Option (List Char)
  | '.' :: rest => (jsonDigits true rest).bind jsonExponent
  | s => jsonExponent s

/-- A JSON number after its optional minus sign: what follows it. -/
def jsonNumber : List Char → Option (List Char)
  | [] => none
  | c :: rest =>
    if c = '0' then jsonFraction rest
    else if '1' ≤ c ∧ c ≤ '9' then (jsonDigits false rest).bind jsonFraction
    else none

/-- What the recogniser expects next: a value; the rest of an array after one of its
values; a member of an object; the rest of an object after one of its members. -/
inductive JsonMode where
  | value : JsonMode
  | elements : JsonMode
  | member : JsonMode
  | members : JsonMode

/-- The recogniser of the JSON grammar, with fuel: what follows the construct read. -/
def jsonParse : Nat → JsonMode → List Char → Option (List Char)
  | 0, _, _ => none
  | fuel + 1, JsonMode.value, s =>
    match s.dropWhile jsonWs with
    | '"' :: rest => jsonString rest
    | '[' :: rest =>
      match rest.dropWhile jsonWs with
      | ']' :: rest2 => some rest2
      | _ => (jsonParse fuel JsonMode.value rest).bind (jsonParse fuel JsonMode.elements)
    | '{' :: rest =>
      match rest.dropWhile jsonWs with
      | '}' :: rest2 => some rest2
      | _ => (jsonParse fuel JsonMode.member rest).bind (jsonParse fuel JsonMode.members)
    | 't' :: 'r' :: 'u' :: 'e' :: rest => some rest
    | 'f' :: 'a' :: 'l' :: 's' :: 'e' :: rest => some rest
    | 'n' :: 'u' :: 'l' :: 'l' :: rest => some rest
    | '-' :: rest => jsonNumber rest
    | rest => jsonNumber rest
  | fuel + 1, JsonMode.elements, s =>
    match s.dropWhile jsonWs with
    | ']' :: rest => some rest
    | ',' :: rest => (jsonParse fuel JsonMode.value rest).bind (jsonParse fuel JsonMode.elements)
    | _ => none
  | fuel + 1, JsonMode.member, s =>
    match s.dropWhile jsonWs with
    | '"' :: rest =>
      match (jsonString rest).map (List.dropWhile jsonWs) with
      | some (':' :: rest2) => jsonParse fuel JsonMode.value rest2
      | _ => none
    | _ => none
  | fuel + 1, JsonMode.members, s =>
    match s.dropWhile jsonWs with
    | '}' :: rest => some rest
    | ',' :: rest => (jsonParse fuel JsonMode.member rest).bind (jsonParse fuel JsonMode.members)
    | _ => none

/-- A text is a syntactically valid JSON document: one value, with whitespace around it. -/
def validJson (s : List Char) : Bool :=
  match jsonParse (s.length + 1) JsonMode.value s with
  | some rest => (rest.dropWhile jsonWs).isEmpty
  | none => false

/-! ### The address forms as the specification words them -/

/-- A port: a non-empty run of decimal digits. -/
def SpecPort (s : List Char) : Prop := s ≠ [] ∧ ∀ c ∈ s, SpecDecimalDigit c

/-- An address of the form `<IPv4 literal>:<port>`. -/
def SpecIPv4Form (address : List Char) : Prop :=
  ∃ host port, address = host ++ [':'] ++ port ∧ inet_pton4 host = 1 ∧ SpecPort port

/-- An address of the form `[<IPv6 literal>]:<port>`. -/
def SpecIPv6Form (env : Env) (address : List Char) : Prop :=
  ∃ host port, address = ['['] ++ host ++ [']', ':'] ++ port ∧ env.inet_pton6 host = 1 ∧
    SpecPort port

/-- An address that holds a `:` preceded by an IPv4 literal, whatever follows the `:`. -/
def SpecIPv4Prefixed (address : List Char) : Prop :=
  ∃ host rest, address = host ++ [':'] ++ rest ∧ inet_pton4 (c_str host) = 1

/-- An address that begins with `[`, an IPv6 literal and `]`, whatever follows the `]`. -/
def SpecIPv6Bracketed (env : Env) (address : List Char) : Prop :=
  ∃ host rest, address = ['['] ++ host ++ [']'] ++ rest ∧ env.inet_pton6 (c_str host) = 1

/-! ### The states of the log file as the specification words them -/

/-- An Open file: `[`, a newline, then one or more complete record objects separated by a
comma and a newline, with no closing `]`. -/
def SpecOpen (env : Env) (content : List Char) : Prop :=
  ∃ records : List (PeerInfo × Geolocation), records ≠ [] ∧
    content = "[\n".toList ++
      ",\n".toList.intercalate (records.map (fun r => peerObject env.hash r.1 r.2))

/-- The file is absent or Open. -/
def SpecAbsentOrOpen (env : Env) (file : Option (List Char)) : Prop :=
  file = none ∨ ∃ content, file = some content ∧ SpecOpen env content

/-- An operation that is not an append whose write fails: an append succeeds or fails
before anything is written, an archive cycle may fail anywhere. -/
def FailsBeforeWriting : Op → Prop
  | Op.append _ (IoFault.writeFails _ _) => False
  | _ => True

/-! ### A bad coordinate as the specification words it -/

/-- A coordinate of the database that is missing, wrongly typed, not finite or out of
range: the lookup of its path does not succeed or gives no data; the data is not a double;
the double is not finite; or its value lies outside `lo .. hi`. -/
def SpecBadCoordinate (lo hi : ℚ) (d : MMDB_entry_data_s) : Prop :=
  d.status ≠ MMDB_SUCCESS ∨ d.has_data = false ∨ d.type ≠ MMDB_DATA_TYPE_DOUBLE ∨
    d.double_value.toRat = none ∨ ∃ q, d.double_value.toRat = some q ∧ (q < lo ∨ hi < q)

/-! ### Texts that hold the suffix of a hidden-service identifier -/

/-- A text holds a `.` immediately followed by `o`. -/
def holdsDotO : List Char → Bool
  | [] => false
  | c :: rest => (c == '.' && rest.head? == some 'o') || holdsDotO rest

/-- A text that does not hold `.onion` and does not end with one of its characters: such
texts can be joined without a `.onion` coming to stand across the joint. -/
def OnionClosed (l : List Char) : Prop :=
  ¬ ".onion".toList <:+: l ∧ ∀ c ∈ ".onion".toList, l.getLast? ≠ some c

instance (l : List Char) : Decidable (OnionClosed l) := by
  unfold OnionClosed; infer_instance

/-- What the callback writes after the address of a peer: the closing quote and the
other nine members, to the closing brace. -/
def afterAddress (p : PeerInfo) (geolocation : Geolocation) : List Char :=
  "\",".toList ++
    "\"capabilities\":\"".toList ++ to_string (p.capabilities % 2 ^ 32) ++ "\",".toList ++
    "\"user_agent\":".toList ++ quoted (storedUserAgent p.userAgent) ++ ",".toList ++
    "\"base_fee\":\"".toList ++ to_string (p.baseFee % 2 ^ 64) ++ "\",".toList ++
    "\"continent\":".toList ++ textField geolocation.continent ++
    ",\"country\":".toList ++ textField geolocation.country ++
    ",\"subdivision\":".toList ++ textField geolocation.subdivision ++
    ",\"city\":".toList ++ textField geolocation.city ++
    ",\"longitude\":".toList ++ coordinateField geolocation.longitude ++ ",".toList ++
    "\"latitude\":".toList ++ coordinateField geolocation.latitude ++
    "\x7d".toList

/-! ### Scenarios -/

/-- The hash FNV-1a on 64 bits, a sample `std::hash<string>`. -/
def fnv1a (s : List Char) : Nat :=
  s.foldl (fun h c => (Nat.xor h c.toNat) * 1099511628211 % 2 ^ 64) 14695981039346656037

/-- The entry of the sample database for `1.2.3.4`: Europe, Germany, 10 east, 51 north, no
subdivision and no city. -/
def scenarioEntry (path : List String) : MMDB_entry_data_s :=
  if path = ["continent", "names", "en"] then ⟨0, true, 2, "Europe".toList, Double.nan⟩
  else if path = ["country", "names", "en"] then ⟨0, true, 2, "Germany".toList, Double.nan⟩
  else if path = ["location", "longitude"] then ⟨0, true, 3, [], Double.ofInt 10⟩
  else if path = ["location", "latitude"] then ⟨0, true, 3, [], Double.ofInt 51⟩
  else ⟨9, false, 0, [], Double.nan⟩

/-- A sample platform: the hash FNV-1a, no support for the IPv6 family (`inet_pton` returns
`-1` for it), a database that opens and holds one entry, for `1.2.3.4`. -/
def scenarioEnv : Env where
  hash := fnv1a
  inet_pton6 := fun _ => -1
  isUtf8 := fun _ => true
  MMDB_open := 0
  MMDB_lookup_sockaddr := fun ip =>
    if ip = SockAddr.AF_INET "1.2.3.4".toList then (⟨true, scenarioEntry⟩, 0)
    else (⟨false, scenarioEntry⟩, 0)

/-- The peer event of Scenario A. -/
def scenarioA : PeerInfo :=
  ⟨"1.2.3.4:3414".toList, 1, "MWC Validation Node 1.0.0".toList, 3, 1000000, 12345, true⟩

/-- The geolocation of Scenario A. -/
def scenarioGeolocation : Geolocation :=
  { continent := "Europe".toList, country := "Germany".toList,
    longitude := Double.ofInt 10, latitude := Double.ofInt 51 }

/-- The peer event of Scenario E, a hidden-service identifier. -/
def scenarioE : PeerInfo :=
  ⟨"abcdefghij1234567890.onion".toList, 0, "MW/MWC 5.3.2".toList, 3, 1000000, 99, false⟩

/-- A peer event whose identifier holds a newline. -/
def newlinePeer : PeerInfo :=
  ⟨"bad\npeer".toList, 1, "MWC Pay 1.0.0".toList, 3, 1000000, 1, true⟩

/-- The entry of a database whose latitude for `1.2.3.4` is out of range: Europe, 10 east,
91 north. -/
def badLatitudeEntry (path : List String) : MMDB_entry_data_s :=
  if path = ["continent", "names", "en"] then ⟨0, true, 2, "Europe".toList, Double.nan⟩
  else if path = ["location", "longitude"] then ⟨0, true, 3, [], Double.ofInt 10⟩
  else if path = ["location", "latitude"] then ⟨0, true, 3, [], Double.ofInt 91⟩
  else ⟨9, false, 0, [], Double.nan⟩

/-- The sample platform with the database of `badLatitudeEntry`. -/
def badLatitudeEnv : Env :=
  { scenarioEnv with
    MMDB_lookup_sockaddr := fun ip =>
      if ip = SockAddr.AF_INET "1.2.3.4".toList then (⟨true, badLatitudeEntry⟩, 0)
      else (⟨false, badLatitudeEntry⟩, 0) }

/-- A second peer event with the identifier of Scenario E, all else different. -/
def scenarioE2 : PeerInfo :=
  ⟨"abcdefghij1234567890.onion".toList, 7, "MWC Pay 1.0.0".toList, 2, 500, 3, true⟩

/-- The sample platform with a database file that cannot be opened. -/
def noDatabaseEnv : Env := { scenarioEnv with MMDB_open := 1 }

/-- Git results with every call succeeding. -/
def gitSucceeds : GitResults := ⟨0, 0, 0, 0, 0, 0, 0, 0, 0, 0, 0, 0, 0⟩

/-- Git results of Scenario D: every call succeeds but the push. -/
def gitPushFails : GitResults := { gitSucceeds with git_remote_push := -1 }

/-- No failure in an archive cycle. -/
def noCycleFaults : CycleFaults := ⟨false, IoFault.none, RemoveFault.none⟩

/-- A peer event whose identifier ends with `.onion` and begins with an IPv4 literal and
a colon. -/
def onionWithAddress : PeerInfo :=
  ⟨"1.2.3.4:3414.onion".toList, 1, "MWC Pay 1.0.0".toList, 3, 1000000, 1, true⟩

/-- The message of a failed stream operation. -/
def iostreamError : List Char := "basic_ios::clear: iostream error".toList

/-- A message of the exception `filesystem::exists` throws when the status of
`RECENT_PEERS_JSON_LOCATION` cannot be read. -/
def filesystemError : List Char :=
  "filesystem error: status: Permission denied [./peers.json]".toList

/-- Operations of a sample run: the event of Scenario A is appended, an append of the event
of Scenario E fails at opening the stream, a cycle runs whose push fails, and the event of
Scenario E is appended. -/
def sampleOps : List Op :=
  [Op.append scenarioA IoFault.none, Op.append scenarioE (IoFault.openFails iostreamError),
    Op.cycle noCycleFaults gitPushFails, Op.append scenarioE IoFault.none]

/-- Iterations of a sample loop entered at the clock reading 0: one nanosecond before the
interval has elapsed; at the interval, with a cycle whose push fails and which ends five
nanoseconds later; at twice the interval; and five nanoseconds later, with a cycle that
succeeds. -/
def sampleTicks : List Tick :=
  [⟨604799999999999, noCycleFaults, gitSucceeds, 604799999999999⟩,
    ⟨604800000000000, noCycleFaults, gitPushFails, 604800000000005⟩,
    ⟨1209600000000000, noCycleFaults, gitSucceeds, 1209600000000000⟩,
    ⟨1209600000000005, noCycleFaults, gitSucceeds, 1209600000000009⟩]

/-- The world after the sample operations: the file holds the record of the event of
Scenario E, appended after the failed cycle. -/
def sampleWorld : World :=
  ⟨some ("[\n\x7b\"address\":\"5485694583345478524.onion\",\"capabilities\":\"0\"," ++
      "\"user_agent\":\"MW/MWC 5.3.2\",\"base_fee\":\"1000000\"," ++
      "\"continent\":null,\"country\":null,\"subdivision\":null,\"city\":null," ++
      "\"longitude\":null,\"latitude\":null\x7d").toList,
    ("Detected inbound peer 1.2.3.4:3414\n" ++
      "Updating recent peers JSON file failed: basic_ios::clear: iostream error\n" ++
      "Uploading recent peers JSON file failed: Pushing changes to remote failed\n" ++
      "Detected outbound peer abcdefghij1234567890.onion\n").toList⟩

/-- What holds of the loop between iterations: consecutive cycle starts are an interval
apart, and until `main` returns the latest start is not after the reference time, which
is not before the start of the loop; every start is an interval after the start of the
loop. -/
def LoopInvariant (start : Int) (s : LoopState) : Prop :=
  List.Chain' (fun later earlier => later - earlier ≥ UPLOAD_RECENT_PEERS_JSON_FILE_INTERVAL)
      s.starts ∧
    (s.exited = false →
      start ≤ s.lastUploadRecentPeersJsonFileTime ∧
        ∀ x ∈ s.starts.head?, x ≤ s.lastUploadRecentPeersJsonFileTime) ∧
    ∀ x ∈ s.starts, x - start ≥ UPLOAD_RECENT_PEERS_JSON_FILE_INTERVAL

/-- The entry of a database for `1.2.3.4` with the continent Europe and the given results
for the longitude and the latitude. -/
def coordinateEntry (lon lat : MMDB_entry_data_s) (path : List String) : MMDB_entry_data_s :=
  if path = ["continent", "names", "en"] then ⟨0, true, 2, "Europe".toList, Double.nan⟩
  else if path = ["location", "longitude"] then lon
  else if path = ["location", "latitude"] then lat
  else ⟨9, false, 0, [], Double.nan⟩

/-- The sample platform with the database of `coordinateEntry`. -/
def coordinateEnv (lon lat : MMDB_entry_data_s) : Env :=
  { scenarioEnv with
    MMDB_lookup_sockaddr := fun ip =>
      if ip = SockAddr.AF_INET "1.2.3.4".toList then (⟨true, coordinateEntry lon lat⟩, 0)
      else (⟨false, coordinateEntry lon lat⟩, 0) }

/-- A coordinate that the database does not hold: the path does not match the data. -/
def missingCoordinate : MMDB_entry_data_s := ⟨9, false, 0, [], Double.nan⟩

/-- A coordinate held as a `float` (type 15) and not as a `double`. -/
def floatCoordinate : MMDB_entry_data_s := ⟨0, true, 15, [], Double.ofInt 10⟩

/-- A coordinate held as the `double` of an integer. -/
def doubleCoordinate (i : Int) : MMDB_entry_data_s := ⟨0, true, 3, [], Double.ofInt i⟩

/-- A peer event whose identifier is `.onion` alone. -/
def bareOnion : PeerInfo := ⟨".onion".toList, 0, [], 0, 0, 0, false⟩

/-! # Theorems -/

/-! ## Lemmas on the pattern -/

theorem mem_single (x s : List Char) : x ∈ ({s} : Language Char) ↔ x = s := Iff.rfl

theorem matches_lit (s : List Char) : (lit s).matches' = {s} := by
  induction s with
  | nil => simp [lit]; rfl
  | cons c cs ih =>
    simp only [lit, matches'_mul, matches'_char, ih]
    ext x
    simp only [Language.mem_mul, mem_single]
    constructor
    · rintro ⟨a, rfl, b, rfl, rfl⟩; rfl
    · rintro rfl; exact ⟨[c], rfl, cs, rfl, rfl⟩

theorem mem_digitClass (x : List Char) :
    x ∈ digitClass.matches' ↔ ∃ c, SpecDecimalDigit c ∧ x = [c] := by
  simp only [digitClass, matches'_add, matches'_char, Language.mem_add, SpecDecimalDigit,
    mem_single]
  constructor
  · intro h
    rcases h with ((((((((h | h) | h) | h) | h) | h) | h) | h) | h) | h <;>
      exact ⟨_, by decide, h⟩
  · rintro ⟨c, hc, rfl⟩
    simp only [String.toList, List.mem_cons, List.mem_singleton] at hc
    simp at hc
    rcases hc with h | h | h | h | h | h | h | h | h | h <;> subst h <;> simp

theorem mem_repeat1to3_digit (x : List Char) :
    x ∈ (repeat1to3 digitClass).matches' ↔ SpecDigitGroup x := by
  simp only [repeat1to3, matches'_mul, matches'_add, matches'_epsilon, Language.mem_mul,
    Language.mem_add, Language.mem_one, mem_digitClass, SpecDigitGroup]
  constructor
  · rintro ⟨a, ⟨c1, h1, rfl⟩, b, hb, rfl⟩
    rcases hb with rfl | ⟨a2, ⟨c2, h2, rfl⟩, b2, hb2, rfl⟩
    · simp [h1]
    · rcases hb2 with rfl | ⟨c3, h3, rfl⟩
      · simp [h1, h2]
      · simp [h1, h2, h3]
  · rintro ⟨h1, h3, hd⟩
    match x, h1, h3, hd with
    | [c1], _, _, hd =>
      exact ⟨[c1], ⟨c1, hd c1 (by simp), rfl⟩, [], Or.inl rfl, rfl⟩
    | [c1, c2], _, _, hd =>
      exact ⟨[c1], ⟨c1, hd c1 (by simp), rfl⟩, [c2],
        Or.inr ⟨[c2], ⟨c2, hd c2 (by simp), rfl⟩, [], Or.inl rfl, rfl⟩, rfl⟩
    | [c1, c2, c3], _, _, hd =>
      exact ⟨[c1], ⟨c1, hd c1 (by simp), rfl⟩, [c2, c3],
        Or.inr ⟨[c2], ⟨c2, hd c2 (by simp), rfl⟩, [c3],
          Or.inr ⟨c3, hd c3 (by simp), rfl⟩, rfl⟩, rfl⟩

theorem regex_match_known_iff (u : List Char) :
    regex_match u KNOWN_USER_AGENT_PATTERN = true ↔ SpecKnownUserAgent u := by
  unfold regex_match
  rw [rmatch_iff_matches']
  simp only [KNOWN_USER_AGENT_PATTERN, matches'_mul, matches'_add, matches'_char, matches_lit,
    Language.mem_mul, Language.mem_add, mem_single, mem_repeat1to3_digit, SpecKnownUserAgent,
    specProductNames]
  constructor
  · rintro ⟨x5, ⟨x4, ⟨x3, ⟨x2, ⟨x1, ⟨n, hn, sp, rfl, rfl⟩, a, ha, rfl⟩, d1, rfl, rfl⟩,
      b, hb, rfl⟩, d2, rfl, rfl⟩, c, hc, rfl⟩
    refine ⟨n, ?_, a, b, c, ha, hb, hc, rfl⟩
    rcases hn with ((hn | hn) | hn) | hn <;> subst hn <;> simp
  · rintro ⟨n, hn, a, b, c, ha, hb, hc, rfl⟩
    refine ⟨_, ⟨_, ⟨_, ⟨_, ⟨_, ⟨n, ?_, _, rfl, rfl⟩, a, ha, rfl⟩, _, rfl, rfl⟩,
      b, hb, rfl⟩, _, rfl, rfl⟩, c, hc, rfl⟩
    simp only [List.mem_cons, List.mem_singleton, List.not_mem_nil, or_false] at hn
    rcases hn with hn | hn | hn | hn <;> subst hn <;> simp

theorem quoted_of_plain (s : List Char) (h : ∀ c ∈ s, c ≠ '"' ∧ c ≠ '\\') :
    quoted s = ['"'] ++ s ++ ['"'] := by
  have key : s.flatMap (fun c => if c = '"' ∨ c = '\\' then ['\\', c] else [c]) = s := by
    induction s with
    | nil => rfl
    | cons c cs ih =>
      have hc := h c (by simp)
      have hcs : ∀ d ∈ cs, d ≠ '"' ∧ d ≠ '\\' := fun d hd => h d (by simp [hd])
      simp only [List.flatMap_cons, ih hcs]
      simp [hc.1, hc.2]
  simp [quoted, key]

theorem digit_plain (c : Char) (h : SpecDecimalDigit c) : c ≠ '"' ∧ c ≠ '\\' := by
  simp only [SpecDecimalDigit, String.toList] at h
  simp at h
  rcases h with h | h | h | h | h | h | h | h | h | h <;> subst h <;> decide

theorem known_user_agent_plain (u : List Char) (h : SpecKnownUserAgent u) :
    ∀ c ∈ u, c ≠ '"' ∧ c ≠ '\\' := by
  obtain ⟨n, hn, a, b, c, ha, hb, hc, rfl⟩ := h
  have hname : ∀ x ∈ n, x ≠ '"' ∧ x ≠ '\\' := by
    simp only [specProductNames, List.mem_cons, List.mem_singleton, List.not_mem_nil,
      or_false] at hn
    rcases hn with hn | hn | hn | hn <;> subst hn <;> decide
  intro x hx
  simp only [List.mem_append, List.mem_singleton] at hx
  rcases hx with (((((hx | hx) | hx) | hx) | hx) | hx) | hx
  · exact hname x hx
  · subst hx; decide
  · exact digit_plain x (ha.2.2 x hx)
  · subst hx; decide
  · exact digit_plain x (hb.2.2 x hx)
  · subst hx; decide
  · exact digit_plain x (hc.2.2 x hx)

/-! ## Lemmas on decimal texts -/

theorem digitChar_decimal (d : Nat) (h : d < 10) : SpecDecimalDigit (Nat.digitChar d) := by
  unfold SpecDecimalDigit
  interval_cases d <;> decide

theorem toDigitsCore_decimal (fuel : Nat) :
    ∀ (n : Nat) (ds : List Char), (∀ c ∈ ds, SpecDecimalDigit c) →
      ∀ c ∈ Nat.toDigitsCore 10 fuel n ds, SpecDecimalDigit c := by
  induction fuel with
  | zero => intro n ds h c hc; exact h c (by simpa [Nat.toDigitsCore] using hc)
  | succ f ih =>
    intro n ds h c hc
    have hd : ∀ x ∈ Nat.digitChar (n % 10) :: ds, SpecDecimalDigit x := by
      intro x hx
      rcases List.mem_cons.1 hx with rfl | hx
      · exact digitChar_decimal _ (Nat.mod_lt _ (by decide))
      · exact h x hx
    simp only [Nat.toDigitsCore] at hc
    split_ifs at hc
    · exact hd c hc
    · exact ih _ _ hd c hc

theorem to_string_decimal (n : Nat) : ∀ c ∈ to_string n, SpecDecimalDigit c :=
  toDigitsCore_decimal _ n [] (by simp)

theorem to_string_ne_nil (n : Nat) : to_string n ≠ [] := by
  intro h
  have hl : (to_string n).length = 0 := by rw [h]; rfl
  unfold to_string Nat.toDigits at hl
  simp only [Nat.toDigitsCore] at hl
  split_ifs at hl
  · simp at hl
  · rw [Nat.toDigitsCore_lens_eq] at hl
    omega

theorem to_string_length_le (n : Nat) (h : n < 2 ^ 64) : (to_string n).length ≤ 20 :=
  Nat.toDigitsCore_length 10 (by decide) (n + 1) n 20 (lt_of_lt_of_le h (by norm_num))
    (by decide)

theorem pad6_spec (n : Nat) (h : n < 10 ^ 6) :
    (Double.pad6 n).length = 6 ∧ ∀ c ∈ Double.pad6 n, SpecDecimalDigit c := by
  have hl : (Nat.toDigits 10 n).length ≤ 6 :=
    Nat.toDigitsCore_length 10 (by decide) (n + 1) n 6 h (by decide)
  constructor
  · simp only [Double.pad6, List.length_append, List.length_replicate]
    omega
  · intro c hc
    simp only [Double.pad6, List.mem_append, List.mem_replicate] at hc
    rcases hc with ⟨_, rfl⟩ | hc
    · decide
    · exact to_string_decimal n c hc

/-! ## Lemmas on doubles -/

theorem scaled_cast (neg : Bool) (mant : Nat) (exp e : Int) (h : e ≤ exp) :
    ((Double.scaled neg mant exp e : Int) : ℚ) =
      (if neg then -1 else 1) * (mant : ℚ) * (2 : ℚ) ^ exp * ((2 : ℚ) ^ e)⁻¹ := by
  have hp : ((2 : ℚ) ^ (exp - e).toNat) = (2 : ℚ) ^ exp * ((2 : ℚ) ^ e)⁻¹ := by
    rw [← zpow_natCast, Int.toNat_of_nonneg (by omega), zpow_sub₀ (by norm_num : (2 : ℚ) ≠ 0)]
    rfl
  cases neg <;> simp [Double.scaled, hp] <;> ring

theorem le_finite_iff (s1 : Bool) (m1 : Nat) (e1 : Int) (s2 : Bool) (m2 : Nat) (e2 : Int) :
    Double.le (Double.finite s1 m1 e1) (Double.finite s2 m2 e2) = true ↔
      (if s1 then -1 else 1) * (m1 : ℚ) * (2 : ℚ) ^ e1 ≤
        (if s2 then -1 else 1) * (m2 : ℚ) * (2 : ℚ) ^ e2 := by
  have hpos : (0 : ℚ) < ((2 : ℚ) ^ (min e1 e2))⁻¹ := inv_pos.2 (zpow_pos (by norm_num) _)
  simp only [Double.le, decide_eq_true_eq]
  rw [← @Int.cast_le ℚ, scaled_cast _ _ _ _ (min_le_left e1 e2),
    scaled_cast _ _ _ _ (min_le_right e1 e2), mul_le_mul_right hpos]

theorem toRat_ofInt (i : Int) : (Double.ofInt i).toRat = some (i : ℚ) := by
  simp only [Double.ofInt, Double.toRat, zpow_zero, mul_one, Option.some.injEq]
  by_cases h : i < 0
  · rw [Nat.cast_natAbs, abs_of_neg h]
    simp [h]
  · rw [Nat.cast_natAbs, abs_of_nonneg (not_lt.1 h)]
    simp [h]

theorem range_spec (x : Double) (lo hi : Int) (hf : x.isfinite = true)
    (hge : x.ge (Double.ofInt lo) = true) (hle : x.le (Double.ofInt hi) = true) :
    ∃ q : ℚ, x.toRat = some q ∧ (lo : ℚ) ≤ q ∧ q ≤ (hi : ℚ) := by
  cases x with
  | nan => simp [Double.isfinite] at hf
  | inf neg => simp [Double.isfinite] at hf
  | finite s m e =>
    refine ⟨_, rfl, ?_, ?_⟩
    · have h1 := toRat_ofInt lo
      simp only [Double.ofInt, Double.toRat, Option.some.injEq] at h1
      have := (le_finite_iff _ _ _ s m e).1 hge
      rw [h1] at this
      exact this
    · have h1 := toRat_ofInt hi
      simp only [Double.ofInt, Double.toRat, Option.some.injEq] at h1
      have := (le_finite_iff s m e _ _ _).1 hle
      rw [h1] at this
      exact this
/-! ## Lemmas on `geolocate` -/



theorem coordinateFound_spec (lo hi : Double) (d : MMDB_entry_data_s)
    (h : coordinateFound lo hi d = true) :
    d.double_value ≠ Double.nan ∧ d.double_value.isfinite = true ∧
      d.double_value.ge lo = true ∧ d.double_value.le hi = true := by
  simp only [coordinateFound, Bool.and_eq_true] at h
  obtain ⟨⟨⟨_, hfin⟩, hge⟩, hle⟩ := h
  refine ⟨?_, hfin, hge, hle⟩
  intro hn
  rw [hn] at hfin
  exact absurd hfin (by decide)

theorem toRat_isfinite (x : Double) (q : ℚ) (h : x.toRat = some q) : x.isfinite = true := by
  cases x <;> simp [Double.toRat, Double.isfinite] at h ⊢

theorem range_spec_converse (x : Double) (lo hi : Int) (q : ℚ) (hq : x.toRat = some q)
    (hlo : (lo : ℚ) ≤ q) (hhi : q ≤ (hi : ℚ)) :
    x.ge (Double.ofInt lo) = true ∧ x.le (Double.ofInt hi) = true := by
  cases x with
  | nan => simp [Double.toRat] at hq
  | inf neg => simp [Double.toRat] at hq
  | finite s m e =>
    simp only [Double.toRat, Option.some.injEq] at hq
    constructor
    · have h1 := toRat_ofInt lo
      simp only [Double.ofInt, Double.toRat, Option.some.injEq] at h1
      refine (le_finite_iff _ _ _ s m e).2 ?_
      rw [h1, hq]
      exact hlo
    · have h1 := toRat_ofInt hi
      simp only [Double.ofInt, Double.toRat, Option.some.injEq] at h1
      refine (le_finite_iff s m e _ _ _).2 ?_
      rw [h1, hq]
      exact hhi

theorem coordinateFound_iff (lo hi : Int) (d : MMDB_entry_data_s) :
    coordinateFound (Double.ofInt lo) (Double.ofInt hi) d = true ↔
      ¬ SpecBadCoordinate lo hi d := by
  constructor
  · intro h
    have hs := coordinateFound_spec _ _ _ h
    obtain ⟨q, hq, hlo, hhi⟩ := range_spec _ lo hi hs.2.1 hs.2.2.1 hs.2.2.2
    simp only [coordinateFound, Bool.and_eq_true, beq_iff_eq] at h
    obtain ⟨⟨⟨⟨⟨hst, hdata⟩, hty⟩, _⟩, _⟩, _⟩ := h
    rintro (hb | hb | hb | hb | ⟨q2, hq2, hb⟩)
    · exact hb hst
    · rw [hdata] at hb; exact Bool.noConfusion hb
    · exact hb hty
    · rw [hq] at hb; exact Option.noConfusion hb
    · rw [hq] at hq2
      have := Option.some.inj hq2
      subst this
      rcases hb with hb | hb
      · exact absurd hlo (not_le.2 hb)
      · exact absurd hhi (not_le.2 hb)
  · intro h
    unfold SpecBadCoordinate at h
    push_neg at h
    obtain ⟨hst, hdata, hty, hsome, hrange⟩ := h
    obtain ⟨q, hq⟩ := Option.ne_none_iff_exists'.1 hsome
    have hr := hrange q hq
    obtain ⟨hge, hle⟩ := range_spec_converse _ lo hi q hq hr.1 hr.2
    have hd : d.has_data = true := by
      cases hh : d.has_data
      · exact absurd hh hdata
      · rfl
    simp [coordinateFound, hst, hd, hty, toRat_isfinite _ q hq, hge, hle]

theorem geolocationOfEntry_coordinates (isUtf8 : List Char → Bool)
    (gv : List String → MMDB_entry_data_s) :
    (geolocationOfEntry isUtf8 gv).longitude =
        (if coordinateFound MIN_LONGITUDE MAX_LONGITUDE (gv ["location", "longitude"]) = true ∧
            coordinateFound MIN_LATITUDE MAX_LATITUDE (gv ["location", "latitude"]) = true
          then (gv ["location", "longitude"]).double_value else Double.nan) ∧
      (geolocationOfEntry isUtf8 gv).latitude =
        (if coordinateFound MIN_LONGITUDE MAX_LONGITUDE (gv ["location", "longitude"]) = true ∧
            coordinateFound MIN_LATITUDE MAX_LATITUDE (gv ["location", "latitude"]) = true
          then (gv ["location", "latitude"]).double_value else Double.nan) := by
  unfold geolocationOfEntry
  simp only []
  split_ifs <;> simp_all

theorem geolocate_cases (env : Env) (address : List Char) (g : Geolocation)
    (h : (geolocate env address).result = Except.ok g) :
    g = {} ∨ ∃ ip, parseAddress env address = some ip ∧
      g = geolocationOfEntry env.isUtf8 (env.MMDB_lookup_sockaddr ip).1.get_value := by
  unfold geolocate at h
  cases hp : parseAddress env address with
  | none =>
    simp only [hp] at h
    exact Or.inl (Except.ok.inj h).symm
  | some ip =>
    simp only [hp] at h
    split_ifs at h
    · exact Or.inl (Except.ok.inj h).symm
    · exact Or.inr ⟨ip, rfl, (Except.ok.inj h).symm⟩

theorem geolocate_present_finite (env : Env) (address : List Char) (g : Geolocation)
    (h : (geolocate env address).result = Except.ok g) :
    (g.longitude ≠ Double.nan → g.longitude.isfinite = true) ∧
      (g.latitude ≠ Double.nan → g.latitude.isfinite = true) := by
  rcases geolocate_cases env address g h with rfl | ⟨ip, _, rfl⟩
  · exact ⟨fun hne => absurd rfl hne, fun hne => absurd rfl hne⟩
  · obtain ⟨h1, h2⟩ := geolocationOfEntry_coordinates env.isUtf8
      (env.MMDB_lookup_sockaddr ip).1.get_value
    rw [h1, h2]
    constructor
    · intro hne
      split_ifs at hne ⊢ with hc
      · exact (coordinateFound_spec _ _ _ hc.1).2.1
      · exact absurd rfl hne
    · intro hne
      split_ifs at hne ⊢ with hc
      · exact (coordinateFound_spec _ _ _ hc.2).2.1
      · exact absurd rfl hne

/-! ## C1 -/

/-- C1: for every user agent that matches the allow list (a recognised product name,
one space, three dot-separated groups of one to three decimal digits, nothing else) the
value stored under `user_agent` is the user agent itself, written between double quotes
with no character changed; for every other user agent it is `Unknown`. -/
theorem user_agent_allow_list (u : List Char) :
    (SpecKnownUserAgent u →
      storedUserAgent u = u ∧ userAgentField u = ['"'] ++ u ++ ['"']) ∧
    (¬ SpecKnownUserAgent u →
      storedUserAgent u = "Unknown".toList ∧ userAgentField u = "\"Unknown\"".toList) := by
  constructor
  · intro h
    have hm := (regex_match_known_iff u).2 h
    have hs : storedUserAgent u = u := by simp [storedUserAgent, hm]
    exact ⟨hs, by rw [userAgentField, hs]; exact quoted_of_plain u (known_user_agent_plain u h)⟩
  · intro h
    have hm : regex_match u KNOWN_USER_AGENT_PATTERN = false := by
      cases hq : regex_match u KNOWN_USER_AGENT_PATTERN
      · rfl
      · exact absurd ((regex_match_known_iff u).1 hq) h
    have hs : storedUserAgent u = "Unknown".toList := by simp [storedUserAgent, hm]
    exact ⟨hs, by rw [userAgentField, hs]; decide⟩

/-- Witness of C1: `MWC Pay 1.22.333` is kept and `curl/8.0 "x"` becomes `Unknown`. -/
theorem user_agent_allow_list_witness :
    (storedUserAgent "MWC Pay 1.22.333".toList = "MWC Pay 1.22.333".toList ∧
      userAgentField "MWC Pay 1.22.333".toList = "\"MWC Pay 1.22.333\"".toList) ∧
    (storedUserAgent "curl/8.0 \"x\"".toList = "Unknown".toList ∧
      userAgentField "curl/8.0 \"x\"".toList = "\"Unknown\"".toList) :=
  ⟨(user_agent_allow_list "MWC Pay 1.22.333".toList).1
      ⟨"MWC Pay".toList, by decide, "1".toList, "22".toList, "333".toList,
        by decide, by decide, by decide, by decide⟩,
    (user_agent_allow_list "curl/8.0 \"x\"".toList).2
      (fun h => absurd ((regex_match_known_iff _).2 h) (by decide))⟩

/-! ## C2 -/

theorem intercalate_cons_flatMap (sep x : List Char) (xs : List (List Char)) :
    sep.intercalate (x :: xs) = x ++ xs.flatMap (fun y => sep ++ y) := by
  induction xs generalizing x with
  | nil => simp [List.intercalate]
  | cons y ys ih =>
    have h := ih y
    simp only [List.intercalate, List.intersperse, List.flatten] at h ⊢
    simp [h, List.flatMap_cons]

theorem specReadString_quote (rest : List Char) : specReadString ('"' :: rest) = some ([], rest) := by
  rw [specReadString.eq_def]; simp

theorem specReadString_escape (e : Char) (rest : List Char) (h : e ≠ 'u') :
    specReadString ('\\' :: e :: rest) =
      match specUnescape e with
      | some d => (specReadString rest).map (fun r => (d :: r.1, r.2))
      | none => none := by
  rw [specReadString.eq_def]; simp [h]

theorem specReadString_plain (c : Char) (rest : List Char) (h1 : c ≠ '"') (h2 : c ≠ '\\')
    (h3 : 32 ≤ c.toNat) :
    specReadString (c :: rest) = (specReadString rest).map (fun r => (c :: r.1, r.2)) := by
  rw [specReadString.eq_def]; simp [h1, h2]; omega

theorem specReadString_raw (c : Char) (rest : List Char) (h3 : c.toNat < 32) :
    specReadString (c :: rest) = none := by
  have h1 : c ≠ '"' := by rintro rfl; exact absurd h3 (by decide)
  have h2 : c ≠ '\\' := by rintro rfl; exact absurd h3 (by decide)
  rw [specReadString.eq_def]; simp [h1, h2, h3]


theorem specReadString_escaped (s rest : List Char) (h : SpecPrintable s) :
    specReadString
      (s.flatMap (fun c => if c = '"' ∨ c = '\\' then ['\\', c] else [c]) ++ '"' :: rest) =
      some (s, rest) := by
  induction s with
  | nil => exact specReadString_quote rest
  | cons c cs ih =>
    have hc : 32 ≤ c.toNat := h c (by simp)
    have ih2 := ih (fun d hd => h d (by simp [hd]))
    by_cases h1 : c = '"'
    · subst h1
      simp only [List.flatMap_cons, true_or, if_true, List.cons_append, List.nil_append]
      rw [specReadString_escape _ _ (by decide), ih2]
      rfl
    · by_cases h2 : c = '\\'
      · subst h2
        simp only [List.flatMap_cons, or_true, if_true, List.cons_append, List.nil_append]
        rw [specReadString_escape _ _ (by decide), ih2]
        rfl
      · simp only [List.flatMap_cons, h1, h2, or_self, if_false, List.cons_append,
          List.nil_append]
        rw [specReadString_plain _ _ h1 h2 hc, ih2]
        rfl

theorem specReadString_control (s rest : List Char) (h : ¬ SpecPrintable s) :
    specReadString
      (s.flatMap (fun c => if c = '"' ∨ c = '\\' then ['\\', c] else [c]) ++ '"' :: rest) =
      none := by
  induction s with
  | nil => exact absurd (fun c hc => absurd hc (List.not_mem_nil c)) h
  | cons c cs ih =>
    by_cases hc : c.toNat < 32
    · have h1 : c ≠ '"' := by rintro rfl; exact absurd hc (by decide)
      have h2 : c ≠ '\\' := by rintro rfl; exact absurd hc (by decide)
      simp only [List.flatMap_cons, h1, h2, or_self, if_false, List.cons_append,
        List.nil_append]
      exact specReadString_raw _ _ hc
    · have hcs : ¬ SpecPrintable cs := by
        intro hp
        apply h
        intro d hd
        rcases List.mem_cons.1 hd with rfl | hd
        · omega
        · exact hp d hd
      have ih2 := ih hcs
      by_cases h1 : c = '"'
      · subst h1
        simp only [List.flatMap_cons, true_or, if_true, List.cons_append, List.nil_append]
        rw [specReadString_escape _ _ (by decide), ih2]
        rfl
      · by_cases h2 : c = '\\'
        · subst h2
          simp only [List.flatMap_cons, or_true, if_true, List.cons_append, List.nil_append]
          rw [specReadString_escape _ _ (by decide), ih2]
          rfl
        · simp only [List.flatMap_cons, h1, h2, or_self, if_false, List.cons_append,
            List.nil_append]
          rw [specReadString_plain _ _ h1 h2 (by omega), ih2]
          rfl

theorem quoted_append (s rest : List Char) :
    quoted s ++ rest =
      '"' :: (s.flatMap (fun c => if c = '"' ∨ c = '\\' then ['\\', c] else [c]) ++
        '"' :: rest) := by
  simp [quoted]

theorem specReadValue_quoted (s rest : List Char) :
    specReadValue (quoted s ++ rest) =
      (specReadString (s.flatMap (fun c => if c = '"' ∨ c = '\\' then ['\\', c] else [c]) ++
        '"' :: rest)).map (fun r => (SpecValue.text r.1, r.2)) := by
  rw [quoted_append]
  simp [specReadValue]

theorem specReadValue_render (v : SpecValue) (rest : List Char) (h : valuePrintable v) :
    specReadValue (renderValue v ++ rest) = some (v, rest) := by
  cases v with
  | text s =>
    rw [renderValue, specReadValue_quoted, specReadString_escaped s rest h]
    rfl
  | null => simp [renderValue, specReadValue]

theorem specReadValue_control (v : SpecValue) (rest : List Char) (h : ¬ valuePrintable v) :
    specReadValue (renderValue v ++ rest) = none := by
  cases v with
  | text s =>
    rw [renderValue, specReadValue_quoted, specReadString_control s rest h]
    rfl
  | null => exact absurd trivial h

theorem specReadMember_render (m : List Char × SpecValue) (rest : List Char)
    (hk : SpecPrintable m.1) (hv : valuePrintable m.2) :
    specReadMember (renderMember m ++ rest) = some (m, rest) := by
  have h : renderMember m ++ rest =
      '"' :: (m.1.flatMap (fun c => if c = '"' ∨ c = '\\' then ['\\', c] else [c]) ++
        '"' :: ':' :: (renderValue m.2 ++ rest)) := by
    simp [renderMember, quoted]
  rw [h]
  simp [specReadMember, specReadString_escaped m.1 _ hk, specReadValue_render m.2 rest hv]

theorem specReadMember_control (m : List Char × SpecValue) (rest : List Char)
    (h : ¬ (SpecPrintable m.1 ∧ valuePrintable m.2)) :
    specReadMember (renderMember m ++ rest) = none := by
  have h0 : renderMember m ++ rest =
      '"' :: (m.1.flatMap (fun c => if c = '"' ∨ c = '\\' then ['\\', c] else [c]) ++
        '"' :: ':' :: (renderValue m.2 ++ rest)) := by
    simp [renderMember, quoted]
  rw [h0]
  by_cases hk : SpecPrintable m.1
  · have hv : ¬ valuePrintable m.2 := fun hv => h ⟨hk, hv⟩
    simp [specReadMember, specReadString_escaped m.1 _ hk, specReadValue_control m.2 rest hv]
  · simp [specReadMember, specReadString_control m.1 _ hk]

theorem specReadMembers_comma (f : Nat) (s r : List Char) (m : List Char × SpecValue)
    (h : specReadMember s = some (m, ',' :: r)) :
    specReadMembers (f + 1) s = (specReadMembers f r).map (fun x => (m :: x.1, x.2)) := by
  simp only [specReadMembers, h, if_true]

theorem specReadMembers_close (f : Nat) (s r : List Char) (m : List Char × SpecValue)
    (h : specReadMember s = some (m, '\x7d' :: r)) :
    specReadMembers (f + 1) s = some ([m], r) := by
  simp only [specReadMembers, h]
  rfl

theorem specReadMembers_none (f : Nat) (s : List Char) (h : specReadMember s = none) :
    specReadMembers f s = none := by
  cases f with
  | zero => rfl
  | succ f => simp only [specReadMembers, h]

theorem intercalate_render_cons (m m2 : List Char × SpecValue)
    (ms : List (List Char × SpecValue)) (rest : List Char) :
    [','].intercalate ((m :: m2 :: ms).map renderMember) ++ '\x7d' :: rest =
      renderMember m ++ ',' :: ([','].intercalate ((m2 :: ms).map renderMember) ++
        '\x7d' :: rest) := by
  simp [intercalate_cons_flatMap]

theorem intercalate_render_single (m : List Char × SpecValue) (rest : List Char) :
    [','].intercalate ([m].map renderMember) ++ '\x7d' :: rest =
      renderMember m ++ '\x7d' :: rest := by
  simp [List.intercalate]

theorem specReadMembers_render (ms : List (List Char × SpecValue)) :
    ∀ (m : List Char × SpecValue) (fuel : Nat) (rest : List Char), ms.length < fuel →
      (∀ x ∈ m :: ms, memberPrintable x) →
      specReadMembers fuel ([','].intercalate ((m :: ms).map renderMember) ++ '\x7d' :: rest) =
        some (m :: ms, rest) := by
  induction ms with
  | nil =>
    intro m fuel rest hf hp
    obtain ⟨f, rfl⟩ : ∃ f, fuel = f + 1 := ⟨fuel - 1, by simp at hf; omega⟩
    have hm := hp m (List.mem_cons_self _ _)
    rw [intercalate_render_single]
    exact specReadMembers_close f _ rest m (specReadMember_render m _ hm.1 hm.2)
  | cons m2 ms ih =>
    intro m fuel rest hf hp
    obtain ⟨f, rfl⟩ : ∃ f, fuel = f + 1 := ⟨fuel - 1, by simp at hf; omega⟩
    have hm := hp m (List.mem_cons_self _ _)
    have ih2 := ih m2 f rest (by simp at hf ⊢; omega)
      (fun x hx => hp x (List.mem_cons_of_mem _ hx))
    rw [intercalate_render_cons,
      specReadMembers_comma f _ _ m (specReadMember_render m _ hm.1 hm.2), ih2]
    rfl

theorem specReadMembers_control (ms : List (List Char × SpecValue)) :
    ∀ (m : List Char × SpecValue) (fuel : Nat) (rest : List Char),
      (∃ x ∈ m :: ms, ¬ memberPrintable x) →
      specReadMembers fuel ([','].intercalate ((m :: ms).map renderMember) ++ '\x7d' :: rest) =
        none := by
  induction ms with
  | nil =>
    intro m fuel rest hp
    obtain ⟨x, hx, hbad⟩ := hp
    have : x = m := by simpa using hx
    subst this
    rw [intercalate_render_single]
    exact specReadMembers_none fuel _ (specReadMember_control x _ hbad)
  | cons m2 ms ih =>
    intro m fuel rest hp
    rw [intercalate_render_cons]
    by_cases hm : memberPrintable m
    · have hrest : ∃ x ∈ m2 :: ms, ¬ memberPrintable x := by
        obtain ⟨x, hx, hbad⟩ := hp
        rcases List.mem_cons.1 hx with rfl | hx
        · exact absurd hm hbad
        · exact ⟨x, hx, hbad⟩
      cases fuel with
      | zero => rfl
      | succ f =>
        rw [specReadMembers_comma f _ _ m (specReadMember_render m _ hm.1 hm.2),
          ih m2 f rest hrest]
        rfl
    · exact specReadMembers_none fuel _ (specReadMember_control m _ hm)

theorem renderMember_length (m : List Char × SpecValue) : 1 ≤ (renderMember m).length := by
  simp [renderMember, quoted]

theorem intercalate_render_length (ms : List (List Char × SpecValue)) :
    ms.length ≤ ([','].intercalate (ms.map renderMember)).length := by
  cases ms with
  | nil => simp
  | cons m ms =>
    rw [List.map_cons, intercalate_cons_flatMap]
    induction ms with
    | nil => simpa using renderMember_length m
    | cons m2 ms ih =>
      simp only [List.map_cons, List.flatMap_cons, List.length_append, List.length_cons,
        List.length_nil] at ih ⊢
      have := renderMember_length m2
      omega

theorem specReadObject_render (m : List Char × SpecValue) (ms : List (List Char × SpecValue))
    (h : ∀ x ∈ m :: ms, memberPrintable x) :
    specReadObject (renderObject (m :: ms)) = some (m :: ms, []) := by
  have hl := intercalate_render_length (m :: ms)
  simp only [renderObject, List.singleton_append, specReadObject, if_true]
  exact specReadMembers_render ms m _ [] (by
    simp only [List.append_eq, List.length_append, List.length_cons, List.length_nil] at hl ⊢
    omega) h

theorem specReadObject_control (m : List Char × SpecValue) (ms : List (List Char × SpecValue))
    (h : ∃ x ∈ m :: ms, ¬ memberPrintable x) :
    specReadObject (renderObject (m :: ms)) = none := by
  simp only [renderObject, List.singleton_append, specReadObject, if_true]
  exact specReadMembers_control ms m _ [] h

theorem digitChar_value (k : Nat) (h : k < 10) : (Nat.digitChar k).toNat - '0'.toNat = k := by
  interval_cases k <;> rfl

theorem digitChar_ne_zero (k : Nat) (h : k < 10) (h0 : k ≠ 0) : Nat.digitChar k ≠ '0' := by
  interval_cases k <;> first | exact absurd rfl h0 | decide

theorem toDigitsCore_value (fuel : Nat) :
    ∀ (n : Nat) (ds : List Char), n < fuel →
      (Nat.toDigitsCore 10 fuel n ds).foldl (fun a c => 10 * a + (c.toNat - '0'.toNat)) 0 =
        ds.foldl (fun a c => 10 * a + (c.toNat - '0'.toNat)) n := by
  induction fuel with
  | zero => intro n ds h; omega
  | succ f ih =>
    intro n ds h
    simp only [Nat.toDigitsCore]
    split_ifs with h0
    · simp only [List.foldl_cons, Nat.mul_zero, Nat.zero_add,
        digitChar_value _ (Nat.mod_lt n (by decide))]
      congr 1
      omega
    · rw [ih (n / 10) _ (by omega)]
      simp only [List.foldl_cons, digitChar_value _ (Nat.mod_lt n (by decide))]
      congr 1
      omega

theorem to_string_value (n : Nat) : specNatValue (to_string n) = n :=
  toDigitsCore_value (n + 1) n [] (Nat.lt_succ_self n)

theorem toDigitsCore_head (fuel : Nat) :
    ∀ (n : Nat) (ds : List Char), n < fuel → n ≠ 0 →
      (Nat.toDigitsCore 10 fuel n ds).head? ≠ some '0' := by
  induction fuel with
  | zero => intro n ds h; omega
  | succ f ih =>
    intro n ds h hn
    simp only [Nat.toDigitsCore]
    split_ifs with h0
    · simp only [List.head?_cons, ne_eq, Option.some.injEq]
      exact digitChar_ne_zero _ (Nat.mod_lt n (by decide)) (by omega)
    · exact ih (n / 10) _ (by omega) h0

theorem to_string_head (n : Nat) (h : (to_string n).head? = some '0') : to_string n = ['0'] := by
  by_cases hn : n = 0
  · subst hn; rfl
  · exact absurd h (toDigitsCore_head (n + 1) n [] (Nat.lt_succ_self n) hn)

theorem decimalOf_to_string (n : Nat) : SpecDecimalOf n (to_string n) :=
  ⟨to_string_ne_nil n, to_string_decimal n, to_string_head n, to_string_value n⟩

theorem pad6_value (n : Nat) : specNatValue (Double.pad6 n) = n := by
  have hz : ∀ k : Nat, (List.replicate k '0').foldl
      (fun a c => 10 * a + (c.toNat - '0'.toNat)) 0 = 0 := by
    intro k
    induction k with
    | zero => rfl
    | succ k ih => simpa [List.replicate_succ] using ih
  unfold specNatValue Double.pad6
  rw [List.foldl_append, hz]
  exact to_string_value n

theorem roundHalfEven_bound (num den : Nat) (hden : 0 < den) :
    abs ((Double.roundHalfEven num den : ℚ) - (num : ℚ) / den) ≤ 1 / 2 := by
  have hd : (0 : ℚ) < den := by exact_mod_cast hden
  have hnum : (num : ℚ) = (den : ℚ) * ((num / den : Nat) : ℚ) + ((num % den : Nat) : ℚ) := by
    exact_mod_cast (Nat.div_add_mod num den).symm
  have hr : ((num % den : Nat) : ℚ) < den := by exact_mod_cast Nat.mod_lt num hden
  have hr0 : (0 : ℚ) ≤ ((num % den : Nat) : ℚ) := by positivity
  have key : ∀ N : ℚ, abs (N * den - num) ≤ den / 2 → abs (N - (num : ℚ) / den) ≤ 1 / 2 := by
    intro N h
    have : N - (num : ℚ) / den = (N * den - num) / den := by field_simp
    rw [this, abs_div, abs_of_pos hd, div_le_iff₀ hd]
    linarith
  apply key
  unfold Double.roundHalfEven
  split_ifs with h1 h2 h3
  · have h1q : 2 * ((num % den : Nat) : ℚ) < den := by exact_mod_cast h1
    rw [abs_le]
    constructor <;> nlinarith
  · have h2q : (den : ℚ) < 2 * ((num % den : Nat) : ℚ) := by exact_mod_cast h2
    rw [abs_le]
    push_cast
    constructor <;> nlinarith
  · have h1q : (den : ℚ) ≤ 2 * ((num % den : Nat) : ℚ) := by exact_mod_cast not_lt.1 h1
    have h2q : 2 * ((num % den : Nat) : ℚ) ≤ den := by exact_mod_cast not_lt.1 h2
    rw [abs_le]
    constructor <;> nlinarith
  · have h1q : (den : ℚ) ≤ 2 * ((num % den : Nat) : ℚ) := by exact_mod_cast not_lt.1 h1
    have h2q : 2 * ((num % den : Nat) : ℚ) ≤ den := by exact_mod_cast not_lt.1 h2
    rw [abs_le]
    push_cast
    constructor <;> nlinarith

theorem zpow_two_split (e : Int) :
    (2 : ℚ) ^ e = (2 : ℚ) ^ e.toNat / (2 : ℚ) ^ (-e).toNat := by
  rcases le_total 0 e with h | h
  · have h1 : (-e).toNat = 0 := Int.toNat_eq_zero.2 (by omega)
    rw [h1, pow_zero, div_one, ← zpow_natCast, Int.toNat_of_nonneg h]
  · have h1 : e.toNat = 0 := Int.toNat_eq_zero.2 h
    rw [h1, pow_zero, ← zpow_natCast, Int.toNat_of_nonneg (by omega), zpow_neg, one_div, inv_inv]

theorem sixDecimalOf_finite (neg : Bool) (mant : Nat) (exp : Int) :
    SpecSixDecimalOf ((if neg then -1 else 1) * (mant : ℚ) * (2 : ℚ) ^ exp)
      (Double.finite neg mant exp).to_string := by
  have hpos : (0 : ℚ) ≤ (mant : ℚ) * (2 : ℚ) ^ exp :=
    mul_nonneg (by positivity) (zpow_nonneg (by norm_num) _)
  have habs : abs ((if neg then -1 else 1) * (mant : ℚ) * (2 : ℚ) ^ exp) =
      (mant : ℚ) * (2 : ℚ) ^ exp := by
    cases neg
    · simp only [Bool.false_eq_true, if_false, one_mul]
      exact abs_of_nonneg hpos
    · simp only [if_true, neg_mul, one_mul, abs_neg]
      exact abs_of_nonneg hpos
  have hb := roundHalfEven_bound (mant * 10 ^ 6 * 2 ^ exp.toNat) (2 ^ (-exp).toNat)
    (by positivity)
  have hN := Nat.div_add_mod
    (Double.roundHalfEven (mant * 10 ^ 6 * 2 ^ exp.toNat) (2 ^ (-exp).toNat)) (10 ^ 6)
  refine ⟨if neg then ['-'] else [], _, _, _, rfl, ?_, decimalOf_to_string _,
    (pad6_spec _ (Nat.mod_lt _ (by norm_num))).1, (pad6_spec _ (Nat.mod_lt _ (by norm_num))).2,
    ?_⟩
  · cases neg
    · left
      simp only [Bool.false_eq_true, if_false, one_mul]
      exact ⟨trivial, hpos⟩
    · right
      simp only [if_true, neg_mul, one_mul]
      exact ⟨trivial, by linarith⟩
  · rw [habs, pad6_value]
    generalize Double.roundHalfEven (mant * 10 ^ 6 * 2 ^ exp.toNat) (2 ^ (-exp).toNat) = N
      at hb hN
    have hNq : (N : ℚ) = 10 ^ 6 * ((N / 10 ^ 6 : Nat) : ℚ) + ((N % 10 ^ 6 : Nat) : ℚ) := by
      exact_mod_cast hN.symm
    have hval : ((N / 10 ^ 6 : Nat) : ℚ) + ((N % 10 ^ 6 : Nat) : ℚ) / 10 ^ 6 = (N : ℚ) / 10 ^ 6 := by
      rw [hNq]; field_simp; ring
    have hq : ((mant * 10 ^ 6 * 2 ^ exp.toNat : Nat) : ℚ) / ((2 ^ (-exp).toNat : Nat) : ℚ) =
        (mant : ℚ) * (2 : ℚ) ^ exp * 10 ^ 6 := by
      rw [zpow_two_split exp]
      push_cast
      ring
    rw [hq] at hb
    rw [hval]
    have : (N : ℚ) / 10 ^ 6 - (mant : ℚ) * (2 : ℚ) ^ exp =
        ((N : ℚ) - (mant : ℚ) * (2 : ℚ) ^ exp * 10 ^ 6) / 10 ^ 6 := by
      field_simp
      ring
    rw [this, abs_div, abs_of_pos (by norm_num : (0 : ℚ) < 10 ^ 6),
      div_le_iff₀ (by norm_num : (0 : ℚ) < 10 ^ 6)]
    calc abs ((N : ℚ) - (mant : ℚ) * (2 : ℚ) ^ exp * 10 ^ 6) ≤ 1 / 2 := hb
      _ = 1 / (2 * 10 ^ 6) * 10 ^ 6 := by norm_num

theorem digit_printable (c : Char) (h : SpecDecimalDigit c) : 32 ≤ c.toNat := by
  simp only [SpecDecimalDigit, String.toList] at h
  simp at h
  rcases h with h | h | h | h | h | h | h | h | h | h <;> subst h <;> decide

theorem to_string_printable (n : Nat) : SpecPrintable (to_string n) :=
  fun c hc => digit_printable c (to_string_decimal n c hc)

theorem double_text_plain (x : Double) :
    ∀ c ∈ x.to_string, (c ≠ '"' ∧ c ≠ '\\') ∧ 32 ≤ c.toNat := by
  cases x with
  | nan => decide
  | inf neg => cases neg <;> decide
  | finite neg mant exp =>
    intro c hc
    simp only [Double.to_string, List.mem_append, List.mem_singleton] at hc
    rcases hc with ((hc | hc) | hc) | hc
    · cases neg
      · simp at hc
      · have : c = '-' := by simpa using hc
        subst this
        decide
    · exact ⟨digit_plain c (to_string_decimal _ c hc), digit_printable c (to_string_decimal _ c hc)⟩
    · subst hc
      decide
    · have h := (pad6_spec _ (Nat.mod_lt _ (by norm_num))).2 c hc
      exact ⟨digit_plain c h, digit_printable c h⟩

theorem storedUserAgent_printable (u : List Char) : SpecPrintable (storedUserAgent u) := by
  unfold storedUserAgent
  split_ifs with h
  · obtain ⟨n, hn, a, b, c, ha, hb, hc, rfl⟩ := (regex_match_known_iff u).1 h
    have hname : SpecPrintable n := by
      simp only [specProductNames, List.mem_cons, List.mem_singleton, List.not_mem_nil,
        or_false] at hn
      rcases hn with hn | hn | hn | hn <;> subst hn <;> decide
    intro x hx
    simp only [List.mem_append, List.mem_singleton] at hx
    rcases hx with (((((hx | hx) | hx) | hx) | hx) | hx) | hx
    · exact hname x hx
    · subst hx; decide
    · exact digit_printable x (ha.2.2 x hx)
    · subst hx; decide
    · exact digit_printable x (hb.2.2 x hx)
    · subst hx; decide
    · exact digit_printable x (hc.2.2 x hx)
  · decide

theorem renderValue_number (n : Nat) :
    renderValue (SpecValue.text (to_string n)) = ['"'] ++ to_string n ++ ['"'] :=
  quoted_of_plain _ (fun c hc => digit_plain c (to_string_decimal n c hc))

theorem renderValue_nullable (s : List Char) : renderValue (specNullable s) = textField s := by
  cases s <;> simp [specNullable, renderValue, textField]

theorem renderValue_coordinate (x : Double) :
    renderValue (coordinateValue x) = coordinateField x := by
  cases x with
  | nan => rfl
  | inf neg =>
    simp only [coordinateValue, coordinateField, Double.isnan, Bool.false_eq_true, if_false,
      Bool.not_false, if_true, renderValue]
    exact quoted_of_plain _ (fun c hc => (double_text_plain _ c hc).1)
  | finite neg mant exp =>
    simp only [coordinateValue, coordinateField, Double.isnan, Bool.false_eq_true, if_false,
      Bool.not_false, if_true, renderValue]
    exact quoted_of_plain _ (fun c hc => (double_text_plain _ c hc).1)

theorem renderMember_eq (k : List Char) (v : SpecValue) (h : ∀ c ∈ k, c ≠ '"' ∧ c ≠ '\\') :
    renderMember (k, v) = ['"'] ++ k ++ ['"', ':'] ++ renderValue v := by
  simp [renderMember, quoted_of_plain k h]

theorem peerObject_render (hash : List Char → Nat) (p : PeerInfo) (g : Geolocation) :
    peerObject hash p g = renderObject (peerMembers hash p g) := by
  simp only [renderObject, peerMembers, List.map_cons, List.map_nil, intercalate_cons_flatMap,
    List.flatMap_cons, List.flatMap_nil]
  rw [renderMember_eq _ _ (by decide), renderMember_eq _ _ (by decide),
    renderMember_eq _ _ (by decide), renderMember_eq _ _ (by decide),
    renderMember_eq _ _ (by decide), renderMember_eq _ _ (by decide),
    renderMember_eq _ _ (by decide), renderMember_eq _ _ (by decide),
    renderMember_eq _ _ (by decide), renderMember_eq _ _ (by decide)]
  simp only [renderValue_number, renderValue_nullable, renderValue_coordinate]
  simp only [peerObject, renderValue, String.toList]
  simp

theorem valuePrintable_nullable (s : List Char) :
    valuePrintable (specNullable s) ↔ SpecPrintable s := by
  cases s with
  | nil => exact ⟨fun _ c hc => absurd hc (List.not_mem_nil c), fun _ => trivial⟩
  | cons c cs => exact Iff.rfl

theorem valuePrintable_coordinate (x : Double) : valuePrintable (coordinateValue x) := by
  unfold coordinateValue
  split_ifs
  · trivial
  · exact fun c hc => (double_text_plain x c hc).2

theorem peerMembers_printable (hash : List Char → Nat) (p : PeerInfo) (g : Geolocation) :
    (∀ x ∈ peerMembers hash p g, memberPrintable x) ↔
      (SpecPrintable (storedAddress hash p.peerIdentifier) ∧ SpecPrintable g.continent ∧
        SpecPrintable g.country ∧ SpecPrintable g.subdivision ∧ SpecPrintable g.city) := by
  have hk : ∀ k : String, SpecPrintable k.toList → ∀ v, memberPrintable (k.toList, v) ↔
      valuePrintable v := fun k hk v => ⟨fun h => h.2, fun h => ⟨hk, h⟩⟩
  simp only [peerMembers, List.forall_mem_cons, List.not_mem_nil, false_implies, implies_true,
    and_true]
  rw [hk _ (by decide), hk _ (by decide), hk _ (by decide), hk _ (by decide), hk _ (by decide),
    hk _ (by decide), hk _ (by decide), hk _ (by decide), hk _ (by decide), hk _ (by decide),
    valuePrintable_nullable, valuePrintable_nullable, valuePrintable_nullable,
    valuePrintable_nullable]
  constructor
  · rintro ⟨h1, _, _, _, h5, h6, h7, h8, _, _⟩
    exact ⟨h1, h5, h6, h7, h8⟩
  · rintro ⟨h1, h5, h6, h7, h8⟩
    exact ⟨h1, to_string_printable _, storedUserAgent_printable _, to_string_printable _, h5, h6,
      h7, h8, valuePrintable_coordinate _, valuePrintable_coordinate _⟩

theorem coordinateOf_value (x : Double) (h : x ≠ Double.nan → x.isfinite = true) :
    SpecCoordinateOf x (coordinateValue x) := by
  cases x with
  | nan => exact Or.inl ⟨rfl, rfl⟩
  | inf neg => exact absurd (h (by simp)) (by simp [Double.isfinite])
  | finite neg mant exp => exact Or.inr ⟨_, _, rfl, rfl, sixDecimalOf_finite neg mant exp⟩

/-- C2, as the code has it: a peer event appended to an absent log file leaves the file
holding `[`, a newline and a text `obj`. When the stored address and the texts of the
geolocation hold no control character, `obj` reads as exactly one object, nothing after it,
whose members are address, capabilities, user_agent, base_fee, continent, country,
subdivision, city, longitude, latitude in that order, where capabilities and base_fee are
strings holding the decimal integer, an absent text of the geolocation is the bare word
null, a present one the string of the text, an absent coordinate null and a present
coordinate a string holding the six-decimal fixed-point number of its value. When one of
them holds a control character, `obj` does not read as an object. -/
theorem first_append_content (env : Env) (out : List Char) (p : PeerInfo) (g : Geolocation)
    (hgeo : (geolocate env p.peerIdentifier).result = Except.ok g)
    (hcap : p.capabilities < 2 ^ 32) (hfee : p.baseFee < 2 ^ 64) :
    ∃ obj : List Char,
      (onPeerInfo env IoFault.none ⟨none, out⟩ p).file = some ("[\n".toList ++ obj) ∧
      ((SpecPrintable (storedAddress env.hash p.peerIdentifier) ∧ SpecPrintable g.continent ∧
          SpecPrintable g.country ∧ SpecPrintable g.subdivision ∧ SpecPrintable g.city) →
        ∃ (capabilities baseFee : List Char) (longitude latitude : SpecValue),
          specReadObject obj = some
            ([("address".toList, SpecValue.text (storedAddress env.hash p.peerIdentifier)),
              ("capabilities".toList, SpecValue.text capabilities),
              ("user_agent".toList, SpecValue.text (storedUserAgent p.userAgent)),
              ("base_fee".toList, SpecValue.text baseFee),
              ("continent".toList, specNullable g.continent),
              ("country".toList, specNullable g.country),
              ("subdivision".toList, specNullable g.subdivision),
              ("city".toList, specNullable g.city),
              ("longitude".toList, longitude),
              ("latitude".toList, latitude)], []) ∧
          SpecDecimalOf p.capabilities capabilities ∧ SpecDecimalOf p.baseFee baseFee ∧
          SpecCoordinateOf g.longitude longitude ∧ SpecCoordinateOf g.latitude latitude) ∧
      (¬ (SpecPrintable (storedAddress env.hash p.peerIdentifier) ∧ SpecPrintable g.continent ∧
          SpecPrintable g.country ∧ SpecPrintable g.subdivision ∧ SpecPrintable g.city) →
        specReadObject obj = none) := by
  refine ⟨peerObject env.hash p g, ?_, ?_, ?_⟩
  · simp [onPeerInfo, hgeo, peerInfoOutput, endl]
  · intro hp
    have hfin := geolocate_present_finite env _ g hgeo
    refine ⟨to_string (p.capabilities % 2 ^ 32), to_string (p.baseFee % 2 ^ 64),
      coordinateValue g.longitude, coordinateValue g.latitude, ?_, ?_, ?_,
      coordinateOf_value _ hfin.1, coordinateOf_value _ hfin.2⟩
    · rw [peerObject_render]
      exact specReadObject_render _ _ ((peerMembers_printable env.hash p g).2 hp)
    · rw [Nat.mod_eq_of_lt hcap]
      exact decimalOf_to_string _
    · rw [Nat.mod_eq_of_lt hfee]
      exact decimalOf_to_string _
  · intro hp
    rw [peerObject_render]
    apply specReadObject_control
    by_contra hall
    push_neg at hall
    exact hp ((peerMembers_printable env.hash p g).1 hall)

set_option maxRecDepth 100000 in
/-- Witness of C2. Scenario A: the identifier `1.2.3.4:3414`, capabilities 1, the user agent
`MWC Validation Node 1.0.0`, the base fee 1000000, located in Europe, Germany, 10 east and
51 north, on an absent file, gives the text of the claim; it reads as the ten members, and
`1`, `1000000`, `10.000000` and `51.000000` are the texts of the numbers of the event.
The identifier `bad`, newline, `peer` gives a text that does not read as an object, the
newline standing unescaped inside the string of the address. -/
theorem first_append_content_witness :
    ((geolocate scenarioEnv scenarioA.peerIdentifier).result = Except.ok scenarioGeolocation ∧
      scenarioA.capabilities < 2 ^ 32 ∧ scenarioA.baseFee < 2 ^ 64) ∧
    (onPeerInfo scenarioEnv IoFault.none ⟨none, []⟩ scenarioA).file =
      some ("[\n".toList ++
        ("\x7b\"address\":\"1.2.3.4:3414\",\"capabilities\":\"1\"," ++
        "\"user_agent\":\"MWC Validation Node 1.0.0\",\"base_fee\":\"1000000\"," ++
        "\"continent\":\"Europe\",\"country\":\"Germany\",\"subdivision\":null,\"city\":null," ++
        "\"longitude\":\"10.000000\",\"latitude\":\"51.000000\"\x7d").toList) ∧
    specReadObject
        ("\x7b\"address\":\"1.2.3.4:3414\",\"capabilities\":\"1\"," ++
        "\"user_agent\":\"MWC Validation Node 1.0.0\",\"base_fee\":\"1000000\"," ++
        "\"continent\":\"Europe\",\"country\":\"Germany\",\"subdivision\":null,\"city\":null," ++
        "\"longitude\":\"10.000000\",\"latitude\":\"51.000000\"\x7d").toList =
      some ([("address".toList, SpecValue.text "1.2.3.4:3414".toList),
        ("capabilities".toList, SpecValue.text "1".toList),
        ("user_agent".toList, SpecValue.text "MWC Validation Node 1.0.0".toList),
        ("base_fee".toList, SpecValue.text "1000000".toList),
        ("continent".toList, SpecValue.text "Europe".toList),
        ("country".toList, SpecValue.text "Germany".toList),
        ("subdivision".toList, SpecValue.null),
        ("city".toList, SpecValue.null),
        ("longitude".toList, SpecValue.text "10.000000".toList),
        ("latitude".toList, SpecValue.text "51.000000".toList)], []) ∧
    (SpecDecimalOf 1 "1".toList ∧ SpecDecimalOf 1000000 "1000000".toList ∧
      SpecCoordinateOf (Double.ofInt 10) (SpecValue.text "10.000000".toList) ∧
      SpecCoordinateOf (Double.ofInt 51) (SpecValue.text "51.000000".toList)) ∧
    ((geolocate scenarioEnv newlinePeer.peerIdentifier).result = Except.ok {} ∧
      newlinePeer.capabilities < 2 ^ 32 ∧ newlinePeer.baseFee < 2 ^ 64 ∧
      newlinePeer.peerIdentifier = "bad\npeer".toList) ∧
    (onPeerInfo scenarioEnv IoFault.none ⟨none, []⟩ newlinePeer).file =
      some ("[\n".toList ++
        ("\x7b\"address\":\"bad\npeer\",\"capabilities\":\"1\"," ++
        "\"user_agent\":\"MWC Pay 1.0.0\",\"base_fee\":\"1000000\"," ++
        "\"continent\":null,\"country\":null,\"subdivision\":null,\"city\":null," ++
        "\"longitude\":null,\"latitude\":null\x7d").toList) ∧
    specReadObject
        ("\x7b\"address\":\"bad\npeer\",\"capabilities\":\"1\"," ++
        "\"user_agent\":\"MWC Pay 1.0.0\",\"base_fee\":\"1000000\"," ++
        "\"continent\":null,\"country\":null,\"subdivision\":null,\"city\":null," ++
        "\"longitude\":null,\"latitude\":null\x7d").toList = none ∧
    validJson
        ("\x7b\"address\":\"bad\npeer\",\"capabilities\":\"1\"," ++
        "\"user_agent\":\"MWC Pay 1.0.0\",\"base_fee\":\"1000000\"," ++
        "\"continent\":null,\"country\":null,\"subdivision\":null,\"city\":null," ++
        "\"longitude\":null,\"latitude\":null\x7d").toList = false := by
  obtain ⟨objA, hfileA, hreadA, _⟩ := first_append_content scenarioEnv [] scenarioA
    scenarioGeolocation (by rfl) (by decide) (by decide)
  obtain ⟨objB, hfileB, _, hnoneB⟩ := first_append_content scenarioEnv [] newlinePeer {}
    (by rfl) (by decide) (by decide)
  have hlitA : (onPeerInfo scenarioEnv IoFault.none ⟨none, []⟩ scenarioA).file =
      some ("[\n".toList ++
        ("\x7b\"address\":\"1.2.3.4:3414\",\"capabilities\":\"1\"," ++
        "\"user_agent\":\"MWC Validation Node 1.0.0\",\"base_fee\":\"1000000\"," ++
        "\"continent\":\"Europe\",\"country\":\"Germany\",\"subdivision\":null,\"city\":null," ++
        "\"longitude\":\"10.000000\",\"latitude\":\"51.000000\"\x7d").toList) := by decide
  have hlitB : (onPeerInfo scenarioEnv IoFault.none ⟨none, []⟩ newlinePeer).file =
      some ("[\n".toList ++
        ("\x7b\"address\":\"bad\npeer\",\"capabilities\":\"1\"," ++
        "\"user_agent\":\"MWC Pay 1.0.0\",\"base_fee\":\"1000000\"," ++
        "\"continent\":null,\"country\":null,\"subdivision\":null,\"city\":null," ++
        "\"longitude\":null,\"latitude\":null\x7d").toList) := by decide
  have hobjA := List.append_cancel_left (Option.some.inj (hfileA.symm.trans hlitA))
  have hobjB := List.append_cancel_left (Option.some.inj (hfileB.symm.trans hlitB))
  subst hobjA hobjB
  obtain ⟨c, f, lo, la, hread, hc, hf, hlo, hla⟩ := hreadA (by decide)
  have hread2 : specReadObject
        ("\x7b\"address\":\"1.2.3.4:3414\",\"capabilities\":\"1\"," ++
        "\"user_agent\":\"MWC Validation Node 1.0.0\",\"base_fee\":\"1000000\"," ++
        "\"continent\":\"Europe\",\"country\":\"Germany\",\"subdivision\":null,\"city\":null," ++
        "\"longitude\":\"10.000000\",\"latitude\":\"51.000000\"\x7d").toList =
      some ([("address".toList, SpecValue.text "1.2.3.4:3414".toList),
        ("capabilities".toList, SpecValue.text "1".toList),
        ("user_agent".toList, SpecValue.text "MWC Validation Node 1.0.0".toList),
        ("base_fee".toList, SpecValue.text "1000000".toList),
        ("continent".toList, SpecValue.text "Europe".toList),
        ("country".toList, SpecValue.text "Germany".toList),
        ("subdivision".toList, SpecValue.null),
        ("city".toList, SpecValue.null),
        ("longitude".toList, SpecValue.text "10.000000".toList),
        ("latitude".toList, SpecValue.text "51.000000".toList)], []) := by decide
  rw [hread2] at hread
  simp only [Option.some.injEq, Prod.mk.injEq, List.cons.injEq, SpecValue.text.injEq, and_true,
    true_and] at hread
  obtain ⟨-, hc1, -, hf1, -, -, -, -, hlo1, hla1⟩ := hread
  subst hc1 hf1 hlo1 hla1
  exact ⟨⟨by rfl, by decide, by decide⟩, hlitA, hread2, ⟨hc, hf, hlo, hla⟩,
    ⟨by rfl, by decide, by decide, by rfl⟩, hlitB, hnoneB (by decide), by decide⟩

/-! ## C3 -/

theorem onPeerInfo_file (env : Env) (w : World) (p : PeerInfo) (h : Geolocates env p) :
    (onPeerInfo env IoFault.none w p).file =
      some (w.file.getD [] ++ [if w.file.isSome then ',' else '['] ++ "\n".toList ++
        peerObjectOf env p) := by
  obtain ⟨g, hg⟩ := h
  simp [onPeerInfo, peerObjectOf, hg, peerInfoOutput, endl]

theorem appendAll_existing (env : Env) (ps : List PeerInfo) :
    ∀ (c out : List Char), (∀ q ∈ ps, Geolocates env q) →
      (appendAll env ⟨some c, out⟩ ps).file =
        some (c ++ ps.flatMap (fun q => ",\n".toList ++ peerObjectOf env q)) := by
  induction ps with
  | nil => intro c out _; simp [appendAll]
  | cons q qs ih =>
    intro c out h
    have hq := onPeerInfo_file env ⟨some c, out⟩ q (h q (by simp))
    simp only [Option.isSome_some, if_true, Option.getD_some] at hq
    have hrest := ih (c ++ [','] ++ "\n".toList ++ peerObjectOf env q)
      (onPeerInfo env IoFault.none ⟨some c, out⟩ q).out (fun r hr => h r (by simp [hr]))
    have hw : onPeerInfo env IoFault.none ⟨some c, out⟩ q =
        ⟨some (c ++ [','] ++ "\n".toList ++ peerObjectOf env q),
          (onPeerInfo env IoFault.none ⟨some c, out⟩ q).out⟩ := by
      rw [← hq]
    simp only [appendAll, List.foldl_cons] at hrest ⊢
    rw [hw, hrest]
    simp [List.flatMap_cons]

/-- C3: with every append taken as one step, M ≥ 1 peer events whose appends all succeed
from an absent file leave the file holding `[`, a newline and the M objects in the order
of the appends, with a comma and a newline between consecutive objects and nothing else;
an append to an existing file adds a comma, a newline and the object after the previous
content, which is unchanged. -/
theorem appends_in_order (env : Env) (out : List Char) (p : PeerInfo) (ps : List PeerInfo)
    (hok : ∀ q ∈ p :: ps, Geolocates env q) :
    (appendAll env ⟨none, out⟩ (p :: ps)).file =
        some ("[\n".toList ++ ",\n".toList.intercalate ((p :: ps).map (peerObjectOf env))) ∧
      ∀ (c out2 : List Char) (q : PeerInfo), Geolocates env q →
        (onPeerInfo env IoFault.none ⟨some c, out2⟩ q).file =
          some (c ++ ",\n".toList ++ peerObjectOf env q) := by
  constructor
  · have hp := onPeerInfo_file env ⟨none, out⟩ p (hok p (by simp))
    have hw : onPeerInfo env IoFault.none ⟨none, out⟩ p =
        ⟨some ("[\n".toList ++ peerObjectOf env p),
          (onPeerInfo env IoFault.none ⟨none, out⟩ p).out⟩ := by
      rw [← show (onPeerInfo env IoFault.none ⟨none, out⟩ p).file =
        some ("[\n".toList ++ peerObjectOf env p) from by rw [hp]; simp]
    have hrest := appendAll_existing env ps ("[\n".toList ++ peerObjectOf env p)
      (onPeerInfo env IoFault.none ⟨none, out⟩ p).out (fun r hr => hok r (by simp [hr]))
    simp only [appendAll, List.foldl_cons] at hrest ⊢
    rw [hw, hrest, List.map_cons, intercalate_cons_flatMap]
    simp [List.flatMap_map, List.flatMap]
    rfl
  · intro c out2 q hq
    rw [onPeerInfo_file env ⟨some c, out2⟩ q hq]
    simp
set_option maxRecDepth 100000 in
/-- Witness of C3, Scenario B: the event of Scenario A and then the event of Scenario E,
from an absent file. -/
theorem appends_in_order_witness :
    (∀ q ∈ [scenarioA, scenarioE], Geolocates scenarioEnv q) ∧
    (appendAll scenarioEnv ⟨none, []⟩ [scenarioA, scenarioE]).file =
      some ("[\n\x7b\"address\":\"1.2.3.4:3414\",\"capabilities\":\"1\"," ++
        "\"user_agent\":\"MWC Validation Node 1.0.0\",\"base_fee\":\"1000000\"," ++
        "\"continent\":\"Europe\",\"country\":\"Germany\",\"subdivision\":null,\"city\":null," ++
        "\"longitude\":\"10.000000\",\"latitude\":\"51.000000\"\x7d,\n" ++
        "\x7b\"address\":\"5485694583345478524.onion\",\"capabilities\":\"0\"," ++
        "\"user_agent\":\"MW/MWC 5.3.2\",\"base_fee\":\"1000000\"," ++
        "\"continent\":null,\"country\":null,\"subdivision\":null,\"city\":null," ++
        "\"longitude\":null,\"latitude\":null\x7d").toList :=
  have h : ∀ q ∈ [scenarioA, scenarioE], Geolocates scenarioEnv q := by
    intro q hq
    simp only [List.mem_cons, List.mem_singleton, List.not_mem_nil, or_false] at hq
    rcases hq with rfl | rfl <;> exact ⟨_, rfl⟩
  ⟨h, (appends_in_order scenarioEnv [] scenarioA [scenarioE] h).1.trans (by decide)⟩

/-! ## C4 -/

set_option maxRecDepth 100000 in
/-- C4, the code at a failing input: the file of Scenarios A and E, once finalized, is a
valid JSON document, and so is the file finalized after no append; but after the append
of a peer whose identifier holds a newline the finalized file is not one, the newline
standing unescaped inside the string of the address. -/
theorem finalize_json_fails_on_control_character :
    (finalize (appendAll scenarioEnv ⟨none, []⟩ [scenarioA, scenarioE]).file).map validJson =
        some true ∧
      (finalize (appendAll scenarioEnv ⟨none, []⟩ []).file).map validJson = some true ∧
      finalize (appendAll scenarioEnv ⟨none, []⟩ [newlinePeer]).file =
        some ("[\n\x7b\"address\":\"bad\npeer\",\"capabilities\":\"1\"," ++
          "\"user_agent\":\"MWC Pay 1.0.0\",\"base_fee\":\"1000000\"," ++
          "\"continent\":null,\"country\":null,\"subdivision\":null,\"city\":null," ++
          "\"longitude\":null,\"latitude\":null\x7d\n]").toList ∧
      (finalize (appendAll scenarioEnv ⟨none, []⟩ [newlinePeer]).file).map validJson =
        some false := by
  refine ⟨by decide, by decide, by decide, by decide⟩

/-! ## C5 -/

/-- C5: the finalize step of an archive cycle on an absent log file creates it with
exactly `[`, a newline and `]`; on an existing file it appends exactly a newline and `]`
to the content, and no `[`. -/
theorem finalize_content :
    finalize none = some ['[', '\n', ']'] ∧
      ∀ c : List Char, finalize (some c) = some (c ++ ['\n', ']']) := by
  constructor
  · rfl
  · intro c
    simp [finalize, finalizeOutput, endl]

/-! ## C6 -/

/-- C6: the geolocation returned by `geolocate` has its longitude and latitude both present
or both absent; when present the longitude is a finite value between -180 and 180 and the
latitude is a finite value between -90 and 90; when the longitude of the database is missing,
wrongly typed, not finite or out of range, or its latitude is, both are absent and both are
written as `null`; when neither is, and the entry is found, both are the values of the
database; and when absent both are written as `null`. -/
theorem geolocate_coordinates (env : Env) (address : List Char) (g : Geolocation)
    (h : (geolocate env address).result = Except.ok g) :
    (g.longitude = Double.nan ↔ g.latitude = Double.nan) ∧
      (g.longitude ≠ Double.nan →
        (∃ q : ℚ, g.longitude.toRat = some q ∧ -180 ≤ q ∧ q ≤ 180) ∧
        (∃ q : ℚ, g.latitude.toRat = some q ∧ -90 ≤ q ∧ q ≤ 90)) ∧
      (∀ ip, parseAddress env address = some ip →
        SpecBadCoordinate (-180) 180
            ((env.MMDB_lookup_sockaddr ip).1.get_value ["location", "longitude"]) ∨
          SpecBadCoordinate (-90) 90
            ((env.MMDB_lookup_sockaddr ip).1.get_value ["location", "latitude"]) →
        g.longitude = Double.nan ∧ g.latitude = Double.nan ∧
          coordinateField g.longitude = "null".toList ∧
          coordinateField g.latitude = "null".toList) ∧
      (∀ ip, parseAddress env address = some ip →
        (env.MMDB_lookup_sockaddr ip).1.found_entry = true →
        ¬ SpecBadCoordinate (-180) 180
            ((env.MMDB_lookup_sockaddr ip).1.get_value ["location", "longitude"]) →
        ¬ SpecBadCoordinate (-90) 90
            ((env.MMDB_lookup_sockaddr ip).1.get_value ["location", "latitude"]) →
        g.longitude =
            ((env.MMDB_lookup_sockaddr ip).1.get_value ["location", "longitude"]).double_value ∧
          g.latitude =
            ((env.MMDB_lookup_sockaddr ip).1.get_value ["location", "latitude"]).double_value) ∧
      (g.longitude = Double.nan →
        coordinateField g.longitude = "null".toList ∧
          coordinateField g.latitude = "null".toList) := by
  have hiff : g.longitude = Double.nan ↔ g.latitude = Double.nan := by
    rcases geolocate_cases env address g h with rfl | ⟨ip, _, rfl⟩
    · simp
    · obtain ⟨h1, h2⟩ := geolocationOfEntry_coordinates env.isUtf8
        (env.MMDB_lookup_sockaddr ip).1.get_value
      rw [h1, h2]
      split_ifs with hc
      · have a := (coordinateFound_spec _ _ _ hc.1).1
        have b := (coordinateFound_spec _ _ _ hc.2).1
        simp [a, b]
      · simp
  have hnull : g.longitude = Double.nan →
      coordinateField g.longitude = "null".toList ∧
        coordinateField g.latitude = "null".toList := by
    intro hlon
    have hlat := hiff.1 hlon
    rw [hlon, hlat]
    exact ⟨rfl, rfl⟩
  refine ⟨hiff, ?_, ?_, ?_, hnull⟩
  · intro hne
    rcases geolocate_cases env address g h with rfl | ⟨ip, _, rfl⟩
    · exact absurd rfl hne
    · obtain ⟨h1, h2⟩ := geolocationOfEntry_coordinates env.isUtf8
        (env.MMDB_lookup_sockaddr ip).1.get_value
      rw [h1] at hne ⊢
      rw [h2]
      split_ifs at hne ⊢ with hc
      · obtain ⟨_, f1, g1, l1⟩ := coordinateFound_spec _ _ _ hc.1
        obtain ⟨_, f2, g2, l2⟩ := coordinateFound_spec _ _ _ hc.2
        exact ⟨by simpa using range_spec _ (-180) 180 f1 g1 l1,
          by simpa using range_spec _ (-90) 90 f2 g2 l2⟩
      · exact absurd rfl hne
  · intro ip hip hbad
    have hboth : g.longitude = Double.nan ∧ g.latitude = Double.nan := by
      rcases geolocate_cases env address g h with rfl | ⟨ip2, hip2, rfl⟩
      · exact ⟨rfl, rfl⟩
      · have hsame : ip2 = ip := Option.some.inj (hip2.symm.trans hip)
        subst hsame
        obtain ⟨h1, h2⟩ := geolocationOfEntry_coordinates env.isUtf8
          (env.MMDB_lookup_sockaddr ip2).1.get_value
        rw [h1, h2]
        have hnot : ¬ (coordinateFound MIN_LONGITUDE MAX_LONGITUDE
              ((env.MMDB_lookup_sockaddr ip2).1.get_value ["location", "longitude"]) = true ∧
            coordinateFound MIN_LATITUDE MAX_LATITUDE
              ((env.MMDB_lookup_sockaddr ip2).1.get_value ["location", "latitude"]) = true) := by
          rintro ⟨a, b⟩
          rcases hbad with hb | hb
          · exact (coordinateFound_iff (-180) 180 _).1 a (by simpa using hb)
          · exact (coordinateFound_iff (-90) 90 _).1 b (by simpa using hb)
        simp [hnot]
    exact ⟨hboth.1, hboth.2, hnull hboth.1⟩
  · intro ip hip hfound hlon hlat
    have hres : (geolocate env address).result =
        Except.ok (geolocationOfEntry env.isUtf8 (env.MMDB_lookup_sockaddr ip).1.get_value) ∨
        ∃ what, (geolocate env address).result = Except.error what := by
      unfold geolocate
      rw [hip]
      simp only []
      split_ifs
      · exact Or.inr ⟨_, rfl⟩
      · exact Or.inr ⟨_, rfl⟩
      · simp_all
      · exact Or.inl rfl
    rcases hres with hres | ⟨what, hres⟩
    · rw [hres] at h
      have hg := Except.ok.inj h
      rw [← hg]
      obtain ⟨h1, h2⟩ := geolocationOfEntry_coordinates env.isUtf8
        (env.MMDB_lookup_sockaddr ip).1.get_value
      rw [h1, h2]
      have a := (coordinateFound_iff (-180) 180 _).2 (by simpa using hlon)
      have b := (coordinateFound_iff (-90) 90 _).2 (by simpa using hlat)
      have hboth : coordinateFound MIN_LONGITUDE MAX_LONGITUDE
            ((env.MMDB_lookup_sockaddr ip).1.get_value ["location", "longitude"]) = true ∧
          coordinateFound MIN_LATITUDE MAX_LATITUDE
            ((env.MMDB_lookup_sockaddr ip).1.get_value ["location", "latitude"]) = true :=
        ⟨a, b⟩
      simp [hboth]
    · rw [hres] at h
      exact Except.noConfusion h

/-- Witness of C6, the geolocation of `1.2.3.4:3414` on four databases: a missing
longitude beside a good latitude, a good longitude beside a latitude held as a `float`,
and the longitude 10 beside the latitude 91 each leave both coordinates absent and written
as `null`; the longitude 10 beside the latitude 51 leaves both present. -/
theorem geolocate_coordinates_witness :
    ((geolocate (coordinateEnv missingCoordinate (doubleCoordinate 51))
          "1.2.3.4:3414".toList).result = Except.ok { continent := "Europe".toList } ∧
      (geolocate (coordinateEnv (doubleCoordinate 10) floatCoordinate)
          "1.2.3.4:3414".toList).result = Except.ok { continent := "Europe".toList } ∧
      (geolocate (coordinateEnv (doubleCoordinate 10) (doubleCoordinate 91))
          "1.2.3.4:3414".toList).result = Except.ok { continent := "Europe".toList } ∧
      (geolocate (coordinateEnv (doubleCoordinate 10) (doubleCoordinate 51))
          "1.2.3.4:3414".toList).result =
        Except.ok { continent := "Europe".toList, longitude := Double.ofInt 10,
                    latitude := Double.ofInt 51 }) ∧
    (coordinateField ({ continent := "Europe".toList } : Geolocation).longitude =
        "null".toList ∧
      coordinateField ({ continent := "Europe".toList } : Geolocation).latitude =
        "null".toList) ∧
    (∃ q : ℚ, (Double.ofInt 10).toRat = some q ∧ -180 ≤ q ∧ q ≤ 180) :=
  have hmissing := (geolocate_coordinates (coordinateEnv missingCoordinate (doubleCoordinate 51))
    "1.2.3.4:3414".toList { continent := "Europe".toList } rfl).2.2.1
      (SockAddr.AF_INET "1.2.3.4".toList) rfl (Or.inl (Or.inl (by decide)))
  have _hfloat := (geolocate_coordinates (coordinateEnv (doubleCoordinate 10) floatCoordinate)
    "1.2.3.4:3414".toList { continent := "Europe".toList } rfl).2.2.1
      (SockAddr.AF_INET "1.2.3.4".toList) rfl (Or.inr (Or.inr (Or.inr (Or.inl (by decide)))))
  have _hrange := (geolocate_coordinates
    (coordinateEnv (doubleCoordinate 10) (doubleCoordinate 91))
    "1.2.3.4:3414".toList { continent := "Europe".toList } rfl).2.2.1
      (SockAddr.AF_INET "1.2.3.4".toList) rfl
      (Or.inr (Or.inr (Or.inr (Or.inr (Or.inr ⟨91, by
        simp [coordinateEnv, coordinateEntry, doubleCoordinate, toRat_ofInt], Or.inr (by norm_num)⟩)))))
  have hgood := (geolocate_coordinates (coordinateEnv (doubleCoordinate 10) (doubleCoordinate 51))
    "1.2.3.4:3414".toList
    { continent := "Europe".toList, longitude := Double.ofInt 10, latitude := Double.ofInt 51 }
    rfl).2.1 (by decide)
  ⟨⟨rfl, rfl, rfl, rfl⟩, ⟨hmissing.2.2.1, hmissing.2.2.2⟩, hgood.1⟩

/-! ## The stored address of a hidden-service identifier, and C8 -/

theorem ends_with_append (name t : List Char) : ends_with (name ++ t) t = true := by
  simp [ends_with]

theorem storedAddress_onion (hash : List Char → Nat) (peerIdentifier : List Char)
    (h : ends_with peerIdentifier ".onion".toList = true) :
    storedAddress hash peerIdentifier =
      to_string (hash peerIdentifier % 2 ^ 64) ++ ".onion".toList := by
  unfold storedAddress
  rw [if_pos h]

/-- For a peer identifier `name.onion` the stored address is the decimal text of the hash
followed by `.onion`; it equals the raw identifier exactly when `name` is the decimal text
of the hash of the identifier, so it differs from the raw identifier whenever `name` is
empty, holds a character that is not a decimal digit, or is longer than 20 characters.
Whether the hash of a platform has such a fixed point is left open. -/
theorem onion_address_differs (hash : List Char → Nat) (name : List Char) :
    ends_with (name ++ ".onion".toList) ".onion".toList = true ∧
      (storedAddress hash (name ++ ".onion".toList) = name ++ ".onion".toList ↔
        name = to_string (hash (name ++ ".onion".toList) % 2 ^ 64)) ∧
      (name = [] ∨ (∃ c ∈ name, ¬ SpecDecimalDigit c) ∨ 20 < name.length →
        storedAddress hash (name ++ ".onion".toList) ≠ name ++ ".onion".toList) := by
  have hends := ends_with_append name ".onion".toList
  have hiff : storedAddress hash (name ++ ".onion".toList) = name ++ ".onion".toList ↔
      name = to_string (hash (name ++ ".onion".toList) % 2 ^ 64) := by
    rw [storedAddress_onion hash _ hends, List.append_left_inj]
    exact eq_comm
  refine ⟨hends, hiff, ?_⟩
  intro hname heq
  have hn := hiff.1 heq
  rcases hname with h | ⟨c, hc, hnd⟩ | h
  · exact to_string_ne_nil _ (hn ▸ h)
  · rw [hn] at hc
    exact hnd (to_string_decimal _ c hc)
  · have hl := to_string_length_le (hash (name ++ ".onion".toList) % 2 ^ 64)
      (Nat.mod_lt _ (by norm_num))
    rw [← hn] at hl
    omega

theorem onion_text_plain (n : Nat) :
    ∀ c ∈ to_string n ++ ".onion".toList, c ≠ '"' ∧ c ≠ '\\' := by
  intro c hc
  rcases List.mem_append.1 hc with h | h
  · exact digit_plain c (to_string_decimal n c h)
  · exact (by decide : ∀ x ∈ ".onion".toList, x ≠ '"' ∧ x ≠ '\\') c h

theorem peerInfoOutput_onion (hash : List Char → Nat) (fileExists : Bool) (p : PeerInfo)
    (g : Geolocation) (h : ends_with p.peerIdentifier ".onion".toList = true) :
    ∃ rest, peerInfoOutput hash fileExists p g =
      [if fileExists then ',' else '['] ++ "\n\x7b\"address\":\"".toList ++
        to_string (hash p.peerIdentifier % 2 ^ 64) ++ ".onion\",".toList ++ rest := by
  refine ⟨"\"capabilities\":\"".toList ++ to_string (p.capabilities % 2 ^ 32) ++ "\",".toList ++
    "\"user_agent\":".toList ++ quoted (storedUserAgent p.userAgent) ++ ",".toList ++
    "\"base_fee\":\"".toList ++ to_string (p.baseFee % 2 ^ 64) ++ "\",".toList ++
    "\"continent\":".toList ++ textField g.continent ++
    ",\"country\":".toList ++ textField g.country ++
    ",\"subdivision\":".toList ++ textField g.subdivision ++
    ",\"city\":".toList ++ textField g.city ++
    ",\"longitude\":".toList ++ coordinateField g.longitude ++ ",".toList ++
    "\"latitude\":".toList ++ coordinateField g.latitude ++
    "\x7d".toList, ?_⟩
  simp only [peerInfoOutput, peerObject, storedAddress_onion hash _ h,
    quoted_of_plain _ (onion_text_plain _)]
  simp [endl]

/-- C8: for a hidden-service identifier the stored address is the decimal text of the hash
of the raw identifier followed by `.onion`; two peer events with the same identifier,
whatever their other fields, their geolocations and the state of the file, have the same
stored address, and each is written with that address. -/
theorem onion_address_deterministic (hash : List Char → Nat) (p q : PeerInfo)
    (g1 g2 : Geolocation) (fileExists1 fileExists2 : Bool)
    (hon : ends_with p.peerIdentifier ".onion".toList = true)
    (hid : q.peerIdentifier = p.peerIdentifier) :
    storedAddress hash p.peerIdentifier =
        to_string (hash p.peerIdentifier % 2 ^ 64) ++ ".onion".toList ∧
      storedAddress hash q.peerIdentifier = storedAddress hash p.peerIdentifier ∧
      (∃ rest, peerInfoOutput hash fileExists1 p g1 =
        [if fileExists1 then ',' else '['] ++ "\n\x7b\"address\":\"".toList ++
          to_string (hash p.peerIdentifier % 2 ^ 64) ++ ".onion\",".toList ++ rest) ∧
      (∃ rest, peerInfoOutput hash fileExists2 q g2 =
        [if fileExists2 then ',' else '['] ++ "\n\x7b\"address\":\"".toList ++
          to_string (hash p.peerIdentifier % 2 ^ 64) ++ ".onion\",".toList ++ rest) := by
  refine ⟨storedAddress_onion hash _ hon, by rw [hid], peerInfoOutput_onion hash _ p g1 hon, ?_⟩
  have hq := peerInfoOutput_onion hash fileExists2 q g2 (by rw [hid]; exact hon)
  rw [hid] at hq
  exact hq

/-- Witness of C8, Scenario E: two peer events with the identifier
`abcdefghij1234567890.onion`, the first on an absent file and the second on an existing
one, have the same stored address. -/
theorem onion_address_deterministic_witness :
    (ends_with scenarioE.peerIdentifier ".onion".toList = true ∧
      scenarioE2.peerIdentifier = scenarioE.peerIdentifier) ∧
    storedAddress fnv1a scenarioE.peerIdentifier = "5485694583345478524.onion".toList ∧
      storedAddress fnv1a scenarioE2.peerIdentifier =
        storedAddress fnv1a scenarioE.peerIdentifier :=
  ⟨⟨by decide, by decide⟩,
    (onion_address_deterministic fnv1a scenarioE scenarioE2 {} scenarioGeolocation false true
      (by decide) (by decide)).1.trans (by decide),
    (onion_address_deterministic fnv1a scenarioE scenarioE2 {} scenarioGeolocation false true
      (by decide) (by decide)).2.1⟩

/-! ## C9 -/

theorem ends_with_split (s t : List Char) (h : ends_with s t = true) : ∃ name, s = name ++ t := by
  simp only [ends_with, List.isSuffixOf_iff_suffix] at h
  obtain ⟨name, hn⟩ := h
  exact ⟨name, hn.symm⟩

theorem geolocate_error_cases (env : Env) (address what : List Char)
    (h : (geolocate env address).result = Except.error what) :
    what = "Opening the IP geolocate database failed".toList ∨
      what = "Looking up the IP address in the IP geolocate database failed".toList := by
  unfold geolocate at h
  cases hp : parseAddress env address with
  | none => simp [hp] at h
  | some ip =>
    simp only [hp] at h
    split_ifs at h
    · exact Or.inl (Except.error.inj h).symm
    · exact Or.inr (Except.error.inj h).symm

set_option maxRecDepth 100000 in
theorem onion_not_in_diagnostic (peerIdentifier what : List Char)
    (hon : ends_with peerIdentifier ".onion".toList = true)
    (hw : what = "Opening the IP geolocate database failed".toList ∨
      what = "Looking up the IP address in the IP geolocate database failed".toList) :
    ¬ peerIdentifier <:+: updateFailed what := by
  obtain ⟨name, rfl⟩ := ends_with_split _ _ hon
  intro hin
  have hsub : ".onion".toList <:+: updateFailed what :=
    List.IsInfix.trans (List.infix_append' name ".onion".toList []) (by simpa using hin)
  rcases hw with rfl | rfl
  · exact absurd hsub (by decide)
  · exact absurd hsub (by decide)

theorem holdsDotO_append_left (a b : List Char) (h : holdsDotO a = true) :
    holdsDotO (a ++ b) = true := by
  induction a with
  | nil => simp [holdsDotO] at h
  | cons c cs ih =>
    simp only [holdsDotO, List.cons_append, Bool.or_eq_true, Bool.and_eq_true] at h ⊢
    rcases h with ⟨h1, h2⟩ | h
    · left
      refine ⟨h1, ?_⟩
      cases cs with
      | nil => simp at h2
      | cons d ds => simpa using h2
    · right; exact ih h

theorem holdsDotO_append_right (a b : List Char) (h : holdsDotO b = true) :
    holdsDotO (a ++ b) = true := by
  induction a with
  | nil => simpa using h
  | cons c cs ih => simp [holdsDotO, ih]

theorem holdsDotO_infix (x t : List Char) (hx : holdsDotO x = true) (h : x <:+: t) :
    holdsDotO t = true := by
  obtain ⟨a, b, rfl⟩ := h
  exact holdsDotO_append_left _ _ (holdsDotO_append_right _ _ hx)

theorem holdsDotO_append (a b : List Char) (ha : holdsDotO a = false) (hb : holdsDotO b = false)
    (hj : a.getLast? ≠ some '.' ∨ b.head? ≠ some 'o') : holdsDotO (a ++ b) = false := by
  induction a with
  | nil => simpa using hb
  | cons c cs ih =>
    simp only [holdsDotO, Bool.or_eq_false_iff, Bool.and_eq_false_imp] at ha
    cases cs with
    | nil =>
      show ((c == '.' && b.head? == some 'o') || holdsDotO b) = false
      rw [hb, Bool.or_false]
      rcases hj with hj | hj
      · have : c ≠ '.' := by simpa using hj
        simp [this]
      · have : (b.head? == some 'o') = false := by simpa using hj
        simp [this]
    | cons d ds =>
      have hrec := ih ha.2 (by
        rcases hj with hj | hj
        · left; simpa [List.getLast?_cons_cons] using hj
        · right; exact hj)
      simp only [List.cons_append, holdsDotO, Bool.or_eq_false_iff, Bool.and_eq_false_imp]
      refine ⟨?_, ?_⟩
      · intro hc
        have := ha.1 hc
        simpa using this
      · simpa [holdsDotO] using hrec

theorem holdsDotO_of_no_dot (l : List Char) (h : ∀ c ∈ l, c ≠ '.') : holdsDotO l = false := by
  induction l with
  | nil => rfl
  | cons c cs ih =>
    simp only [holdsDotO, Bool.or_eq_false_iff, Bool.and_eq_false_imp]
    refine ⟨?_, ih (fun d hd => h d (by simp [hd]))⟩
    intro hc
    exact absurd (by simpa using hc) (h c (by simp))

theorem decimal_no_dot (l : List Char) (h : ∀ c ∈ l, SpecDecimalDigit c) : ∀ c ∈ l, c ≠ '.' := by
  intro c hc hdot
  have := h c hc
  rw [hdot] at this
  exact absurd this (by decide)

theorem decimal_head (l : List Char) (h : ∀ c ∈ l, SpecDecimalDigit c) : l.head? ≠ some 'o' := by
  cases l with
  | nil => simp
  | cons c cs =>
    intro hc
    have hd := h c (by simp)
    simp only [List.head?_cons, Option.some.injEq] at hc
    rw [hc] at hd
    exact absurd hd (by decide)

theorem holdsDotO_to_string (n : Nat) : holdsDotO (to_string n) = false :=
  holdsDotO_of_no_dot _ (decimal_no_dot _ (to_string_decimal n))

theorem holdsDotO_double (x : Double) : holdsDotO x.to_string = false := by
  cases x with
  | nan => decide
  | inf neg => cases neg <;> decide
  | finite neg mant exp =>
    unfold Double.to_string
    have hp := pad6_spec
      (Double.roundHalfEven (mant * 10 ^ 6 * 2 ^ exp.toNat) (2 ^ (-exp).toNat) % 10 ^ 6)
      (Nat.mod_lt _ (by norm_num))
    refine holdsDotO_append _ _ ?_ (holdsDotO_of_no_dot _ (decimal_no_dot _ hp.2))
      (Or.inr (decimal_head _ hp.2))
    refine holdsDotO_append _ _ ?_ (by decide) (Or.inr (by decide))
    refine holdsDotO_append _ _ ?_ (holdsDotO_of_no_dot _ (decimal_no_dot _ (to_string_decimal _)))
      (Or.inr (decimal_head _ (to_string_decimal _)))
    cases neg <;> decide

theorem holdsDotO_coordinateField (x : Double) : holdsDotO (coordinateField x) = false := by
  unfold coordinateField
  split_ifs
  · refine holdsDotO_append _ _ ?_ (by decide) (Or.inr (by decide))
    exact holdsDotO_append _ _ (by decide) (holdsDotO_double x) (Or.inl (by decide))
  · decide

theorem holdsDotO_storedUserAgent (userAgent : List Char) :
    holdsDotO (storedUserAgent userAgent) = false := by
  unfold storedUserAgent
  split_ifs with hm
  · obtain ⟨n, hn, a, b, c, ha, hb, hc, rfl⟩ := (regex_match_known_iff userAgent).1 hm
    have hname : holdsDotO n = false := by
      simp only [specProductNames, List.mem_cons, List.mem_singleton, List.not_mem_nil,
        or_false] at hn
      rcases hn with hn | hn | hn | hn <;> subst hn <;> decide
    have dig : ∀ g : List Char, SpecDigitGroup g →
        holdsDotO g = false ∧ g.head? ≠ some 'o' := fun g hg =>
      ⟨holdsDotO_of_no_dot _ (decimal_no_dot _ hg.2.2), decimal_head _ hg.2.2⟩
    refine holdsDotO_append _ _ ?_ (dig c hc).1 (Or.inr (dig c hc).2)
    refine holdsDotO_append _ _ ?_ (by decide) (Or.inr (by decide))
    refine holdsDotO_append _ _ ?_ (dig b hb).1 (Or.inr (dig b hb).2)
    refine holdsDotO_append _ _ ?_ (by decide) (Or.inr (by decide))
    refine holdsDotO_append _ _ ?_ (dig a ha).1 (Or.inr (dig a ha).2)
    exact holdsDotO_append _ _ hname (by decide) (Or.inr (by decide))
  · decide

theorem infix_split_at (t a b : List Char) (c : Char) (hc : c ∉ t)
    (h : t <:+: a ++ c :: b) : t <:+: a ∨ t <:+: b := by
  obtain ⟨u, v, huv⟩ := h
  rcases List.append_eq_append_iff.1 huv with ⟨a', ha, _⟩ | ⟨c', hut, hcb⟩
  · exact Or.inl ⟨u, a', ha.symm⟩
  · cases c' with
    | nil => exact Or.inl ⟨u, [], by simpa using hut⟩
    | cons d ds =>
      have hd : c = d := by
        have := congrArg List.head? hcb
        simpa using this
      have hb : b = ds ++ v := by
        have := congrArg List.tail hcb
        simpa using this
      subst hd
      rcases List.append_eq_append_iff.1 hut with ⟨a'', _, ht⟩ | ⟨c'', _, hct⟩
      · exact absurd (by rw [ht]; simp) hc
      · cases c'' with
        | nil =>
          have : t = c :: ds := by simpa using hct.symm
          exact absurd (by rw [this]; simp) hc
        | cons e es =>
          have hds : ds = es ++ t := by
            have := congrArg List.tail hct
            simpa using this
          exact Or.inr ⟨es, v, by rw [hb, hds]⟩

theorem onion_infix_append (a b : List Char) (ha : ¬ ".onion".toList <:+: a)
    (hb : ¬ ".onion".toList <:+: b) (hj : ∀ c ∈ ".onion".toList, a.getLast? ≠ some c) :
    ¬ ".onion".toList <:+: a ++ b := by
  rcases List.eq_nil_or_concat a with rfl | ⟨a', c, rfl⟩
  · simpa using hb
  · intro h
    have hc : c ∉ ".onion".toList := by
      intro hm
      exact hj c hm (by simp)
    rw [List.concat_eq_append, List.append_assoc] at h
    rcases infix_split_at _ a' b c hc (by simpa using h) with h1 | h1
    · exact ha (List.IsInfix.trans h1 ⟨[], [c], by simp⟩)
    · exact hb h1

theorem onionClosed_append (a b : List Char) (ha : OnionClosed a) (hb : OnionClosed b) :
    OnionClosed (a ++ b) := by
  refine ⟨onion_infix_append a b ha.1 hb.1 ha.2, ?_⟩
  cases b with
  | nil => simpa using ha.2
  | cons c cs =>
    rw [List.getLast?_append_of_ne_nil _ (by simp)]
    exact hb.2

theorem onion_infix_holdsDotO (l : List Char) (h : holdsDotO l = false) :
    ¬ ".onion".toList <:+: l := by
  intro hin
  have := holdsDotO_infix _ _ (by decide) hin
  rw [h] at this
  exact Bool.noConfusion this

theorem prefix_of_prefix_escaped (s : List Char) :
    ∀ t : List Char, (∀ c ∈ t, c ≠ '"' ∧ c ≠ '\\') →
      t <+: s.flatMap (fun c => if c = '"' ∨ c = '\\' then ['\\', c] else [c]) → t <+: s := by
  induction s with
  | nil =>
    intro t _ h
    simpa using h
  | cons c cs ih =>
    intro t ht h
    cases t with
    | nil => exact List.nil_prefix
    | cons x xs =>
      have hx := ht x (by simp)
      rw [List.flatMap_cons] at h
      by_cases hc : c = '"' ∨ c = '\\'
      · rw [if_pos hc] at h
        have : x = '\\' := by
          obtain ⟨r, hr⟩ := h
          have := congrArg List.head? hr
          simpa using this
        exact absurd this hx.2
      · rw [if_neg hc] at h
        obtain ⟨r, hr⟩ := h
        have h1 : x = c := by
          have := congrArg List.head? hr
          simpa using this
        have h2 : xs ++ r = cs.flatMap (fun c => if c = '"' ∨ c = '\\' then ['\\', c] else [c]) := by
          have := congrArg List.tail hr
          simpa using this
        subst h1
        exact (List.prefix_cons_inj x).2 (ih xs (fun d hd => ht d (by simp [hd])) ⟨r, h2⟩)

theorem infix_of_infix_escaped (t : List Char) (ht : ∀ c ∈ t, c ≠ '"' ∧ c ≠ '\\')
    (hne : t ≠ []) (s : List Char)
    (h : t <:+: s.flatMap (fun c => if c = '"' ∨ c = '\\' then ['\\', c] else [c])) :
    t <:+: s := by
  induction s with
  | nil => simpa using h
  | cons c cs ih =>
    obtain ⟨x, xs, rfl⟩ := List.exists_cons_of_ne_nil hne
    have hx := ht x (by simp)
    rw [List.flatMap_cons] at h
    by_cases hc : c = '"' ∨ c = '\\'
    · rw [if_pos hc] at h
      have h' : x :: xs <:+: '\\' :: c :: cs.flatMap
          (fun c => if c = '"' ∨ c = '\\' then ['\\', c] else [c]) := by simpa using h
      rcases List.infix_cons_iff.1 h' with h1 | h1
      · obtain ⟨r, hr⟩ := h1
        have : x = '\\' := by
          have := congrArg List.head? hr
          simpa using this
        exact absurd this hx.2
      · rcases List.infix_cons_iff.1 h1 with h2 | h2
        · obtain ⟨r, hr⟩ := h2
          have : x = c := by
            have := congrArg List.head? hr
            simpa using this
          subst this
          rcases hc with hc | hc
          · exact absurd hc hx.1
          · exact absurd hc hx.2
        · exact List.infix_cons (ih h2)
    · rw [if_neg hc] at h
      have h' : x :: xs <:+: c :: cs.flatMap
          (fun c => if c = '"' ∨ c = '\\' then ['\\', c] else [c]) := by simpa using h
      rcases List.infix_cons_iff.1 h' with h1 | h1
      · have hp : x :: xs <+: c :: cs := by
          have := prefix_of_prefix_escaped (c :: cs) (x :: xs) ht (by
            rw [List.flatMap_cons, if_neg hc]
            simpa using h1)
          exact this
        exact hp.isInfix
      · exact List.infix_cons (ih h1)

theorem onionClosed_quoted (s : List Char) (h : ¬ ".onion".toList <:+: s) :
    OnionClosed (quoted s) := by
  constructor
  · intro hin
    have h1 : ".onion".toList <:+: [] ++ '"' ::
        (s.flatMap (fun c => if c = '"' ∨ c = '\\' then ['\\', c] else [c]) ++ ['"']) := by
      simpa [quoted] using hin
    rcases infix_split_at _ _ _ _ (by decide) h1 with h2 | h2
    · exact absurd h2 (by decide)
    · rcases infix_split_at _ _ _ _ (by decide) h2 with h3 | h3
      · exact h (infix_of_infix_escaped _ (by decide) (by decide) s h3)
      · exact absurd h3 (by decide)
  · show ∀ c ∈ ".onion".toList,
      (('"' :: s.flatMap (fun c => if c = '"' ∨ c = '\\' then ['\\', c] else [c])) ++
        ['"']).getLast? ≠ some c
    rw [List.getLast?_concat]
    decide

theorem onionClosed_textField (s : List Char) (h : ¬ ".onion".toList <:+: s) :
    OnionClosed (textField s) := by
  unfold textField
  split_ifs
  · decide
  · exact onionClosed_quoted s h

theorem decimal_last_onion (l : List Char) (h : ∀ c ∈ l, SpecDecimalDigit c) :
    ∀ c ∈ ".onion".toList, l.getLast? ≠ some c := by
  intro c hc hl
  have hm : c ∈ l := List.mem_of_getLast?_eq_some hl
  exact (by decide : ∀ d ∈ ".onion".toList, ¬ SpecDecimalDigit d) c hc (h c hm)

theorem onionClosed_to_string (n : Nat) : OnionClosed (to_string n) :=
  ⟨onion_infix_holdsDotO _ (holdsDotO_to_string n), decimal_last_onion _ (to_string_decimal n)⟩

theorem onionClosed_coordinateField (x : Double) : OnionClosed (coordinateField x) := by
  refine ⟨onion_infix_holdsDotO _ (holdsDotO_coordinateField x), ?_⟩
  unfold coordinateField
  split_ifs
  · rw [List.getLast?_concat]; decide
  · decide

theorem onionClosed_afterAddress (p : PeerInfo) (g : Geolocation)
    (hg : ¬ ".onion".toList <:+: g.continent ∧ ¬ ".onion".toList <:+: g.country ∧
      ¬ ".onion".toList <:+: g.subdivision ∧ ¬ ".onion".toList <:+: g.city) :
    OnionClosed (afterAddress p g) := by
  have h1 := onionClosed_to_string (p.capabilities % 2 ^ 32)
  have h2 := onionClosed_quoted _
    (onion_infix_holdsDotO _ (holdsDotO_storedUserAgent p.userAgent))
  have h3 := onionClosed_to_string (p.baseFee % 2 ^ 64)
  have h4 := onionClosed_textField _ hg.1
  have h5 := onionClosed_textField _ hg.2.1
  have h6 := onionClosed_textField _ hg.2.2.1
  have h7 := onionClosed_textField _ hg.2.2.2
  have h8 := onionClosed_coordinateField g.longitude
  have h9 := onionClosed_coordinateField g.latitude
  unfold afterAddress
  generalize to_string (p.capabilities % 2 ^ 32) = t1 at h1 ⊢
  generalize quoted (storedUserAgent p.userAgent) = t2 at h2 ⊢
  generalize to_string (p.baseFee % 2 ^ 64) = t3 at h3 ⊢
  generalize textField g.continent = t4 at h4 ⊢
  generalize textField g.country = t5 at h5 ⊢
  generalize textField g.subdivision = t6 at h6 ⊢
  generalize textField g.city = t7 at h7 ⊢
  generalize coordinateField g.longitude = t8 at h8 ⊢
  generalize coordinateField g.latitude = t9 at h9 ⊢
  repeat' apply onionClosed_append
  all_goals first | assumption | decide

theorem peerInfoOutput_split (hash : List Char → Nat) (fileExists : Bool) (p : PeerInfo)
    (g : Geolocation) (h : ends_with p.peerIdentifier ".onion".toList = true) :
    peerInfoOutput hash fileExists p g =
      ([if fileExists then ',' else '['] ++ "\n\x7b\"address\":\"".toList ++
          to_string (hash p.peerIdentifier % 2 ^ 64)) ++
        (".onion".toList ++ afterAddress p g) := by
  simp only [peerInfoOutput, peerObject, storedAddress_onion hash _ h,
    quoted_of_plain _ (onion_text_plain _), afterAddress]
  simp [endl]

theorem no_dot_before_onion (sep : Char) (hsep : sep ≠ '.') (n : Nat) :
    ∀ c ∈ [sep] ++ "\n\x7b\"address\":\"".toList ++ to_string n, c ≠ '.' := by
  intro c hc
  rcases List.mem_append.1 hc with hc | hc
  · rcases List.mem_append.1 hc with hc | hc
    · simp only [List.mem_singleton] at hc
      rw [hc]; exact hsep
    · exact (by decide : ∀ x ∈ "\n\x7b\"address\":\"".toList, x ≠ '.') c hc
  · exact decimal_no_dot _ (to_string_decimal n) c hc

theorem onion_position (a name x b y : List Char) (hx : ∀ c ∈ x, c ≠ '.')
    (hy : ¬ ".onion".toList <:+: "onion".toList ++ y)
    (h : a ++ (name ++ ".onion".toList) ++ b = x ++ (".onion".toList ++ y)) :
    a ++ name = x := by
  have h2 : (a ++ name) ++ (".onion".toList ++ b) = x ++ (".onion".toList ++ y) := by
    simpa [List.append_assoc] using h
  rcases List.append_eq_append_iff.1 h2 with ⟨a', hxa, hb⟩ | ⟨c', hac, hyc⟩
  · cases a' with
    | nil => simpa using hxa.symm
    | cons d ds =>
      have hd : d = '.' := by
        have := congrArg List.head? hb
        simpa using this.symm
      exact absurd hd (hx d (by rw [hxa]; simp))
  · cases c' with
    | nil => simpa using hac
    | cons d ds =>
      have htail : "onion".toList ++ y = ds ++ (".onion".toList ++ b) := by
        have := congrArg List.tail hyc
        simpa using this
      exact absurd ⟨ds, b, by rw [htail]; simp⟩ hy

theorem onion_not_in_record (hash : List Char → Nat) (fileExists : Bool) (p : PeerInfo)
    (g : Geolocation) (name : List Char) (hid : p.peerIdentifier = name ++ ".onion".toList)
    (hg : ¬ ".onion".toList <:+: g.continent ∧ ¬ ".onion".toList <:+: g.country ∧
      ¬ ".onion".toList <:+: g.subdivision ∧ ¬ ".onion".toList <:+: g.city)
    (hname : ¬ name <:+ [if fileExists then ',' else '['] ++ "\n\x7b\"address\":\"".toList ++
      to_string (hash p.peerIdentifier % 2 ^ 64)) (k : Nat) :
    ¬ p.peerIdentifier <:+: (peerInfoOutput hash fileExists p g).take k := by
  intro hin
  have hon : ends_with p.peerIdentifier ".onion".toList = true := by
    rw [hid]; exact ends_with_append _ _
  have hin2 : p.peerIdentifier <:+: peerInfoOutput hash fileExists p g :=
    List.IsInfix.trans hin (List.take_prefix _ _).isInfix
  rw [peerInfoOutput_split hash fileExists p g hon] at hin2
  obtain ⟨a, b, hab⟩ := hin2
  rw [hid] at hab
  have hy : ¬ ".onion".toList <:+: "onion".toList ++ afterAddress p g := by
    intro h
    have hq : afterAddress p g = '"' :: (afterAddress p g).tail := by simp [afterAddress]
    rw [hq] at h
    rcases infix_split_at ".onion".toList _ _ '"' (by decide) h with h1 | h1
    · exact absurd h1 (by decide)
    · exact (onionClosed_afterAddress p g hg).1
        (List.IsInfix.trans h1 (List.tail_suffix _).isInfix)
  have hsep : (if fileExists then ',' else '[') ≠ '.' := by
    cases fileExists <;> decide
  have hpos := onion_position a name _ b _ (no_dot_before_onion _ hsep _) hy hab
  exact hname ⟨a, by rw [hid]; exact hpos⟩

theorem name_not_tail (sep : Char) (digits name : List Char)
    (hd : ∀ c ∈ digits, SpecDecimalDigit c) (hc : ∃ c ∈ name, ¬ SpecDecimalDigit c)
    (hq : '"' ∉ name) :
    ¬ name <:+ [sep] ++ "\n\x7b\"address\":\"".toList ++ digits := by
  rintro ⟨a, ha⟩
  obtain ⟨c, hcn, hcd⟩ := hc
  have h2 : a ++ name = ([sep] ++ "\n\x7b\"address\":".toList ++ ['"']) ++ digits := by
    rw [ha]; simp
  rcases List.append_eq_append_iff.1 h2 with ⟨a', hpre, hn⟩ | ⟨c', _, hdig⟩
  · rcases List.eq_nil_or_concat a' with rfl | ⟨init, l, rfl⟩
    · rw [hn] at hcn
      exact hcd (hd c (by simpa using hcn))
    · have hl : l = '"' := by
        have := congrArg List.getLast? hpre
        simp only [List.concat_eq_append] at this
        rw [List.getLast?_concat, ← List.append_assoc, List.getLast?_concat] at this
        exact (Option.some.inj this).symm
      apply hq
      rw [hn, hl]
      simp
  · exact hcd (hd c (by rw [hdig]; simp [hcn]))

theorem diagnostic_without_onion (peerIdentifier what : List Char)
    (hon : ends_with peerIdentifier ".onion".toList = true)
    (hw : ¬ ".onion".toList <:+: what) :
    ¬ peerIdentifier <:+: updateFailed what := by
  obtain ⟨name, rfl⟩ := ends_with_split _ _ hon
  intro hin
  have h1 : ".onion".toList <:+: updateFailed what :=
    List.IsInfix.trans ⟨name, [], by simp⟩ hin
  have h2 : ¬ ".onion".toList <:+: updateFailed what := by
    unfold updateFailed
    rw [List.append_assoc]
    refine onion_infix_append _ _ (by decide) ?_ (by decide)
    intro h3
    rcases infix_split_at ".onion".toList what [] '\n' (by decide)
      (by simpa [endl] using h3) with h4 | h4
    · exact hw h4
    · exact absurd h4 (by decide)
  exact h2 h1

/-- C9, as the code has it: for a hidden-service identifier `name.onion`, a failed
geolocation writes nothing to the file and only the line `Updating recent peers JSON file
failed: ` with one of the two messages of `geolocate`, which does not contain the raw
identifier; a failed file operation writes to standard output only that line with the
message of its exception, which does not contain the raw identifier when the message does
not hold `.onion`; the text written to the file, by a successful append or up to a failed
write, carries the decimal hash followed by `.onion` as the address and does not contain
the raw identifier, provided no text of the geolocation holds `.onion` and `name` is not a
tail of what is written before the `.onion` of the address, as when `name` holds a
character that is not a decimal digit and no double quote; and a successful append writes
to standard output the status line `Detected ... peer ` followed by the raw identifier. -/
theorem onion_event_output (env : Env) (w : World) (p : PeerInfo) (name : List Char)
    (hid : p.peerIdentifier = name ++ ".onion".toList) :
    (∀ fault what, (geolocate env p.peerIdentifier).result = Except.error what →
      onPeerInfo env fault w p =
          ⟨w.file, w.out ++ "Updating recent peers JSON file failed: ".toList ++ what ++
            "\n".toList⟩ ∧
        ¬ p.peerIdentifier <:+: updateFailed what) ∧
      (∀ g, (geolocate env p.peerIdentifier).result = Except.ok g →
        (∀ what,
          onPeerInfo env (IoFault.existsThrows what) w p =
              ⟨w.file, w.out ++ updateFailed what⟩ ∧
            onPeerInfo env (IoFault.openFails what) w p =
              ⟨w.file, w.out ++ updateFailed what⟩ ∧
            (∀ written, onPeerInfo env (IoFault.writeFails written what) w p =
              ⟨some (w.file.getD [] ++
                  (peerInfoOutput env.hash w.file.isSome p g).take written),
                w.out ++ updateFailed what⟩) ∧
            (¬ ".onion".toList <:+: what → ¬ p.peerIdentifier <:+: updateFailed what)) ∧
        onPeerInfo env IoFault.none w p =
          ⟨some (w.file.getD [] ++ peerInfoOutput env.hash w.file.isSome p g),
            w.out ++ "Detected ".toList ++
              (if p.isInbound then "inbound".toList else "outbound".toList) ++
              " peer ".toList ++ p.peerIdentifier ++ "\n".toList⟩ ∧
        peerInfoOutput env.hash w.file.isSome p g =
          [if w.file.isSome then ',' else '['] ++ "\n\x7b\"address\":\"".toList ++
            to_string (env.hash p.peerIdentifier % 2 ^ 64) ++ ".onion".toList ++
            afterAddress p g ∧
        ((∃ c ∈ name, ¬ SpecDecimalDigit c) ∧ '"' ∉ name →
          ¬ name <:+ [if w.file.isSome then ',' else '['] ++ "\n\x7b\"address\":\"".toList ++
            to_string (env.hash p.peerIdentifier % 2 ^ 64)) ∧
        (¬ ".onion".toList <:+: g.continent ∧ ¬ ".onion".toList <:+: g.country ∧
            ¬ ".onion".toList <:+: g.subdivision ∧ ¬ ".onion".toList <:+: g.city →
          ¬ name <:+ [if w.file.isSome then ',' else '['] ++ "\n\x7b\"address\":\"".toList ++
            to_string (env.hash p.peerIdentifier % 2 ^ 64) →
          ¬ p.peerIdentifier <:+: peerInfoOutput env.hash w.file.isSome p g ∧
            ∀ written,
              ¬ p.peerIdentifier <:+:
                (peerInfoOutput env.hash w.file.isSome p g).take written)) := by
  have hon : ends_with p.peerIdentifier ".onion".toList = true := by
    rw [hid]; exact ends_with_append _ _
  constructor
  · intro fault what hgeo
    refine ⟨?_, onion_not_in_diagnostic _ _ hon (geolocate_error_cases env _ what hgeo)⟩
    simp [onPeerInfo, hgeo, updateFailed, endl]
  · intro g hgeo
    refine ⟨fun what => ⟨?_, ?_, fun written => ?_, ?_⟩, ?_, ?_, ?_, ?_⟩
    · simp [onPeerInfo, hgeo]
    · simp [onPeerInfo, hgeo]
    · simp [onPeerInfo, hgeo]
    · exact diagnostic_without_onion _ _ hon
    · simp [onPeerInfo, hgeo, detected, endl]
    · rw [peerInfoOutput_split env.hash _ p g hon]
      simp
    · rintro ⟨hc, hq⟩
      exact name_not_tail _ _ name (to_string_decimal _) hc hq
    · intro hg hname
      have hall := onion_not_in_record env.hash w.file.isSome p g name hid hg hname
      refine ⟨?_, hall⟩
      have := hall (peerInfoOutput env.hash w.file.isSome p g).length
      rwa [List.take_length] at this

set_option maxRecDepth 100000 in
/-- Witness of C9 as the code has it: the event of Scenario E on an absent file; the record
holds the hashed address and no part of it written before a failed write holds the raw
identifier, a diagnostic with the message of a failed stream or of a failed
`filesystem::exists` does not hold it, and standard output holds it after the append. -/
theorem onion_event_output_witness :
    (scenarioE.peerIdentifier = "abcdefghij1234567890".toList ++ ".onion".toList ∧
      (geolocate scenarioEnv scenarioE.peerIdentifier).result = Except.ok {}) ∧
    onPeerInfo scenarioEnv IoFault.none ⟨none, []⟩ scenarioE =
      ⟨some ("[\n\x7b\"address\":\"5485694583345478524.onion\",\"capabilities\":\"0\"," ++
          "\"user_agent\":\"MW/MWC 5.3.2\",\"base_fee\":\"1000000\"," ++
          "\"continent\":null,\"country\":null,\"subdivision\":null,\"city\":null," ++
          "\"longitude\":null,\"latitude\":null\x7d").toList,
        "Detected outbound peer abcdefghij1234567890.onion\n".toList⟩ ∧
    (∀ written, ¬ scenarioE.peerIdentifier <:+:
      (peerInfoOutput scenarioEnv.hash false scenarioE {}).take written) ∧
    ¬ scenarioE.peerIdentifier <:+: updateFailed iostreamError ∧
    ¬ scenarioE.peerIdentifier <:+: updateFailed filesystemError :=
  have h := (onion_event_output scenarioEnv ⟨none, []⟩ scenarioE
    "abcdefghij1234567890".toList rfl).2 {} rfl
  ⟨⟨rfl, rfl⟩, h.2.1.trans (by decide),
    (h.2.2.2.2 (by decide) (h.2.2.2.1 ⟨⟨'a', by decide, by decide⟩, by decide⟩)).2,
    (h.1 iostreamError).2.2.2 (by decide), (h.1 filesystemError).2.2.2 (by decide)⟩

set_option maxRecDepth 100000 in
/-- C9 as stated fails on the success path: the event of Scenario E carries an identifier
that ends with `.onion`, and the text written to standard output while handling it
contains that raw identifier; and for the identifier `.onion` alone the record written to
the file contains the raw identifier too, whatever the hash. -/
theorem raw_onion_on_standard_output :
    ends_with scenarioE.peerIdentifier ".onion".toList = true ∧
      scenarioE.peerIdentifier <:+:
        (onPeerInfo scenarioEnv IoFault.none ⟨none, []⟩ scenarioE).out ∧
      ends_with bareOnion.peerIdentifier ".onion".toList = true ∧
      ∀ hash : List Char → Nat,
        bareOnion.peerIdentifier <:+: peerInfoOutput hash false bareOnion {} :=
  ⟨by decide, ⟨"Detected outbound peer ".toList, "\n".toList, by decide⟩, by decide,
    fun hash => by
      rw [peerInfoOutput_split hash false bareOnion {} (by decide)]
      exact ⟨[if false = true then ',' else '['] ++ "\n\x7b\"address\":\"".toList ++
        to_string (hash bareOnion.peerIdentifier % 2 ^ 64), afterAddress bareOnion {},
        by rw [List.append_assoc]; rfl⟩⟩

/-! ## C10 -/

theorem split_at_indexOf (a : Char) :
    ∀ l : List Char, a ∈ l → l = l.take (l.indexOf a) ++ a :: l.drop (l.indexOf a + 1) := by
  intro l
  induction l with
  | nil => intro h; exact absurd h (List.not_mem_nil a)
  | cons b t ih =>
    intro h
    by_cases hb : b = a
    · subst hb
      simp
    · have ht : a ∈ t := by
        rcases List.mem_cons.1 h with h1 | h1
        · exact absurd h1.symm hb
        · exact h1
      rw [List.indexOf_cons_ne _ hb]
      simp only [List.take_succ_cons, List.drop_succ_cons, List.cons_append]
      rw [← ih ht]

theorem parseAddress_none (env : Env) (address : List Char)
    (h4 : ¬ SpecIPv4Prefixed address) (h6 : ¬ SpecIPv6Bracketed env address) :
    parseAddress env address = none := by
  unfold parseAddress
  split_ifs with hb hp6 hc hp4
  · exfalso
    apply h6
    obtain ⟨hhead, hcont⟩ := hb
    match address, hhead, hcont with
    | c :: tl, hhead, hcont =>
      have hc : c = '[' := by simpa using hhead
      subst hc
      have hmem : ']' ∈ tl := by
        have : ']' ∈ '[' :: tl := by simpa using hcont
        rcases List.mem_cons.1 this with h1 | h1
        · exact absurd h1 (by decide)
        · exact h1
      have hidx : ('[' :: tl).indexOf ']' - 1 = tl.indexOf ']' := by
        rw [List.indexOf_cons_ne _ (by decide : '[' ≠ ']')]
        rfl
      simp only [List.drop_succ_cons, List.drop_zero, hidx] at hp6
      refine ⟨tl.take (tl.indexOf ']'), tl.drop (tl.indexOf ']' + 1), ?_, hp6⟩
      have := split_at_indexOf ']' tl hmem
      simp only [List.singleton_append, List.cons_append, List.append_assoc, List.nil_append]
      rw [← this]
  · rfl
  · exfalso
    apply h4
    have hmem : ':' ∈ address := by simpa using hc
    refine ⟨address.take (address.indexOf ':'), address.drop (address.indexOf ':' + 1), ?_, hp4⟩
    have := split_at_indexOf ':' address hmem
    simpa using this
  · rfl
  · rfl

/-- C10, as the code has it: for every address string that neither holds a `:` preceded by
an IPv4 literal nor begins with `[`, an IPv6 literal and `]`, `geolocate` returns the
empty geolocation without opening or querying the database and without throwing. -/
theorem geolocate_without_database (env : Env) (address : List Char)
    (h4 : ¬ SpecIPv4Prefixed address) (h6 : ¬ SpecIPv6Bracketed env address) :
    (geolocate env address).calls = [] ∧
      (geolocate env address).result = Except.ok ⟨[], [], [], [], Double.nan, Double.nan⟩ := by
  unfold geolocate
  rw [parseAddress_none env address h4 h6]
  exact ⟨rfl, rfl⟩

/-- Witness of C10 as the code has it: a hidden-service name, with no `:` and no `[`. -/
theorem geolocate_without_database_witness :
    (¬ SpecIPv4Prefixed "abcdefghij1234567890.onion".toList ∧
      ¬ SpecIPv6Bracketed scenarioEnv "abcdefghij1234567890.onion".toList) ∧
    (geolocate scenarioEnv "abcdefghij1234567890.onion".toList).calls = [] ∧
      (geolocate scenarioEnv "abcdefghij1234567890.onion".toList).result =
        Except.ok ⟨[], [], [], [], Double.nan, Double.nan⟩ :=
  have h4 : ¬ SpecIPv4Prefixed "abcdefghij1234567890.onion".toList := by
    rintro ⟨host, rest, h, _⟩
    have hmem : ':' ∈ "abcdefghij1234567890.onion".toList := by rw [h]; simp
    exact absurd hmem (by decide)
  have h6 : ¬ SpecIPv6Bracketed scenarioEnv "abcdefghij1234567890.onion".toList := by
    rintro ⟨host, rest, h, _⟩
    have hhead := congrArg List.head? h
    simp at hhead
  ⟨⟨h4, h6⟩, geolocate_without_database scenarioEnv _ h4 h6⟩

/-- C10 as stated fails: `1.2.3.4:not-a-port` is neither of the form
`<IPv4 literal>:<port>` nor of the form `[<IPv6 literal>]:<port>`, yet `geolocate` opens
the database and looks `1.2.3.4` up, and throws when the database cannot be opened. -/
theorem geolocate_ignores_port :
    ¬ SpecIPv4Form "1.2.3.4:not-a-port".toList ∧
      ¬ SpecIPv6Form scenarioEnv "1.2.3.4:not-a-port".toList ∧
      (geolocate scenarioEnv "1.2.3.4:not-a-port".toList).calls =
        [DbCall.open_, DbCall.lookup (SockAddr.AF_INET "1.2.3.4".toList)] ∧
      (geolocate noDatabaseEnv "1.2.3.4:not-a-port".toList).result =
        Except.error "Opening the IP geolocate database failed".toList := by
  refine ⟨?_, ?_, by decide, rfl⟩
  · rintro ⟨host, port, h, _, hne, hdig⟩
    have hlast : port.getLast hne = 't' := by
      have h2 := congrArg List.getLast? h
      rw [List.getLast?_append_of_ne_nil _ hne, List.getLast?_eq_getLast _ hne] at h2
      exact (Option.some.inj h2).symm
    have hd := hdig _ (List.getLast_mem hne)
    rw [hlast] at hd
    exact absurd hd (by decide)
  · rintro ⟨host, port, h, _⟩
    have hhead := congrArg List.head? h
    simp at hhead

/-! ## C11 -/

theorem appendAll_absent (env : Env) (out : List Char) (p : PeerInfo) (ps : List PeerInfo)
    (hok : ∀ q ∈ p :: ps, Geolocates env q) :
    (appendAll env ⟨none, out⟩ (p :: ps)).file =
      some ("[\n".toList ++ ",\n".toList.intercalate ((p :: ps).map (peerObjectOf env))) := by
  have hp := onPeerInfo_file env ⟨none, out⟩ p (hok p (by simp))
  have hw : onPeerInfo env IoFault.none ⟨none, out⟩ p =
      ⟨some ("[\n".toList ++ peerObjectOf env p),
        (onPeerInfo env IoFault.none ⟨none, out⟩ p).out⟩ := by
    rw [← show (onPeerInfo env IoFault.none ⟨none, out⟩ p).file =
      some ("[\n".toList ++ peerObjectOf env p) from by rw [hp]; simp]
  have hrest := appendAll_existing env ps ("[\n".toList ++ peerObjectOf env p)
    (onPeerInfo env IoFault.none ⟨none, out⟩ p).out (fun r hr => hok r (by simp [hr]))
  simp only [appendAll, List.foldl_cons] at hrest ⊢
  rw [hw, hrest, List.map_cons, intercalate_cons_flatMap]
  simp [List.flatMap_map, List.flatMap]
  rfl

theorem archiveCycle_deleted (f : CycleFaults) (git : GitResults) (w : World)
    (hlock : f.lockThrows = false) (hdel : f.remove = RemoveFault.none) :
    (archiveCycle f git w).world.file = none ∧ (archiveCycle f git w).exitFailure = false ∧
      (archiveCycle f git w).errorOccurred = (finalizeAndUpload f.finalize git w.file).2.isSome := by
  simp only [archiveCycle, hlock, hdel, deleteRecentPeersJsonFile]
  cases (finalizeAndUpload f.finalize git w.file).2 <;> simp

/-- C11: an archive cycle in which the finalize step or the upload throws, and whose
deletion of the file succeeds, leaves the file absent, sets the error flag and does not
make `main` return; the next append then starts a new file with `[`, and the finalize
step of the next cycle holds only the records appended since, whatever the file held when
the failed cycle began. -/
theorem failed_cycle_deletes_file (env : Env) (f : CycleFaults) (git : GitResults) (w : World)
    (hlock : f.lockThrows = false)
    (hfail : f.finalize ≠ IoFault.none ∨ ∃ what, uploadRecentPeersJsonFile git = Except.error what)
    (hdel : f.remove = RemoveFault.none) :
    (archiveCycle f git w).world.file = none ∧
      (archiveCycle f git w).exitFailure = false ∧
      (archiveCycle f git w).errorOccurred = true ∧
      (∀ p, Geolocates env p →
        (onPeerInfo env IoFault.none (archiveCycle f git w).world p).file =
          some ("[\n".toList ++ peerObjectOf env p)) ∧
      (∀ (p : PeerInfo) (ps : List PeerInfo) (git2 : GitResults),
        (∀ q ∈ p :: ps, Geolocates env q) →
        (finalizeAndUpload IoFault.none git2
            (appendAll env (archiveCycle f git w).world (p :: ps)).file).1 =
          some ("[\n".toList ++ ",\n".toList.intercalate ((p :: ps).map (peerObjectOf env)) ++
            "\n]".toList)) ∧
      ∀ git2 : GitResults,
        (finalizeAndUpload IoFault.none git2 (archiveCycle f git w).world.file).1 =
          some "[\n]".toList := by
  obtain ⟨hfile, hexit, herr⟩ := archiveCycle_deleted f git w hlock hdel
  have hworld : (archiveCycle f git w).world = ⟨none, (archiveCycle f git w).world.out⟩ := by
    rw [← hfile]
  have hthrown : (finalizeAndUpload f.finalize git w.file).2.isSome = true := by
    rcases hfail with h | ⟨what, h⟩
    · cases hf : f.finalize with
      | none => exact absurd hf h
      | existsThrows what => simp [finalizeAndUpload]
      | openFails what => simp [finalizeAndUpload]
      | writeFails written what => simp [finalizeAndUpload]
    · cases hf : f.finalize with
      | none => simp [finalizeAndUpload, h]
      | existsThrows what => simp [finalizeAndUpload]
      | openFails what => simp [finalizeAndUpload]
      | writeFails written what => simp [finalizeAndUpload]
  refine ⟨hfile, hexit, herr.trans hthrown, ?_, ?_, ?_⟩
  · intro p hp
    rw [onPeerInfo_file env _ p hp, hfile]
    simp
  · intro p ps git2 hok
    rw [hworld, appendAll_absent env _ p ps hok]
    simp [finalizeAndUpload, finalize, finalizeOutput, endl]
  · intro git2
    rw [hfile]
    rfl

set_option maxRecDepth 100000 in
/-- Witness of C11, Scenario D: the file holds the record of Scenario A, the push fails and
the deletion succeeds; the file is absent afterwards and the next append, of the event of
Scenario E, starts a new file. -/
theorem failed_cycle_deletes_file_witness :
    (noCycleFaults.lockThrows = false ∧
      (noCycleFaults.finalize ≠ IoFault.none ∨
        ∃ what, uploadRecentPeersJsonFile gitPushFails = Except.error what) ∧
      noCycleFaults.remove = RemoveFault.none) ∧
    (archiveCycle noCycleFaults gitPushFails
        (onPeerInfo scenarioEnv IoFault.none ⟨none, []⟩ scenarioA)).world.file = none ∧
    (onPeerInfo scenarioEnv IoFault.none
        (archiveCycle noCycleFaults gitPushFails
          (onPeerInfo scenarioEnv IoFault.none ⟨none, []⟩ scenarioA)).world scenarioE).file =
      some ("[\n\x7b\"address\":\"5485694583345478524.onion\",\"capabilities\":\"0\"," ++
        "\"user_agent\":\"MW/MWC 5.3.2\",\"base_fee\":\"1000000\"," ++
        "\"continent\":null,\"country\":null,\"subdivision\":null,\"city\":null," ++
        "\"longitude\":null,\"latitude\":null\x7d").toList :=
  have hfail : noCycleFaults.finalize ≠ IoFault.none ∨
      ∃ what, uploadRecentPeersJsonFile gitPushFails = Except.error what :=
    Or.inr ⟨_, rfl⟩
  ⟨⟨rfl, hfail, rfl⟩,
    (failed_cycle_deletes_file scenarioEnv noCycleFaults gitPushFails
      (onPeerInfo scenarioEnv IoFault.none ⟨none, []⟩ scenarioA) rfl hfail rfl).1,
    ((failed_cycle_deletes_file scenarioEnv noCycleFaults gitPushFails
      (onPeerInfo scenarioEnv IoFault.none ⟨none, []⟩ scenarioA) rfl hfail rfl).2.2.2.1
        scenarioE ⟨_, rfl⟩).trans (by decide)⟩

/-! ## C12 -/

/-- C12: when `geolocate` throws for the identifier of a peer event, the callback returns,
whatever the file operations would have met, with the file exactly as it was (an absent
file stays absent) and with one line added to standard output, `Updating recent peers
JSON file failed: ` followed by one of the two messages of `geolocate`. -/
theorem geolocation_failure_drops_event (env : Env) (fault : IoFault) (w : World)
    (p : PeerInfo) (what : List Char)
    (h : (geolocate env p.peerIdentifier).result = Except.error what) :
    onPeerInfo env fault w p =
        ⟨w.file, w.out ++ "Updating recent peers JSON file failed: ".toList ++ what ++
          "\n".toList⟩ ∧
      (onPeerInfo env fault w p).file = w.file ∧
      (what = "Opening the IP geolocate database failed".toList ∨
        what = "Looking up the IP address in the IP geolocate database failed".toList) ∧
      ("Updating recent peers JSON file failed: ".toList ++ what ++ "\n".toList).count '\n' =
        1 := by
  have hw := geolocate_error_cases env _ what h
  have hrun : onPeerInfo env fault w p =
      ⟨w.file, w.out ++ "Updating recent peers JSON file failed: ".toList ++ what ++
        "\n".toList⟩ := by
    simp [onPeerInfo, h, updateFailed, endl]
  refine ⟨hrun, by rw [hrun], hw, ?_⟩
  rcases hw with rfl | rfl <;> decide

/-- Witness of C12: the event of Scenario A on a platform whose database cannot be opened,
the file being absent. -/
theorem geolocation_failure_drops_event_witness :
    (geolocate noDatabaseEnv scenarioA.peerIdentifier).result =
        Except.error "Opening the IP geolocate database failed".toList ∧
      onPeerInfo noDatabaseEnv IoFault.none ⟨none, []⟩ scenarioA =
        ⟨none, ("Updating recent peers JSON file failed: " ++
          "Opening the IP geolocate database failed\n").toList⟩ :=
  ⟨rfl, (geolocation_failure_drops_event noDatabaseEnv IoFault.none ⟨none, []⟩ scenarioA
    "Opening the IP geolocate database failed".toList rfl).1.trans (by decide)⟩

/-! ## C13 -/

theorem intercalate_concat (sep y : List Char) (xs : List (List Char)) (h : xs ≠ []) :
    sep.intercalate (xs ++ [y]) = sep.intercalate xs ++ sep ++ y := by
  cases xs with
  | nil => exact absurd rfl h
  | cons x rest =>
    rw [List.cons_append, intercalate_cons_flatMap, intercalate_cons_flatMap]
    simp [List.flatMap_append, List.flatMap_cons]

theorem peerObject_ends (hash : List Char → Nat) (p : PeerInfo) (g : Geolocation) :
    ∃ b, peerObject hash p g = b ++ ['\x7d'] :=
  ⟨_, rfl⟩

theorem peerObject_ne_nil (hash : List Char → Nat) (p : PeerInfo) (g : Geolocation) :
    peerObject hash p g ≠ [] := by
  obtain ⟨b, hb⟩ := peerObject_ends hash p g
  rw [hb]
  simp

theorem intercalate_ends (sep : List Char) (xs : List (List Char)) (h : xs ≠ [])
    (hx : ∀ x ∈ xs, ∃ b, x = b ++ ['\x7d']) : ∃ b, sep.intercalate xs = b ++ ['\x7d'] := by
  rcases List.eq_nil_or_concat xs with rfl | ⟨init, y, rfl⟩
  · exact absurd rfl h
  · obtain ⟨b, hb⟩ := hx y (by simp)
    by_cases hi : init = []
    · subst hi
      exact ⟨b, by simp [List.intercalate, hb]⟩
    · refine ⟨sep.intercalate init ++ sep ++ b, ?_⟩
      have := intercalate_concat sep y init hi
      simp only [List.concat_eq_append] at *
      rw [this, hb]
      simp

theorem open_after_append (env : Env) (file : Option (List Char)) (p : PeerInfo)
    (g : Geolocation) (h : SpecAbsentOrOpen env file) :
    SpecAbsentOrOpen env
      (some (file.getD [] ++ peerInfoOutput env.hash file.isSome p g)) := by
  right
  refine ⟨_, rfl, ?_⟩
  rcases h with rfl | ⟨c, rfl, rs, hrs, rfl⟩
  · refine ⟨[(p, g)], by simp, ?_⟩
    simp [peerInfoOutput, endl, List.intercalate]
  · refine ⟨rs ++ [(p, g)], by simp, ?_⟩
    rw [List.map_append, List.map_singleton,
      intercalate_concat _ _ _ (by simpa using hrs)]
    simp [peerInfoOutput, endl]

theorem onPeerInfo_keeps_open (env : Env) (fault : IoFault) (w : World) (p : PeerInfo)
    (hsafe : FailsBeforeWriting (Op.append p fault)) (h : SpecAbsentOrOpen env w.file) :
    SpecAbsentOrOpen env (onPeerInfo env fault w p).file := by
  unfold onPeerInfo
  cases hres : (geolocate env p.peerIdentifier).result with
  | error what => exact h
  | ok g =>
    cases fault with
    | none => exact open_after_append env w.file p g h
    | existsThrows what => exact h
    | openFails what => exact h
    | writeFails written what => exact absurd hsafe (by simp [FailsBeforeWriting])

theorem archiveCycle_file (f : CycleFaults) (git : GitResults) (w : World)
    (h : (archiveCycle f git w).exitFailure = false) :
    (archiveCycle f git w).world.file = none ∨ (archiveCycle f git w).world.file = w.file := by
  unfold archiveCycle at h ⊢
  by_cases hl : f.lockThrows = true
  · right
    simp [hl]
  · left
    simp only [hl] at h ⊢
    generalize finalizeAndUpload f.finalize git w.file = tried at h ⊢
    obtain ⟨file1, err⟩ := tried
    cases hr : f.remove <;> cases hs : file1 <;> cases err <;>
      simp [deleteRecentPeersJsonFile, hr, hs] at h ⊢

theorem step_keeps_open (env : Env) (w w2 : World) (op : Op) (hsafe : FailsBeforeWriting op)
    (h : SpecAbsentOrOpen env w.file) (hstep : step env w op = some w2) :
    SpecAbsentOrOpen env w2.file := by
  cases op with
  | append p fault =>
    simp only [step, Option.some.injEq] at hstep
    rw [← hstep]
    exact onPeerInfo_keeps_open env fault w p hsafe h
  | cycle f git =>
    simp only [step] at hstep
    split_ifs at hstep with hexit
    have hw := Option.some.inj hstep
    rw [← hw]
    rcases archiveCycle_file f git w (by simpa using hexit) with h0 | h0
    · exact Or.inl h0
    · rw [h0]; exact h

theorem run_keeps_open (env : Env) (ops : List Op) :
    ∀ w w2 : World, (∀ op ∈ ops, FailsBeforeWriting op) → SpecAbsentOrOpen env w.file →
      run env w ops = some w2 → SpecAbsentOrOpen env w2.file := by
  induction ops with
  | nil =>
    intro w w2 _ h hrun
    simp only [run, Option.some.injEq] at hrun
    rw [← hrun]; exact h
  | cons op rest ih =>
    intro w w2 hsafe h hrun
    simp only [run] at hrun
    cases hstep : step env w op with
    | none => simp [hstep] at hrun
    | some w1 =>
      simp only [hstep] at hrun
      exact ih w1 w2 (fun o ho => hsafe o (by simp [ho]))
        (step_keeps_open env w w1 op (hsafe op (by simp)) h hstep) hrun

theorem startup_absent (r : RemoveFault) (pre w0 : World) (h : startup r pre = some w0) :
    w0.file = none := by
  unfold startup at h
  cases r <;> cases hf : pre.file <;>
    simp [deleteRecentPeersJsonFile, hf] at h <;> rw [← h] <;> simp [hf]

theorem open_ends (env : Env) (c : List Char) (h : SpecOpen env c) :
    c.getLast? = some '\x7d' := by
  obtain ⟨rs, hrs, rfl⟩ := h
  obtain ⟨b, hb⟩ := intercalate_ends ",\n".toList
    (rs.map (fun r => peerObject env.hash r.1 r.2)) (by simpa using hrs)
    (by
      intro x hx
      obtain ⟨r, _, rfl⟩ := List.mem_map.1 hx
      exact peerObject_ends env.hash r.1 r.2)
  rw [hb, ← List.append_assoc]
  exact List.getLast?_concat _

/-- C13, as the code has it: after startup and any sequence of appends and archive cycles
in which every append succeeds or fails before anything is written (in `geolocate`, in
`filesystem::exists` or at opening the stream) and every cycle may fail at any step, the
log file, as long as `main` has not returned, is absent or Open: `[`, a newline, one or
more record objects separated by a comma and a newline, and no closing `]`. -/
theorem file_absent_or_open (env : Env) (r : RemoveFault) (pre w0 w : World) (ops : List Op)
    (hstart : startup r pre = some w0) (hops : ∀ op ∈ ops, FailsBeforeWriting op)
    (hrun : run env w0 ops = some w) :
    SpecAbsentOrOpen env w.file ∧ ∀ c, w.file = some c → c.getLast? = some '\x7d' := by
  have hinv := run_keeps_open env ops w0 w hops (Or.inl (startup_absent r pre w0 hstart)) hrun
  refine ⟨hinv, ?_⟩
  intro c hc
  rcases hinv with h | ⟨c2, h2, hopen⟩
  · rw [h] at hc; exact absurd hc (by simp)
  · rw [hc] at h2
    rw [Option.some.inj h2]
    exact open_ends env c2 hopen

set_option maxRecDepth 100000 in
/-- Witness of C13 as the code has it: a stale file is deleted at startup, then the sample
operations run; the file holds the one record appended after the failed cycle. -/
theorem file_absent_or_open_witness :
    (startup RemoveFault.none ⟨some "stale".toList, []⟩ = some ⟨none, []⟩ ∧
      (∀ op ∈ sampleOps, FailsBeforeWriting op) ∧
      run scenarioEnv ⟨none, []⟩ sampleOps = some sampleWorld) ∧
    SpecAbsentOrOpen scenarioEnv sampleWorld.file :=
  have hops : ∀ op ∈ sampleOps, FailsBeforeWriting op := by
    intro op hop
    simp only [sampleOps, List.mem_cons, List.mem_singleton, List.not_mem_nil, or_false] at hop
    rcases hop with rfl | rfl | rfl | rfl <;> exact trivial
  have hrun : run scenarioEnv ⟨none, []⟩ sampleOps = some sampleWorld := by decide
  ⟨⟨rfl, hops, hrun⟩,
    (file_absent_or_open scenarioEnv RemoveFault.none ⟨some "stale".toList, []⟩ ⟨none, []⟩
      sampleWorld sampleOps rfl hops hrun).1⟩

theorem open_ne_bracket (env : Env) : ¬ SpecOpen env "[\n".toList := by
  rintro ⟨rs, hrs, h⟩
  cases rs with
  | nil => exact hrs rfl
  | cons r rest =>
    rw [List.map_cons, intercalate_cons_flatMap] at h
    have hlen := congrArg List.length h
    have hpos : 0 < (peerObject env.hash r.1 r.2).length :=
      List.length_pos.2 (peerObject_ne_nil env.hash r.1 r.2)
    simp only [List.length_append] at hlen
    have h2 : "[\n".toList.length = 2 := rfl
    omega

set_option maxRecDepth 100000 in
/-- C13 as stated fails: after startup on an absent file, an append whose write fails once
`[` and the newline have reached the file leaves a file that is neither absent nor Open,
holding `[` and a newline and no record; the next append, which succeeds, then writes a
comma first, and the file is not an array of records. -/
theorem write_failure_leaves_file_unopened :
    startup RemoveFault.none ⟨none, []⟩ = some ⟨none, []⟩ ∧
      run scenarioEnv ⟨none, []⟩ [Op.append scenarioA (IoFault.writeFails 2 iostreamError)] =
        some ⟨some "[\n".toList,
          "Updating recent peers JSON file failed: basic_ios::clear: iostream error\n".toList⟩ ∧
      ¬ SpecAbsentOrOpen scenarioEnv (some "[\n".toList) ∧
      (run scenarioEnv ⟨none, []⟩
          [Op.append scenarioA (IoFault.writeFails 2 iostreamError),
            Op.append scenarioE IoFault.none]).map World.file =
        some (some ("[\n,\n\x7b\"address\":\"5485694583345478524.onion\"," ++
          "\"capabilities\":\"0\",\"user_agent\":\"MW/MWC 5.3.2\",\"base_fee\":\"1000000\"," ++
          "\"continent\":null,\"country\":null,\"subdivision\":null,\"city\":null," ++
          "\"longitude\":null,\"latitude\":null\x7d").toList) := by
  refine ⟨rfl, by decide, ?_, by decide⟩
  rintro (h | ⟨c, hc, hopen⟩)
  · exact absurd h (by simp)
  · rw [← Option.some.inj hc] at hopen
    exact open_ne_bracket scenarioEnv hopen

/-! ## C14 -/

set_option maxRecDepth 100000 in
/-- C14, as the code has it: for a peer identifier that ends with `.onion` and neither
holds a `:` preceded by an IPv4 literal nor begins with `[`, an IPv6 literal and `]` (so
for every identifier with no `:` that does not begin with `[`), `geolocate` returns the
empty geolocation without any use of the database, and the record written has the hashed
address and `null` for continent, country, subdivision, city, longitude and latitude. -/
theorem onion_without_address_not_located (env : Env) (w : World) (p : PeerInfo)
    (hon : ends_with p.peerIdentifier ".onion".toList = true) :
    ((':' ∉ p.peerIdentifier ∧ p.peerIdentifier.head? ≠ some '[') →
        ¬ SpecIPv4Prefixed p.peerIdentifier ∧ ¬ SpecIPv6Bracketed env p.peerIdentifier) ∧
      (¬ SpecIPv4Prefixed p.peerIdentifier → ¬ SpecIPv6Bracketed env p.peerIdentifier →
        (geolocate env p.peerIdentifier).calls = [] ∧
        (geolocate env p.peerIdentifier).result =
          Except.ok ⟨[], [], [], [], Double.nan, Double.nan⟩ ∧
        (onPeerInfo env IoFault.none w p).file =
          some (w.file.getD [] ++ [if w.file.isSome then ',' else '['] ++
            "\n\x7b\"address\":\"".toList ++
            to_string (env.hash p.peerIdentifier % 2 ^ 64) ++
            ".onion\",\"capabilities\":\"".toList ++ to_string (p.capabilities % 2 ^ 32) ++
            "\",\"user_agent\":".toList ++ quoted (storedUserAgent p.userAgent) ++
            ",\"base_fee\":\"".toList ++ to_string (p.baseFee % 2 ^ 64) ++
            "\",\"continent\":null,\"country\":null".toList ++
            ",\"subdivision\":null,\"city\":null".toList ++
            ",\"longitude\":null,\"latitude\":null\x7d".toList)) := by
  constructor
  · rintro ⟨hcolon, hhead⟩
    constructor
    · rintro ⟨host, rest, h, _⟩
      exact hcolon (by rw [h]; simp)
    · rintro ⟨host, rest, h, _⟩
      exact hhead (by rw [h]; simp)
  · intro h4 h6
    have hnone := parseAddress_none env p.peerIdentifier h4 h6
    have hres : (geolocate env p.peerIdentifier).result =
        Except.ok ⟨[], [], [], [], Double.nan, Double.nan⟩ := by
      unfold geolocate; rw [hnone]
    refine ⟨by unfold geolocate; rw [hnone], hres, ?_⟩
    simp only [onPeerInfo, hres, peerInfoOutput, peerObject, storedAddress_onion env.hash _ hon,
      quoted_of_plain _ (onion_text_plain _), textField, coordinateField, Double.isnan, endl,
      List.isEmpty_nil, if_true, Bool.not_true, Bool.false_eq_true, if_false]
    simp

set_option maxRecDepth 100000 in
/-- Witness of C14 as the code has it: the event of Scenario E, whose identifier has no
`:` and does not begin with `[`, on an absent file. -/
theorem onion_without_address_not_located_witness :
    (ends_with scenarioE.peerIdentifier ".onion".toList = true ∧
      ':' ∉ scenarioE.peerIdentifier ∧ scenarioE.peerIdentifier.head? ≠ some '[') ∧
    (geolocate scenarioEnv scenarioE.peerIdentifier).calls = [] ∧
    (onPeerInfo scenarioEnv IoFault.none ⟨none, []⟩ scenarioE).file =
      some ("[\n\x7b\"address\":\"5485694583345478524.onion\",\"capabilities\":\"0\"," ++
        "\"user_agent\":\"MW/MWC 5.3.2\",\"base_fee\":\"1000000\"," ++
        "\"continent\":null,\"country\":null,\"subdivision\":null,\"city\":null," ++
        "\"longitude\":null,\"latitude\":null\x7d").toList :=
  have hon : ends_with scenarioE.peerIdentifier ".onion".toList = true := by decide
  have hform : ':' ∉ scenarioE.peerIdentifier ∧ scenarioE.peerIdentifier.head? ≠ some '[' := by
    decide
  have h := (onion_without_address_not_located scenarioEnv ⟨none, []⟩ scenarioE hon).1 hform
  ⟨⟨hon, hform⟩,
    ((onion_without_address_not_located scenarioEnv ⟨none, []⟩ scenarioE hon).2 h.1 h.2).1,
    ((onion_without_address_not_located scenarioEnv ⟨none, []⟩ scenarioE hon).2
      h.1 h.2).2.2.trans (by decide)⟩

set_option maxRecDepth 100000 in
/-- C14 as stated fails: the identifier `1.2.3.4:3414.onion` ends with `.onion`, yet
`geolocate` opens the database and looks `1.2.3.4` up, and the record written has the
hashed address together with a continent, a country, a longitude and a latitude. -/
theorem onion_with_address_is_located :
    ends_with onionWithAddress.peerIdentifier ".onion".toList = true ∧
      (geolocate scenarioEnv onionWithAddress.peerIdentifier).calls =
        [DbCall.open_, DbCall.lookup (SockAddr.AF_INET "1.2.3.4".toList)] ∧
      (onPeerInfo scenarioEnv IoFault.none ⟨none, []⟩ onionWithAddress).file =
        some ("[\n\x7b\"address\":\"7783151330328845744.onion\",\"capabilities\":\"1\"," ++
          "\"user_agent\":\"MWC Pay 1.0.0\",\"base_fee\":\"1000000\"," ++
          "\"continent\":\"Europe\",\"country\":\"Germany\",\"subdivision\":null," ++
          "\"city\":null,\"longitude\":\"10.000000\",\"latitude\":\"51.000000\"\x7d").toList := by
  refine ⟨by decide, by decide, by decide⟩

/-! ## C15 -/

theorem timeToUpload_iff (accessToken : List Char) (s : LoopState) (t : Tick) :
    timeToUpload accessToken s t = true ↔
      accessToken ≠ [] ∧
        t.now - s.lastUploadRecentPeersJsonFileTime ≥ UPLOAD_RECENT_PEERS_JSON_FILE_INTERVAL := by
  cases accessToken <;> simp [timeToUpload]

theorem loopTick_invariant (accessToken : List Char) (start : Int) (s : LoopState) (t : Tick)
    (hclock : t.now ≤ t.nowAfter) (h : LoopInvariant start s) :
    LoopInvariant start (loopTick accessToken s t) := by
  unfold loopTick
  by_cases hex : s.exited = true
  · simpa [hex] using h
  · have hex2 : s.exited = false := by simpa using hex
    obtain ⟨hchain, hlast, hall⟩ := h
    obtain ⟨hstart, hhead⟩ := hlast hex2
    simp only [hex2, Bool.false_eq_true, if_false]
    by_cases hc : timeToUpload accessToken s t = true
    · have hint := ((timeToUpload_iff accessToken s t).1 hc).2
      have hchain2 : List.Chain'
          (fun later earlier => later - earlier ≥ UPLOAD_RECENT_PEERS_JSON_FILE_INTERVAL)
          (t.now :: s.starts) := by
        rw [List.chain'_cons']
        refine ⟨?_, hchain⟩
        intro y hy
        have := hhead y hy
        show t.now - y ≥ UPLOAD_RECENT_PEERS_JSON_FILE_INTERVAL
        omega
      have hall2 : ∀ x ∈ t.now :: s.starts,
          x - start ≥ UPLOAD_RECENT_PEERS_JSON_FILE_INTERVAL := by
        intro x hx
        rcases List.mem_cons.1 hx with rfl | hx
        · omega
        · exact hall x hx
      have hpos : (0 : Int) ≤ UPLOAD_RECENT_PEERS_JSON_FILE_INTERVAL := by decide
      simp only [hc, if_true]
      split_ifs
      · exact ⟨hchain2, by simp, hall2⟩
      · refine ⟨hchain2, fun _ => ⟨?_, ?_⟩, hall2⟩
        · show start ≤ t.nowAfter
          omega
        · intro x hx
          simp only [List.head?_cons, Option.mem_def, Option.some.injEq] at hx
          show x ≤ t.nowAfter
          omega
    · simp only [hc, Bool.false_eq_true, if_false]
      exact ⟨hchain, hlast, hall⟩

theorem foldl_loopTick_invariant (accessToken : List Char) (start : Int) (ticks : List Tick) :
    ∀ s : LoopState, (∀ t ∈ ticks, t.now ≤ t.nowAfter) → LoopInvariant start s →
      LoopInvariant start (ticks.foldl (loopTick accessToken) s) := by
  induction ticks with
  | nil => intro s _ h; exact h
  | cons t rest ih =>
    intro s hclock h
    rw [List.foldl_cons]
    exact ih _ (fun u hu => hclock u (by simp [hu]))
      (loopTick_invariant accessToken start s t (hclock t (by simp)) h)

theorem foldl_loopTick_empty (ticks : List Tick) :
    ∀ s : LoopState, ticks.foldl (loopTick []) s = s := by
  induction ticks with
  | nil => intro s; rfl
  | cons t rest ih =>
    intro s
    rw [List.foldl_cons]
    have : loopTick [] s t = s := by
      simp [loopTick, timeToUpload]
    rw [this, ih]

/-- C15: an iteration of the scheduler loop starts an archive cycle exactly when the access
token is not empty and the steady clock is at least 168 hours past the reference time;
otherwise it changes nothing; after a cycle that does not make `main` return, failed or
not, the reference time is the clock reading taken then. With an empty token no cycle is
ever started and the loop leaves the file as it is; and, the steady clock never going
back, two consecutive cycle starts are at least 168 hours apart, the first at least 168
hours after the start of the loop. -/
theorem scheduler_interval (accessToken : List Char) (start : Int) (w : World)
    (ticks : List Tick) (hclock : ∀ t ∈ ticks, t.now ≤ t.nowAfter) :
    (∀ (s : LoopState) (t : Tick), s.exited = false →
      ((loopTick accessToken s t).starts = t.now :: s.starts ↔
        accessToken ≠ [] ∧
          t.now - s.lastUploadRecentPeersJsonFileTime ≥
            UPLOAD_RECENT_PEERS_JSON_FILE_INTERVAL) ∧
      (¬ (accessToken ≠ [] ∧
          t.now - s.lastUploadRecentPeersJsonFileTime ≥
            UPLOAD_RECENT_PEERS_JSON_FILE_INTERVAL) → loopTick accessToken s t = s) ∧
      (accessToken ≠ [] ∧
          t.now - s.lastUploadRecentPeersJsonFileTime ≥
            UPLOAD_RECENT_PEERS_JSON_FILE_INTERVAL →
        (loopTick accessToken s t).world = (archiveCycle t.faults t.git s.world).world ∧
        ((archiveCycle t.faults t.git s.world).exitFailure = false →
          (loopTick accessToken s t).lastUploadRecentPeersJsonFileTime = t.nowAfter))) ∧
    (accessToken = [] →
      (schedulerLoop accessToken start w ticks).starts = [] ∧
        (schedulerLoop accessToken start w ticks).world = w) ∧
    List.Chain' (fun later earlier => later - earlier ≥ UPLOAD_RECENT_PEERS_JSON_FILE_INTERVAL)
      (schedulerLoop accessToken start w ticks).starts ∧
    ∀ x ∈ (schedulerLoop accessToken start w ticks).starts,
      x - start ≥ UPLOAD_RECENT_PEERS_JSON_FILE_INTERVAL := by
  have hinv : LoopInvariant start (schedulerLoop accessToken start w ticks) :=
    foldl_loopTick_invariant accessToken start ticks ⟨start, w, false, []⟩ hclock
      ⟨List.chain'_nil, fun _ => ⟨le_refl _, by simp⟩, by simp⟩
  refine ⟨?_, ?_, hinv.1, hinv.2.2⟩
  · intro s t hex
    refine ⟨?_, ?_, ?_⟩
    · rw [← timeToUpload_iff]
      unfold loopTick
      by_cases hc : timeToUpload accessToken s t = true
      · simp only [hex, hc, Bool.false_eq_true, if_false, if_true, iff_true]
        split_ifs <;> rfl
      · simp only [hex, hc, Bool.false_eq_true, if_false, iff_false]
        intro h
        have := congrArg List.length h
        simp at this
    · intro hn
      rw [← timeToUpload_iff] at hn
      simp [loopTick, hex, hn]
    · intro hy
      rw [← timeToUpload_iff] at hy
      unfold loopTick
      simp only [hex, hy, Bool.false_eq_true, if_false, if_true]
      constructor
      · split_ifs <;> rfl
      · intro hne
        simp [hne]
  · rintro rfl
    unfold schedulerLoop
    rw [foldl_loopTick_empty]
    exact ⟨rfl, rfl⟩

/-- Witness of C15: the sample loop with the token `token`; cycles start at the interval
and five nanoseconds after twice the interval, not in between. -/
theorem scheduler_interval_witness :
    (∀ t ∈ sampleTicks, t.now ≤ t.nowAfter) ∧
    (schedulerLoop "token".toList 0 ⟨none, []⟩ sampleTicks).starts =
      [1209600000000005, 604800000000000] ∧
    List.Chain' (fun later earlier => later - earlier ≥ UPLOAD_RECENT_PEERS_JSON_FILE_INTERVAL)
      (schedulerLoop "token".toList 0 ⟨none, []⟩ sampleTicks).starts :=
  have hclock : ∀ t ∈ sampleTicks, t.now ≤ t.nowAfter := by
    intro t ht
    simp only [sampleTicks, List.mem_cons, List.mem_singleton, List.not_mem_nil, or_false] at ht
    rcases ht with rfl | rfl | rfl | rfl <;> decide
  ⟨hclock, by decide,
    (scheduler_interval "token".toList 0 ⟨none, []⟩ sampleTicks hclock).2.2.1⟩

end MwcNodeMap
